import Mathlib

/-!
Wardrobe: a shallow embedding of the RESP codec and of the command dispatcher.

The Go sources embedded here are `respgo/respparser.go` (wire codec) and
`store/store.go` (keyspace and `processCommand`).

Conventions of the embedding.

* A Go `string` or `[]byte` is a `Bytes`, a list whose elements each stand for
  one byte.  `len(s)` is the length of the list.
* A Go `int` is an `Int`; arithmetic that can leave the signed 64-bit range is
  wrapped explicitly with `wrap64`.
* A `bufio.Reader` over a finite input is the list of bytes not yet consumed.
* A run-time panic (index out of range, negative `make` length) and a channel
  operation that can never complete are results of type `Fault`.
-/

namespace Wardrobe

/-! ## Bytes and decimal text -/

/-- A Go string or byte slice: one list element per byte. -/
abbrev Bytes := List Char

/-- The bytes of a literal. -/
def lit (s : String) : Bytes := s.data

/-- Bounds of Go's `int` on a 64-bit platform. -/
def maxInt64 : Int := 9223372036854775807

/-- Smallest value of Go's `int` on a 64-bit platform. -/
def minInt64 : Int := -9223372036854775808

/-- Largest `uint64`. -/
def maxUint64 : Nat := 18446744073709551615

/-- Two's complement wrap-around of a signed 64-bit result. -/
def wrap64 (z : Int) : Int := (z + 9223372036854775808) % 18446744073709551616 - 9223372036854775808

/-- The decimal digit `d` as a byte. -/
def digitChar (d : Nat) : Char := Char.ofNat (48 + d)

/-- Decimal digits of `n`, most significant first; `fuel` bounds the number of digits. -/
def decDigits : Nat → Nat → Bytes
  | 0, _ => []
  | fuel + 1, n => if n < 10 then [digitChar n] else decDigits fuel (n / 10) ++ [digitChar (n % 10)]

/-- The verb `%d` of `fmt.Sprintf` on a non-negative value. -/
def natToDec (n : Nat) : Bytes := decDigits (n + 1) n

/-- The verb `%d` of `fmt.Sprintf`, which is also `strconv.Itoa`. -/
def itoa (z : Int) : Bytes :=
  if z < 0 then '-' :: natToDec z.natAbs else natToDec z.natAbs

/-- The error, if any, that `strconv` reports next to the value. -/
inductive NumErr where
  | syntaxErr
  | rangeErr
  deriving DecidableEq, Repr

/-- The loop of `strconv.ParseUint(s, 10, 64)`: `n` is the accumulator.  The result is the
value together with the error; a syntax error yields 0, a range error yields `maxUint64`. -/
def parseUintLoop : Nat → Bytes → Nat × Option NumErr
  | n, [] => (n, none)
  | n, c :: cs =>
    if ¬ ('0' ≤ c ∧ c ≤ '9') then (0, some .syntaxErr)
    else
      let d := c.toNat - '0'.toNat
      -- cutoff = maxUint64/10 + 1
      if n ≥ maxUint64 / 10 + 1 then (maxUint64, some .rangeErr)
      else
        let n10 := n * 10
        let n1 := (n10 + d) % 18446744073709551616
        if n1 < n10 ∨ n1 > maxUint64 then (maxUint64, some .rangeErr)
        else parseUintLoop n1 cs

/-- Go `strconv.ParseUint(s, 10, 64)`. -/
def parseUint (s : Bytes) : Nat × Option NumErr :=
  if s = [] then (0, some .syntaxErr) else parseUintLoop 0 s

/-- Go `strconv.ParseInt(s, 10, 0)` with a 64-bit `int`: value and error.  This is what
`strconv.Atoi` returns (its fast path for short inputs computes the same pair). -/
def parseInt (s : Bytes) : Int × Option NumErr :=
  match s with
  | [] => (0, some .syntaxErr)
  | c :: cs =>
    let neg := c = '-'
    let body := if c = '+' ∨ c = '-' then cs else c :: cs
    match parseUint body with
    | (_, some .syntaxErr) => (0, some .syntaxErr)
    | (un, err) =>
      -- cutoff = 1 << 63
      if ¬ neg ∧ un ≥ 9223372036854775808 then (9223372036854775807, some .rangeErr)
      else if neg ∧ un > 9223372036854775808 then (-9223372036854775808, some .rangeErr)
      else (if neg then -(un : Int) else (un : Int), err)

/-- Go `strconv.Atoi`. -/
def atoi (s : Bytes) : Int × Option NumErr := parseInt s

/-! ## The wire codec (`respgo/respparser.go`) -/

/-- What a codec or dispatcher call can end in instead of a result. -/
inductive Fault where
  /-- The error `io.EOF` -/
  | eof
  /-- The error `io.ErrUnexpectedEOF` -/
  | unexpectedEOF
  /-- The error `invalid length %q` of `readLength` -/
  | invalidLength
  /-- the `strconv.Atoi` error that `ParseMessage` returns for an integer frame -/
  | badInteger
  /-- The error `bad array count %q` -/
  | badArrayCount
  /-- The error `expected bulk string in array` -/
  | expectedBulk
  /-- a run-time panic -/
  | panic
  /-- the goroutine waits forever on a channel -/
  | blocked
  /-- the model ran out of fuel -/
  | outOfFuel
  deriving DecidableEq, Repr

/-- The unread input of a `RespParser`. -/
abbrev Reader := Bytes

/-- Go `bufio.Reader.ReadString('\n')`: the bytes up to and including the first LF. -/
def readString : Reader → Except Fault (Bytes × Reader)
  | [] => .error .eof
  | c :: cs =>
    if c = '\n' then .ok (['\n'], cs)
    else
      match readString cs with
      | .ok (line, rest) => .ok (c :: line, rest)
      | .error e => .error e

/-- The work of `strings.TrimRight(s, "\r\n")`, done on the reversed string. -/
def trimLeftCRLF : Bytes → Bytes
  | [] => []
  | c :: cs => if c = '\r' ∨ c = '\n' then trimLeftCRLF cs else c :: cs

/-- Go `strings.TrimRight(s, "\r\n")`: drops every trailing CR and LF. -/
def trimRightCRLF (s : Bytes) : Bytes := (trimLeftCRLF s.reverse).reverse

/-- Go `RespParser.readLine`. -/
def readLine (r : Reader) : Except Fault (Bytes × Reader) :=
  match readString r with
  | .error e => .error e
  | .ok (line, rest) => .ok (trimRightCRLF line, rest)

/-- Go `RespParser.readLength`. -/
def readLength (r : Reader) : Except Fault (Int × Reader) :=
  match readLine r with
  | .error e => .error e
  | .ok (s, rest) =>
    match atoi s with
    | (n, none) => .ok (n, rest)
    | (_, some _) => .error .invalidLength

/-- Go `io.ReadFull(p.r, buf)` with `len(buf) = n`. -/
def readFull (n : Nat) (r : Reader) : Except Fault (Bytes × Reader) :=
  if n ≤ r.length then .ok (r.take n, r.drop n)
  else if r = [] then .error .eof else .error .unexpectedEOF

/-- Go `RespParser.ParseBulk`; `none` is the nil slice returned for a negative length. -/
def ParseBulk (r : Reader) : Except Fault (Option Bytes × Reader) :=
  match readLength r with
  | .error e => .error e
  | .ok (n, rest) =>
    if n < 0 then .ok (none, rest)
    else
      match readFull (n.toNat + 2) rest with
      | .error e => .error e
      | .ok (buf, rest') => .ok (some (buf.take n.toNat), rest')

/-- The conversion `string(data)` for the result of `ParseBulk`. -/
def bulkToString : Option Bytes → Bytes
  | none => []
  | some b => b

/-- The loop of `ParseArray`, for the `cnt` members still to be read. -/
def parseArrayLoop : Nat → Reader → Except Fault (List Bytes × Reader)
  | 0, r => .ok ([], r)
  | cnt + 1, r =>
    match r with
    | [] => .error .eof
    | pfx :: r1 =>
      if pfx ≠ '$' then .error .expectedBulk
      else
        match ParseBulk r1 with
        | .error e => .error e
        | .ok (data, r2) =>
          match parseArrayLoop cnt r2 with
          | .error e => .error e
          | .ok (items, r3) => .ok (bulkToString data :: items, r3)

/-- Go `strings.TrimPrefix(s, "*")`. -/
def trimPrefixStar : Bytes → Bytes
  | '*' :: cs => cs
  | s => s

/-- Go `RespParser.ParseArray`; `make([]string, cnt)` panics on a negative count. -/
def ParseArray (r : Reader) : Except Fault (List Bytes × Reader) :=
  match readLine r with
  | .error e => .error e
  | .ok (countLine, rest) =>
    match atoi (trimPrefixStar countLine) with
    | (_, some _) => .error .badArrayCount
    | (cnt, none) =>
      if cnt < 0 then .error .panic else parseArrayLoop cnt.toNat rest

/-- The dynamic value that `ParseMessage` returns. -/
inductive Msg where
  /-- A `[]string` -/
  | array (items : List Bytes)
  /-- A `[]byte`; `none` is the nil slice -/
  | bulk (data : Option Bytes)
  /-- An `int` -/
  | int (n : Int)
  /-- A `string` -/
  | line (s : Bytes)
  deriving DecidableEq, Repr

/-- Go `RespParser.ParseMessage`. -/
def ParseMessage (r : Reader) : Except Fault (Msg × Reader) :=
  match r with
  | [] => .error .eof
  | b :: r1 =>
    if b = '*' then
      match ParseArray r1 with
      | .error e => .error e
      | .ok (items, rest) => .ok (.array items, rest)
    else if b = '$' then
      match ParseBulk r1 with
      | .error e => .error e
      | .ok (data, rest) => .ok (.bulk data, rest)
    else if b = ':' then
      match readLine r1 with
      | .error e => .error e
      | .ok (line, rest) =>
        match atoi line with
        | (n, none) => .ok (.int n, rest)
        | (_, some _) => .error .badInteger
    else
      match readLine r with
      | .error e => .error e
      | .ok (line, rest) => .ok (.line line, rest)

/-- Go `respgo.EncodeBulkString`. -/
def EncodeBulkString (s : Bytes) : Bytes :=
  '$' :: itoa s.length ++ ['\r', '\n'] ++ s ++ ['\r', '\n']

/-- Go `respgo.EncodeArray`. -/
def EncodeArray (items : List Bytes) : Bytes :=
  '*' :: itoa items.length ++ ['\r', '\n'] ++ (items.map EncodeBulkString).flatten

/-- Go `respgo.EncodeInteger`. -/
def EncodeInteger (n : Int) : Bytes :=
  ':' :: itoa n ++ ['\r', '\n']

/-- Go `respgo.EncodeRawArray`. -/
def EncodeRawArray (frames : List Bytes) : Bytes :=
  '*' :: itoa frames.length ++ ['\r', '\n'] ++ frames.flatten



/-! ## Library functions used by the dispatcher -/

/-- Indexing `a[i]`, which panics when `i` is out of range. -/
def idx {α : Type} (a : List α) (i : Nat) : Except Fault α :=
  match a[i]? with
  | some x => .ok x
  | none => .error .panic

/-- The slice expression `a[lo:hi]`, which panics unless `0 <= lo <= hi <= len(a)`.
(Go checks `hi` against the capacity; the model checks it against the length.) -/
def slice {α : Type} (a : List α) (lo hi : Int) : Except Fault (List α) :=
  if 0 ≤ lo ∧ lo ≤ hi ∧ hi ≤ (a.length : Int) then .ok ((a.drop lo.toNat).take (hi.toNat - lo.toNat))
  else .error .panic

/-- Upper case of one ASCII byte. -/
def upperByte (c : Char) : Char :=
  if 'a' ≤ c ∧ c ≤ 'z' then Char.ofNat (c.toNat - 32) else c

/-- Lower case of one ASCII byte. -/
def lowerByte (c : Char) : Char :=
  if 'A' ≤ c ∧ c ≤ 'Z' then Char.ofNat (c.toNat + 32) else c

/-- Go `strings.ToUpper`, up to what a comparison with an ASCII string can tell.  Go decodes
the string as UTF-8 and writes the upper case of every rune.  An ASCII byte is upper-cased
in place.  Two other runes have an ASCII letter as their upper case and are replaced by it:
U+0131 (the bytes C4 B1), whose upper case is `I`, and U+017F (the bytes C5 BF), whose upper
case is `S`.  For every other rune, and for a byte that is not UTF-8, Go writes bytes of 0x80
and above; the model keeps the bytes it read, which are of 0x80 and above too.  So the
result equals an ASCII string in the model exactly when it does in Go, and the dispatcher
only compares it with ASCII literals. -/
def toUpper : Bytes → Bytes
  | [] => []
  | [c] => [upperByte c]
  | c :: d :: ds =>
    if c = Char.ofNat 0xC4 ∧ d = Char.ofNat 0xB1 then 'I' :: toUpper ds
    else if c = Char.ofNat 0xC5 ∧ d = Char.ofNat 0xBF then 'S' :: toUpper ds
    else upperByte c :: toUpper (d :: ds)

/-- Go `strings.ToLower`, up to what a comparison with an ASCII string can tell, in the same
way as `toUpper`.  The runes other than `A` to `Z` whose lower case is an ASCII letter are
U+0130 (the bytes C4 B0), lower case `i`, and U+212A (the bytes E2 84 AA), lower case `k`. -/
def toLower : Bytes → Bytes
  | [] => []
  | [c] => [lowerByte c]
  | [c, d] =>
    if c = Char.ofNat 0xC4 ∧ d = Char.ofNat 0xB0 then ['i'] else lowerByte c :: toLower [d]
  | c :: d :: e :: es =>
    if c = Char.ofNat 0xC4 ∧ d = Char.ofNat 0xB0 then 'i' :: toLower (e :: es)
    else if c = Char.ofNat 0xE2 ∧ d = Char.ofNat 0x84 ∧ e = Char.ofNat 0xAA then 'k' :: toLower es
    else lowerByte c :: toLower (d :: e :: es)

/-- Go `strings.Split(s, "-")`: the pieces between the dashes, at least one piece. -/
def splitDash : Bytes → List Bytes
  | [] => [[]]
  | c :: cs =>
    if c = '-' then [] :: splitDash cs
    else
      match splitDash cs with
      | [] => [[c]]
      | p :: ps => (c :: p) :: ps

/-- Value of one hexadecimal digit. -/
def hexVal (c : Char) : Nat :=
  if '0' ≤ c ∧ c ≤ '9' then c.toNat - 48
  else if 'a' ≤ c ∧ c ≤ 'f' then c.toNat - 87
  else c.toNat - 55

/-- Go `hex.DecodeString` on well-formed input: two digits per byte. -/
def hexDecode : Bytes → Bytes
  | hi :: lo :: rest => Char.ofNat (hexVal hi * 16 + hexVal lo) :: hexDecode rest
  | _ => []

/-! ## The keyspace (`store/store.go`) -/

/-- A Go `map[string]β`, kept as an association list with at most one pair per key. -/
abbrev GoMap (β : Type) := List (Bytes × β)

/-- The lookup `v, ok := m[k]`. -/
def mapGet {β : Type} : GoMap β → Bytes → Option β
  | [], _ => none
  | (k', v) :: rest, k => if k' = k then some v else mapGet rest k

/-- The assignment `m[k] = v`: replaces the pair of `k` in place, or adds one. -/
def mapSet {β : Type} : GoMap β → Bytes → β → GoMap β
  | [], k, v => [(k, v)]
  | (k', v') :: rest, k, v => if k' = k then (k, v) :: rest else (k', v') :: mapSet rest k v

/-- The statement `delete(m, k)`. -/
def mapDel {β : Type} (m : GoMap β) (k : Bytes) : GoMap β :=
  m.filter (fun p => p.1 ≠ k)

/-- The keys that `for k := range m` visits (Go leaves the order open). -/
def mapKeys {β : Type} (m : GoMap β) : List Bytes := m.map Prod.fst

/-- The index expression `m[k]` of a `map[string]string`: the empty string when absent. -/
def strAt (m : GoMap Bytes) (k : Bytes) : Bytes := (mapGet m k).getD []

/-- The index expression `m[k]` of a map of slices: the nil slice when absent. -/
def sliceAt {α : Type} (m : GoMap (List α)) (k : Bytes) : List α := (mapGet m k).getD []

/-- The struct `Connection`; `Conn` is the identity of the socket. -/
structure Connection where
  Conn : Nat
  TxnStarted : Bool
  TxnQueue : List (List Bytes)
  deriving DecidableEq, Repr

/-- The struct `Info`. -/
structure Info where
  Role : Bytes
  MasterIP : Bytes
  MasterPort : Bytes
  MasterReplId : Bytes
  MasterReplOffSet : Int
  MasterConn : Option Nat
  slaves : List Nat
  Port : Bytes
  flags : GoMap Bytes
  deriving DecidableEq, Repr

/-- The struct `StreamEntry`. -/
structure StreamEntry where
  Id : Bytes
  Pair : GoMap Bytes
  deriving DecidableEq, Repr

/-- A running `handleExpiry` goroutine: it deletes `key` from the strings when the clock
reaches `due` (milliseconds), unless a value arrives on its channel `stop` first. -/
structure Expirer where
  key : Bytes
  due : Int
  stop : Nat
  deriving DecidableEq, Repr

/-- The struct `KVStore`.  A stored list or set is never nil (`LPUSH` stores
`append([]string{v}, ...)`, `SADD` stores `make(...)`), so `kv.lists[key] != nil` is
presence of the key.  The unbuffered channels `AckCh` and `StreamXCh` hold no state.
`expirers` and `chans` are the goroutines started by `Set` and the number of channels
made so far. -/
structure KVStore where
  Info : Info
  store : GoMap Bytes
  expiryMap : GoMap Nat
  lists : GoMap (List Bytes)
  sets : GoMap (List Bytes)
  ProcessedWrite : Bool
  Stream : GoMap (List StreamEntry)
  expirers : List Expirer
  chans : Nat
  deriving DecidableEq, Repr

/-- Go `store.New()`. -/
def New : KVStore :=
  { Info :=
      { Role := lit "master", MasterIP := [], MasterPort := [],
        MasterReplId := lit "8371b4fb1155b71f4a04d3e1bc3e18c4a990aeeb",
        MasterReplOffSet := 0, MasterConn := none, slaves := [], Port := lit "8000", flags := [] },
    store := [], expiryMap := [], lists := [], sets := [], ProcessedWrite := false,
    Stream := [], expirers := [], chans := 0 }

/-- What the scheduler and the clock contribute to one call of `processCommand`. -/
structure Env where
  /-- The reading `time.Now().UnixMilli()` -/
  now : Int
  /-- For `WAIT`: how many values arrive on `AckCh` before the timer fires -/
  acks : Nat
  /-- For `REPLCONF ACK`: a `WAIT` loop takes the value sent on `AckCh` -/
  ackTaken : Bool
  /-- For `XREAD BLOCK`: a value arrives on `StreamXCh` (before the timeout, if there is one) -/
  wake : Bool
  /-- For `XRANGE` and `XREAD`: the order in which `for f, v := range se.Pair` visits the
  fields of an entry.  Go leaves the order of a `range` over a map open, and every `range`
  may take another one: `fields i j m` is the order taken for the map `m` of the entry at
  position `j` of the stream of the `i`-th key of the call, a rearrangement of `m` -/
  fields : Nat → Nat → GoMap Bytes → GoMap Bytes
  /-- For `KEYS` and `SMEMBERS`: the order in which the one `range` of the call visits the
  keys of the map, a rearrangement of the keys given -/
  members : List Bytes → List Bytes

/-- What one call of `processCommand` leaves behind: the reply, the store, the connection,
the argument vector (`XADD` assigns to `args[2]`) and the frames handed to replica sockets. -/
structure Outcome where
  reply : Bytes
  kv : KVStore
  conn : Connection
  args : List Bytes
  sent : List (Nat × Bytes)
  deriving DecidableEq, Repr

/-- Go `KVStore.Set`: with a non-negative expiry it starts a `handleExpiry` goroutine, which
makes its `stop` channel and records it in `expiryMap`; then it stores the value. -/
def KVStore.Set (kv : KVStore) (now : Int) (key value : Bytes) (expiry : Int) : KVStore :=
  let kv1 :=
    if expiry ≥ 0 then
      { kv with
        expirers := kv.expirers ++ [{ key := key, due := now + expiry, stop := kv.chans }]
        expiryMap := mapSet kv.expiryMap key kv.chans
        chans := kv.chans + 1 }
    else kv
  { kv1 with store := mapSet kv1.store key value }

/-- A reply that leaves the store, the connection and the arguments as they are. -/
def done (r : Bytes) (args : List Bytes) (conn : Connection) (kv : KVStore) :
    Except Fault Outcome :=
  .ok { reply := r, kv := kv, conn := conn, args := args, sent := [] }

/-- The reply of `LPUSH` and `SADD` to a key of the other kind. -/
def wrongType : Bytes :=
  lit "-WRONGTYPE Operation against a key holding the wrong kind of value\r\n"

/-- The reply of `INCR` to a value that `strconv.Atoi` rejects. -/
def notAnInteger : Bytes := lit "-ERR value is not an integer or out of range\r\n"

/-- The first rejection of `XADD`. -/
def xaddErrZero : Bytes := lit "-ERR The ID specified in XADD must be greater than 0-0\r\n"

/-- The second rejection of `XADD`. -/
def xaddErrTop : Bytes :=
  lit "-ERR The ID specified in XADD is equal or smaller than the target stream top item\r\n"

/-- The `case "ECHO"`. -/
def cmdECHO (args : List Bytes) (conn : Connection) (kv : KVStore) : Except Fault Outcome := do
  let a1 ← idx args 1
  done (EncodeBulkString a1) args conn kv

/-- The `case "SET"`. -/
def cmdSET (env : Env) (args : List Bytes) (conn : Connection) (kv : KVStore) :
    Except Fault Outcome := do
  let key ← idx args 1
  let val ← idx args 2
  let ex : Int ←
    if args.length > 4 then do
      let a4 ← idx args 4
      match atoi a4 with
      | (n, none) => pure n
      | (_, some _) => pure (-1)
    else pure (-1)
  done (lit "+SET DONE\r\n") args conn (kv.Set env.now key val ex)

/-- The `case "GET"`. -/
def cmdGET (args : List Bytes) (conn : Connection) (kv : KVStore) : Except Fault Outcome := do
  let key ← idx args 1
  match mapGet kv.store key with
  | some v => done (EncodeBulkString v) args conn kv
  | none => done (lit "$-1\r\n") args conn kv

/-- The `case "DEL"`.  The send `stop <- 1` completes only while the goroutine that made
`stop` is still waiting; that goroutine then returns. -/
def cmdDEL (args : List Bytes) (conn : Connection) (kv : KVStore) : Except Fault Outcome := do
  let key ← idx args 1
  match mapGet kv.store key with
  | none => done (EncodeInteger 0) args conn kv
  | some _ =>
    let kv1 := { kv with store := mapDel kv.store key }
    match mapGet kv.expiryMap key with
    | none => done (EncodeInteger 1) args conn kv1
    | some stop =>
      if kv1.expirers.any (fun e => e.stop = stop) then
        done (EncodeInteger 1) args conn
          { kv1 with expirers := kv1.expirers.filter (fun e => e.stop ≠ stop) }
      else .error .blocked

/-- The `case "CONFIG"`. -/
def cmdCONFIG (args : List Bytes) (conn : Connection) (kv : KVStore) : Except Fault Outcome :=
  if args.length ≥ 3 ∧ toUpper (args.getD 1 []) = lit "GET" then
    match mapGet kv.Info.flags (args.getD 2 []) with
    | some v => done (EncodeArray [args.getD 2 [], v]) args conn kv
    | none => done (lit "+OK\r\n") args conn kv
  else done (lit "+OK\r\n") args conn kv

/-- The `case "KEYS"`.  The keys are listed in the order in which the `range` over the map
of strings visits them. -/
def cmdKEYS (env : Env) (args : List Bytes) (conn : Connection) (kv : KVStore) :
    Except Fault Outcome :=
  done (EncodeArray (env.members (mapKeys kv.store))) args conn kv

/-- The `case "INFO"`. -/
def cmdINFO (args : List Bytes) (conn : Connection) (kv : KVStore) : Except Fault Outcome :=
  done (EncodeBulkString
    (lit "# Server\r\n" ++
     (lit "role:" ++ kv.Info.Role ++ lit "\r\n") ++
     (lit "master_replid:" ++ kv.Info.MasterReplId ++ lit "\r\n") ++
     (lit "master_repl_offset:" ++ itoa kv.Info.MasterReplOffSet ++ lit "\r\n") ++
     lit "\r\n")) args conn kv

/-- The `case "REPLCONF"`.  The send on `AckCh` completes only if a `WAIT` loop receives. -/
def cmdREPLCONF (env : Env) (args : List Bytes) (conn : Connection) (kv : KVStore) :
    Except Fault Outcome := do
  let a1 ← idx args 1
  let sub := toUpper a1
  if sub = lit "GETACK" then
    done (EncodeArray [lit "REPLCONF", lit "ACK", itoa kv.Info.MasterReplOffSet]) args conn kv
  else if sub = lit "ACK" then
    if env.ackTaken then done (lit "+OK\r\n") args conn kv else .error .blocked
  else done (lit "+OK\r\n") args conn kv

/-- The snapshot that `PSYNC` sends, in hexadecimal. -/
def rdbHex : Bytes :=
  lit "524544495330303131fa0972656469732d76657205372e322e30fa0a72656469732d62697473c040fa056374696d65c26d08bc65fa08757365642d6d656dc2b0c41000fa08616f662d62617365c000fff06e3bfec0ff5aa2"

/-- The `case "PSYNC"`. -/
def cmdPSYNC (args : List Bytes) (conn : Connection) (kv : KVStore) : Except Fault Outcome :=
  let header := lit "+FULLRESYNC " ++ kv.Info.MasterReplId ++ lit " " ++
    itoa kv.Info.MasterReplOffSet ++ lit "\r\n"
  let rdbBlob := hexDecode rdbHex
  let payload := ('$' :: itoa rdbBlob.length ++ lit "\r\n") ++ rdbBlob
  done (header ++ payload) args conn
    { kv with Info := { kv.Info with slaves := kv.Info.slaves ++ [conn.Conn] } }

/-- The `case "WAIT"`.  The timer always fires, so the loop ends with the acknowledgements
that arrived before it, at most `req` of them. -/
def cmdWAIT (env : Env) (args : List Bytes) (conn : Connection) (kv : KVStore) :
    Except Fault Outcome := do
  let a1 ← idx args 1
  let req := (atoi a1).1
  let _ ← idx args 2
  if kv.store.length = 0 then
    done (EncodeInteger kv.Info.slaves.length) args conn kv
  else
    let acks : Int := if req ≤ 0 then 0 else min req env.acks
    .ok { reply := EncodeInteger acks, kv := kv, conn := conn, args := args,
          sent := kv.Info.slaves.map
            (fun s => (s, EncodeArray [lit "REPLCONF", lit "GETACK", lit "*"])) }

/-- The `case "TYPE"`. -/
def cmdTYPE (args : List Bytes) (conn : Connection) (kv : KVStore) : Except Fault Outcome := do
  let key ← idx args 1
  if strAt kv.store key ≠ [] then done (lit "+string\r\n") args conn kv
  else if (mapGet kv.lists key).isSome then done (lit "+list\r\n") args conn kv
  else if (mapGet kv.sets key).isSome then done (lit "+set\r\n") args conn kv
  else done (lit "+none\r\n") args conn kv

/-- The ID checks of `case "XADD"` for the ID `id` (the value of `args[2]` after a lone
`*` has been replaced) against the entries of the stream: the final `args[2]`, and the
error reply when the command is rejected. -/
def xaddCheck (lastEntries : List StreamEntry) (id : Bytes) :
    Except Fault (Bytes × Option Bytes) :=
  match lastEntries.getLast? with
  | some last => do
    let lastParts := splitDash last.Id
    let currParts := splitDash id
    let lastTime := (atoi (← idx lastParts 0)).1
    let currTime := (atoi (← idx currParts 0)).1
    let lastSeq := (atoi (← idx lastParts 1)).1
    let c1 ← idx currParts 1
    let id2 :=
      if c1 = lit "*" then
        if currTime = lastTime then itoa lastTime ++ lit "-" ++ itoa (wrap64 (lastSeq + 1))
        else if currTime = 0 then lit "0-1"
        else itoa currTime ++ lit "-0"
      else id
    let currParts2 := if c1 = lit "*" then splitDash id2 else currParts
    let currTime2 ← if c1 = lit "*" then do pure (atoi (← idx currParts2 0)).1 else pure currTime
    let currSeq := (atoi (← idx currParts2 1)).1
    if currTime2 < 1 ∧ currSeq < 1 then pure (id2, some xaddErrZero)
    else if lastTime > currTime2 ∨ (lastTime = currTime2 ∧ lastSeq ≥ currSeq) then
      pure (id2, some xaddErrTop)
    else pure (id2, none)
  | none => do
    let parts := splitDash id
    let p1 ← idx parts 1
    pure (if p1 = lit "*" then lit "0-1" else id, none)

/-- The loop `for i := 3; i < len(args); i += 2 { se.Pair[args[i]] = args[i+1] }` over
`args[3:]`. -/
def buildPairs : GoMap Bytes → List Bytes → Except Fault (GoMap Bytes)
  | m, [] => .ok m
  | _, [_] => .error .panic
  | m, f :: v :: rest => buildPairs (mapSet m f v) rest

/-- The `case "XADD"`.  The non-blocking send on `StreamXCh` changes neither the store nor the
reply. -/
def cmdXADD (env : Env) (args : List Bytes) (conn : Connection) (kv : KVStore) :
    Except Fault Outcome := do
  let a2 ← idx args 2
  let id1 := if a2 = lit "*" then itoa env.now ++ lit "-0" else a2
  let streamKey ← idx args 1
  let (id2, rejected) ← xaddCheck (sliceAt kv.Stream streamKey) id1
  let args2 := args.set 2 id2
  match rejected with
  | some err => .ok { reply := err, kv := kv, conn := conn, args := args2, sent := [] }
  | none =>
    let pair ← buildPairs [] (args2.drop 3)
    let se : StreamEntry := { Id := id2, Pair := pair }
    .ok { reply := EncodeBulkString id2,
          kv := { kv with
            Stream := mapSet kv.Stream streamKey (sliceAt kv.Stream streamKey ++ [se]) },
          conn := conn, args := args2, sent := [] }

/-- The `case "LPUSH"`. -/
def cmdLPUSH (args : List Bytes) (conn : Connection) (kv : KVStore) : Except Fault Outcome := do
  let key ← idx args 1
  if (mapGet kv.sets key).isSome then done wrongType args conn kv
  else
    let lists := (args.drop 2).foldl (fun ls v => mapSet ls key (v :: sliceAt ls key)) kv.lists
    done (EncodeInteger (sliceAt lists key).length) args conn { kv with lists := lists }

/-- The `case "LRANGE"`. -/
def cmdLRANGE (args : List Bytes) (conn : Connection) (kv : KVStore) : Except Fault Outcome := do
  let key ← idx args 1
  let start := (atoi (← idx args 2)).1
  let stop := (atoi (← idx args 3)).1
  match mapGet kv.lists key with
  | none => done (EncodeArray []) args conn kv
  | some list =>
    let start := if start < 0 then (list.length : Int) + start else start
    let stop := if stop < 0 then (list.length : Int) + stop else stop
    let start := if start < 0 then 0 else start
    let stop := if stop ≥ (list.length : Int) then (list.length : Int) - 1 else stop
    if start > stop then done (EncodeArray []) args conn kv
    else do
      let part ← slice list start (stop + 1)
      done (EncodeArray part) args conn kv

/-- The `case "SADD"`.  A set is the list of its members, without repeats. -/
def cmdSADD (args : List Bytes) (conn : Connection) (kv : KVStore) : Except Fault Outcome := do
  let key ← idx args 1
  if (mapGet kv.lists key).isSome then done wrongType args conn kv
  else
    let sets0 := if (mapGet kv.sets key).isNone then mapSet kv.sets key [] else kv.sets
    let r := (args.drop 2).foldl
      (fun (acc : GoMap (List Bytes) × Int) m =>
        if m ∈ sliceAt acc.1 key then acc
        else (mapSet acc.1 key (sliceAt acc.1 key ++ [m]), acc.2 + 1))
      (sets0, 0)
    done (EncodeInteger r.2) args conn { kv with sets := r.1 }

/-- The `case "SMEMBERS"`.  The members are listed in the order in which the `range` over
the set visits them. -/
def cmdSMEMBERS (env : Env) (args : List Bytes) (conn : Connection) (kv : KVStore) :
    Except Fault Outcome := do
  let key ← idx args 1
  match mapGet kv.sets key with
  | none => done (EncodeArray []) args conn kv
  | some set => done (EncodeArray (env.members set)) args conn kv

/-- The frame of one stream entry, `[ID, [field, value, ...]]`, with the fields in the order
of the list `se.Pair`.  The callers pass the entry with its fields in the order in which the
`range` over the map has visited them. -/
def encodeEntry (se : StreamEntry) : Bytes :=
  EncodeRawArray [EncodeBulkString se.Id,
    EncodeArray (se.Pair.flatMap (fun p => [p.1, p.2]))]

/-- The pair that the dispatcher reads an ID as: `Atoi` of the first two pieces of
`strings.Split(id, "-")`, errors ignored; indexing the second piece can panic. -/
def idPair (id : Bytes) : Except Fault (Int × Int) := do
  let parts := splitDash id
  let t := (atoi (← idx parts 0)).1
  let s := (atoi (← idx parts 1)).1
  pure (t, s)

/-- The loop of `case "XRANGE"` over the entries of the stream from position `j` on;
`order j` is the order in which the fields of the entry at position `j` are visited. -/
def xrangeLoop (order : Nat → GoMap Bytes → GoMap Bytes) (startTime startSeq endTime endSeq : Int) :
    Nat → List StreamEntry → Except Fault (List Bytes)
  | _, [] => .ok []
  | j, se :: rest => do
    let (t, s) ← idPair se.Id
    let tail ← xrangeLoop order startTime startSeq endTime endSeq (j + 1) rest
    if (t > startTime ∨ (t = startTime ∧ s ≥ startSeq)) ∧
        (t < endTime ∨ (t = endTime ∧ s ≤ endSeq)) then
      pure (encodeEntry { se with Pair := order j se.Pair } :: tail)
    else pure tail

/-- The `case "XRANGE"`. -/
def cmdXRANGE (env : Env) (args : List Bytes) (conn : Connection) (kv : KVStore) :
    Except Fault Outcome := do
  let key ← idx args 1
  let a3 ← idx args 3
  let endArg := if a3 = lit "+" then itoa maxInt64 ++ lit "-" ++ itoa maxInt64 else a3
  let startParts := splitDash (← idx args 2)
  let endParts := splitDash endArg
  let startTime := (atoi (← idx startParts 0)).1
  let startSeq ← if startParts.length > 1 then do pure (atoi (← idx startParts 1)).1 else pure 0
  let endTime := (atoi (← idx endParts 0)).1
  let endSeq ← if endParts.length > 1 then do pure (atoi (← idx endParts 1)).1 else pure (-1)
  let nested ← xrangeLoop (env.fields 0) startTime startSeq endTime endSeq 0
    (sliceAt kv.Stream key)
  done (EncodeRawArray nested) args conn kv

/-- The inner loop of `case "XREAD"` over the entries of one stream from position `j` on:
the entries above the threshold; `order j` is the order in which the fields of the entry at
position `j` are visited. -/
def xreadAbove (order : Nat → GoMap Bytes → GoMap Bytes) (thrT thrS : Int) :
    Nat → List StreamEntry → Except Fault (List Bytes)
  | _, [] => .ok []
  | j, se :: rest => do
    let (t, s) ← idPair se.Id
    let tail ← xreadAbove order thrT thrS (j + 1) rest
    if t > thrT ∨ (t = thrT ∧ s > thrS) then
      pure (encodeEntry { se with Pair := order j se.Pair } :: tail)
    else pure tail

/-- The outer loop of `case "XREAD"` over the keys and their IDs, from the `i`-th key on. -/
def xreadLoop (env : Env) (kv : KVStore) : Nat → List Bytes → List Bytes → Except Fault (List Bytes)
  | i, key :: keys, id :: ids => do
    let groupItems ←
      if id = lit "$" then
        match (sliceAt kv.Stream key).getLast? with
        | none => .error .panic
        | some se =>
          pure [encodeEntry
            { se with Pair := env.fields i ((sliceAt kv.Stream key).length - 1) se.Pair }]
      else do
        let (thrT, thrS) ← idPair id
        xreadAbove (env.fields i) thrT thrS 0 (sliceAt kv.Stream key)
    let tail ← xreadLoop env kv (i + 1) keys ids
    pure (EncodeRawArray [EncodeBulkString key, EncodeRawArray groupItems] :: tail)
  | _, _, _ => .ok []

/-- The `case "XREAD"`.  With `block` the call waits for a value on `StreamXCh`. -/
def cmdXREAD (env : Env) (args : List Bytes) (conn : Connection) (kv : KVStore) :
    Except Fault Outcome := do
  let block := toLower (← idx args 1) = lit "block"
  let waitMs ← if block then do pure (atoi (← idx args 2)).1 else pure 0
  let offset : Int := if block then 4 else 2
  let parts ← slice args offset args.length
  let half := parts.length / 2
  let keys := parts.take half
  let ids := parts.drop half
  if block ∧ waitMs > 0 ∧ ¬ env.wake then done (lit "$-1\r\n") args conn kv
  else if block ∧ ¬ waitMs > 0 ∧ ¬ env.wake then .error .blocked
  else do
    let outer ← xreadLoop env kv 0 keys ids
    done (EncodeRawArray outer) args conn kv

/-- The `case "INCR"`. -/
def cmdINCR (args : List Bytes) (conn : Connection) (kv : KVStore) : Except Fault Outcome := do
  let key ← idx args 1
  let stepped : Option (GoMap Bytes) :=
    match mapGet kv.store key with
    | none => some (mapSet kv.store key (lit "1"))
    | some v =>
      match atoi v with
      | (_, some _) => none
      | (n, none) => some (mapSet kv.store key (itoa (wrap64 (n + 1))))
  match stepped with
  | none => done notAnInteger args conn kv
  | some store =>
    let kv1 := { kv with store := store }
    match atoi (strAt store key) with
    | (_, some _) => done notAnInteger args conn kv1
    | (n, none) => done (EncodeInteger n) args conn kv1

/-- The loop of `case "EXEC"` over the queue as it was when the loop began; `run` is the
recursive call of `processCommand`. -/
def execLoop (run : List Bytes → Connection → KVStore → Except Fault Outcome) :
    List (List Bytes) → Connection → KVStore → Except Fault (List Bytes × Connection × KVStore × List (Nat × Bytes))
  | [], conn, kv => .ok ([], conn, kv, [])
  | queued :: rest, conn, kv => do
    let o ← run queued conn kv
    let (replies, conn2, kv2, sent2) ← execLoop run rest o.conn o.kv
    pure (o.reply :: replies, conn2, kv2, o.sent ++ sent2)

/-- The cases of `processCommand` other than `EXEC`, for the upper-cased verb `cmd`. -/
def dispatch (env : Env) (cmd : Bytes) (args : List Bytes) (conn : Connection) (kv : KVStore) :
    Except Fault Outcome :=
  if cmd = lit "PING" then done (lit "+Ping-a-Ding-Dong\r\n") args conn kv
  else if cmd = lit "ECHO" then cmdECHO args conn kv
  else if cmd = lit "SET" then cmdSET env args conn kv
  else if cmd = lit "GET" then cmdGET args conn kv
  else if cmd = lit "DEL" then cmdDEL args conn kv
  else if cmd = lit "CONFIG" then cmdCONFIG args conn kv
  else if cmd = lit "KEYS" then cmdKEYS env args conn kv
  else if cmd = lit "INFO" then cmdINFO args conn kv
  else if cmd = lit "REPLCONF" then cmdREPLCONF env args conn kv
  else if cmd = lit "PSYNC" then cmdPSYNC args conn kv
  else if cmd = lit "WAIT" then cmdWAIT env args conn kv
  else if cmd = lit "TYPE" then cmdTYPE args conn kv
  else if cmd = lit "XADD" then cmdXADD env args conn kv
  else if cmd = lit "LPUSH" then cmdLPUSH args conn kv
  else if cmd = lit "LRANGE" then cmdLRANGE args conn kv
  else if cmd = lit "SADD" then cmdSADD args conn kv
  else if cmd = lit "SMEMBERS" then cmdSMEMBERS env args conn kv
  else if cmd = lit "XRANGE" then cmdXRANGE env args conn kv
  else if cmd = lit "XREAD" then cmdXREAD env args conn kv
  else if cmd = lit "INCR" then cmdINCR args conn kv
  else if cmd = lit "MULTI" then done (lit "+OK\r\n") args { conn with TxnStarted := true } kv
  else if cmd = lit "DISCARD" then
    if ¬ conn.TxnStarted then done (lit "-ERR DISCARD without MULTI\r\n") args conn kv
    else done (lit "+OK\r\n") args { conn with TxnStarted := false, TxnQueue := [] } kv
  else done (lit "-ERR unknown command\r\n") args conn kv

/-- The body of `processCommand`; `run` is the function that `EXEC` calls on each queued
command, absent when the model has no fuel left. -/
def processWith (run : Option (List Bytes → Connection → KVStore → Except Fault Outcome))
    (env : Env) (args : List Bytes) (conn : Connection) (kv : KVStore) : Except Fault Outcome :=
  match idx args 0 with
  | .error e => .error e
  | .ok a0 =>
    let cmd := toUpper a0
    if cmd = lit "EXEC" then
      if ¬ conn.TxnStarted then done (lit "-ERR EXEC without MULTI\r\n") args conn kv
      else
        match run with
        | none => .error .outOfFuel
        | some run =>
          match execLoop run conn.TxnQueue conn kv with
          | .error e => .error e
          | .ok (replies, conn2, kv2, sent) =>
            .ok { reply := EncodeArray replies, kv := kv2,
                  conn := { conn2 with TxnStarted := false, TxnQueue := [] },
                  args := args, sent := sent }
    else dispatch env cmd args conn kv

/-- Go `KVStore.processCommand`.  `fuel` bounds the depth of `EXEC` inside `EXEC` (a queue
that holds an `EXEC` makes the Go function recurse without end); no other case uses it.
Every call made by one `EXEC` sees the same `env`. -/
def processCommand : Nat → Env → List Bytes → Connection → KVStore → Except Fault Outcome
  | 0, env, args, conn, kv => processWith none env args conn kv
  | fuel + 1, env, args, conn, kv =>
    processWith (some (processCommand fuel env)) env args conn kv

/-- The dispatcher applied to a sequence of commands on one connection, each with its own
clock reading: the replies in order and the final state, or the first fault. -/
def runCommands (fuel : Nat) :
    List (Env × List Bytes) → Connection → KVStore → Except Fault (List Bytes × Connection × KVStore)
  | [], conn, kv => .ok ([], conn, kv)
  | (env, args) :: rest, conn, kv => do
    let o ← processCommand fuel env args conn kv
    let (replies, conn2, kv2) ← runCommands fuel rest o.conn o.kv
    pure (o.reply :: replies, conn2, kv2)

/-- A fresh session, as `main` makes it for an accepted socket. -/
def freshConn (c : Nat) : Connection := { Conn := c, TxnStarted := false, TxnQueue := [] }

/-- A clock reading with no scheduler events, in a call whose every `range` over a map visits
the keys in the order in which they were first written. -/
def envAt (now : Int) : Env :=
  { now := now, acks := 0, ackTaken := false, wake := false,
    fields := fun _ _ m => m, members := fun l => l }

/-! ## Predicates used to state the properties -/

/-- A key with no value in any of the four containers. -/
def absent (kv : KVStore) (k : Bytes) : Prop :=
  mapGet kv.store k = none ∧ mapGet kv.lists k = none ∧ mapGet kv.sets k = none ∧
    mapGet kv.Stream k = none

instance (kv : KVStore) (k : Bytes) : Decidable (absent kv k) := by
  unfold absent
  infer_instance

/-- Reference definition in the words of the spec: the order on stream IDs,
"lexicographic on the pair" `(ms, seq)`. -/
def lexLt (p q : Nat × Nat) : Prop := p.1 < q.1 ∨ (p.1 = q.1 ∧ p.2 < q.2)

instance (p q : Nat × Nat) : Decidable (lexLt p q) := by
  unfold lexLt
  infer_instance

/-- Reference definition in the words of the spec: the ID `(ms, seq)` "rendered as
`<ms>-<seq>`". -/
def renderId (p : Nat × Nat) : Bytes := natToDec p.1 ++ lit "-" ++ natToDec p.2

/-- Reference definition in the words of the spec: the first index of
`LRANGE key start stop` on a list of length `n`: `start`, counted from the tail when
negative, and raised to 0 if still negative. -/
def lrangeLo (n start : Int) : Int :=
  let s := if start ≥ 0 then start else n + start
  if s < 0 then 0 else s

/-- Reference definition in the words of the spec: the last index of
`LRANGE key start stop` on a list of length `n`: `stop`, counted from the tail when
negative, and lowered to `n - 1` if it is `n` or more. -/
def lrangeHi (n stop : Int) : Int :=
  let e := if stop ≥ 0 then stop else n + stop
  if e ≥ n then n - 1 else e

/-- Reference definition in the words of the spec: the range that `LRANGE key start stop`
denotes on the list `L`: `L[s], ..., L[e]` in order when `s <= e`, and the empty list
otherwise. -/
def lrangeRef (L : List Bytes) (start stop : Int) : List Bytes :=
  let s := lrangeLo L.length start
  let e := lrangeHi L.length stop
  if s ≤ e then (List.range (e - s + 1).toNat).map (fun i => L.getD (s.toNat + i) []) else []

/-- The order in which the dispatcher compares two stored IDs: the lexicographic order on
the pairs that `idPair` reads from them. -/
def idLt (a b : Bytes) : Prop :=
  match idPair a, idPair b with
  | .ok (t1, s1), .ok (t2, s2) => t1 < t2 ∨ (t1 = t2 ∧ s1 < s2)
  | _, _ => False

instance (a b : Bytes) : Decidable (idLt a b) := by
  unfold idLt
  split <;> infer_instance

/-- Every stream lists its entries in strictly increasing order of their IDs, as the
dispatcher reads them, and the dispatcher reads every stored ID as a pair of non-negative
integers. -/
def StreamsOrdered (kv : KVStore) : Prop :=
  ∀ key entries, mapGet kv.Stream key = some entries →
    List.Chain' (fun a b : StreamEntry => idLt a.Id b.Id) entries ∧
    ∀ e ∈ entries, ∃ t s, idPair e.Id = .ok (t, s) ∧ 0 ≤ t ∧ 0 ≤ s

/-! ## The expiry goroutines and the connection loop (`store/store.go`) -/

/-- The `timeout` case of `handleExpiry`, taken by the goroutine whose channel is `stop`:
it deletes its key from the strings and returns. -/
def fireExpirer (kv : KVStore) (stop : Nat) : KVStore :=
  match kv.expirers.find? (fun e => e.stop = stop) with
  | none => kv
  | some e =>
    { kv with
      store := mapDel kv.store e.key
      expirers := kv.expirers.filter (fun x => x.stop ≠ stop) }

/-- The clock reaches `now`: every `handleExpiry` goroutine whose deadline has passed takes
its `timeout` case, in the order in which the goroutines were started. -/
def expireUpTo (kv : KVStore) (now : Int) : KVStore :=
  (kv.expirers.filter (fun e => e.due ≤ now)).foldl (fun kv e => fireExpirer kv e.stop) kv

/-- What one call of `HandleConnection` works on: the store, its copy of the `Connection`,
and the writes made to sockets so far, oldest first, each with the identity of its socket. -/
structure Session where
  kv : KVStore
  conn : Connection
  wire : List (Nat × Bytes)
  deriving DecidableEq, Repr

/-- One turn of the loop of `HandleConnection` for a decoded, non-empty argument vector:
transaction queuing, then `processCommand`, then the reply and the propagation.  The
writes that `WAIT` hands to goroutines are logged before the reply. -/
def handleArgs (fuel : Nat) (env : Env) (args : List Bytes) (s : Session) :
    Except Fault Session := do
  let cmd := toUpper (← idx args 0)
  if s.conn.TxnStarted ∧ ¬ (cmd = lit "EXEC" ∨ cmd = lit "DISCARD") then
    pure { s with
      conn := { s.conn with TxnQueue := s.conn.TxnQueue ++ [args] }
      wire := s.wire ++ [(s.conn.Conn, lit "+QUEUED\r\n")] }
  else
    let o ← processCommand fuel env args s.conn s.kv
    if o.kv.Info.Role = lit "slave" then
      let answered :=
        if some o.conn.Conn = o.kv.Info.MasterConn ∧ cmd = lit "REPLCONF" ∧
            toUpper (o.args.getD 1 []) = lit "GETACK" then
          [(o.conn.Conn, o.reply)]
        else []
      pure
        { kv := { o.kv with
            Info := { o.kv.Info with
              MasterReplOffSet :=
                wrap64 (o.kv.Info.MasterReplOffSet + (EncodeArray o.args).length) } }
          conn := o.conn
          wire := s.wire ++ o.sent ++ answered }
    else
      let propagated :=
        if cmd = lit "SET" then o.kv.Info.slaves.map (fun slave => (slave, EncodeArray o.args))
        else []
      pure
        { kv := o.kv
          conn := o.conn
          wire := s.wire ++ o.sent ++ [(o.conn.Conn, o.reply)] ++ propagated }

/-- One turn of the loop of `HandleConnection` for a decoded message: a message that is not
a non-empty array of strings is skipped. -/
def handleMsg (fuel : Nat) (env : Env) (msg : Msg) (s : Session) : Except Fault Session :=
  match msg with
  | .array (a :: rest) => handleArgs fuel env (a :: rest) s
  | _ => .ok s

/-- The loop of `HandleConnection` over the messages that `ParseMessage` decodes one after
another, each with the clock and scheduler of its turn, up to the end of the input. -/
def handleAll (fuel : Nat) : List (Env × Msg) → Session → Except Fault Session
  | [], s => .ok s
  | (env, msg) :: rest, s => do
    let s1 ← handleMsg fuel env msg s
    handleAll fuel rest s1

/-- The session of a connection that `main` has just accepted on socket `c`. -/
def freshSession (kv : KVStore) (c : Nat) : Session :=
  { kv := kv, conn := freshConn c, wire := [] }

/-- The messages of a list of commands, all at the same clock reading. -/
def commandsAt (now : Int) (cmds : List (List Bytes)) : List (Env × Msg) :=
  cmds.map (fun args => (envAt now, Msg.array args))

/-- The outcome `o` as seen by a caller whose `Connection` is `conn`. -/
def withConn (conn : Connection) (o : Outcome) : Outcome := { o with conn := conn }

/-- An argument vector that the connection loop puts on the queue while a transaction is
open: it is not empty and its upper-cased verb is neither `EXEC` nor `DISCARD`. -/
def queueable (args : List Bytes) : Prop :=
  match args with
  | [] => False
  | a :: _ => toUpper a ≠ lit "EXEC" ∧ toUpper a ≠ lit "DISCARD"

instance (args : List Bytes) : Decidable (queueable args) := by
  unfold queueable
  split <;> infer_instance

/-- The entries that `XREAD` returns for one key and its ID, each with its position in the
stream: for the ID `$` the last entry of the stream, otherwise the entries whose ID is above
the given ID in the order in which the dispatcher compares IDs, in stream order. -/
def xreadGroup (kv : KVStore) (key id : Bytes) : List (Nat × StreamEntry) :=
  if id = lit "$" then
    (sliceAt kv.Stream key).getLast?.toList.map
      (fun e => ((sliceAt kv.Stream key).length - 1, e))
  else (sliceAt kv.Stream key).enum.filter (fun x => decide (idLt id x.2.Id))

/-- The frame that `XREAD` and `XRANGE` send for the entry `x.2` at position `x.1` of the
stream of the `i`-th key, in a call with the scheduler `env`. -/
def entryFrame (env : Env) (i : Nat) (x : Nat × StreamEntry) : Bytes :=
  encodeEntry { x.2 with Pair := env.fields i x.1 x.2.Pair }

/-- The reads of the loop of `HandleConnection`: the messages that `ParseMessage` decodes
from the input one after another, up to `io.EOF`; any other error is the panic of the loop.
The fuel bounds the number of calls. -/
def decodeAll : Nat → Reader → Except Fault (List Msg)
  | 0, _ => .error .outOfFuel
  | fuel + 1, r =>
    match ParseMessage r with
    | .error .eof => .ok []
    | .error _ => .error .panic
    | .ok (msg, rest) =>
      match decodeAll fuel rest with
      | .error e => .error e
      | .ok msgs => .ok (msg :: msgs)

/-- The bytes that the peer of socket `c` reads: the writes made to `c`, in order. -/
def received (wire : List (Nat × Bytes)) (c : Nat) : Bytes :=
  ((wire.filter (fun w => decide (w.1 = c))).map Prod.snd).flatten

/-- The case labels of the switch of `processCommand`. -/
def knownVerbs : List Bytes :=
  [lit "PING", lit "ECHO", lit "SET", lit "GET", lit "DEL", lit "CONFIG", lit "KEYS", lit "INFO",
   lit "REPLCONF", lit "PSYNC", lit "WAIT", lit "TYPE", lit "XADD", lit "LPUSH", lit "LRANGE",
   lit "SADD", lit "SMEMBERS", lit "XRANGE", lit "XREAD", lit "INCR", lit "MULTI", lit "EXEC",
   lit "DISCARD"]

/-- The case labels whose case starts by reading `args[1]` (for `XADD`, `args[2]`) without a
test of `len(args)`. -/
def argVerbs : List Bytes :=
  [lit "ECHO", lit "SET", lit "GET", lit "DEL", lit "REPLCONF", lit "WAIT", lit "TYPE",
   lit "XADD", lit "LPUSH", lit "LRANGE", lit "SADD", lit "SMEMBERS", lit "XRANGE", lit "XREAD",
   lit "INCR"]

/-! ## Decimal text: printing and parsing agree -/

theorem digitChar_isDigit (d : Nat) (h : d < 10) :
    '0' ≤ digitChar d ∧ digitChar d ≤ '9' := by
  interval_cases d <;> decide

theorem digitChar_toNat (d : Nat) (h : d < 10) : (digitChar d).toNat - '0'.toNat = d := by
  interval_cases d <;> rfl

theorem not_crlf_of_isDigit (c : Char) (h : '0' ≤ c ∧ c ≤ '9') :
    c ≠ '\r' ∧ c ≠ '\n' ∧ c ≠ '+' ∧ c ≠ '-' ∧ c ≠ '*' := by
  refine ⟨?_, ?_, ?_, ?_, ?_⟩ <;> rintro rfl <;> revert h <;> decide

theorem decDigits_isDigit (fuel n : Nat) : ∀ c ∈ decDigits fuel n, '0' ≤ c ∧ c ≤ '9' := by
  induction fuel generalizing n with
  | zero => simp [decDigits]
  | succ f ih =>
    intro c hc
    unfold decDigits at hc
    split at hc
    · simp only [List.mem_singleton] at hc
      subst hc
      exact digitChar_isDigit n (by assumption)
    · rcases List.mem_append.mp hc with h | h
      · exact ih _ c h
      · simp only [List.mem_singleton] at h
        subst h
        exact digitChar_isDigit _ (Nat.mod_lt _ (by decide))

theorem decDigits_ne_nil (fuel n : Nat) : decDigits (fuel + 1) n ≠ [] := by
  unfold decDigits
  split <;> simp

theorem parseUintLoop_snoc (cs : Bytes) (d : Nat) (acc : Nat) :
    parseUintLoop acc (cs ++ [digitChar d]) =
      match parseUintLoop acc cs with
      | (n, none) => parseUintLoop n [digitChar d]
      | r => r := by
  induction cs generalizing acc with
  | nil => simp [parseUintLoop]
  | cons c cs ih =>
    simp only [List.cons_append, parseUintLoop]
    split
    · rfl
    · split
      · rfl
      · split
        · rfl
        · exact ih _

theorem parseUintLoop_digit (n d : Nat) (hd : d < 10) (h : n * 10 + d < 18446744073709551616) :
    parseUintLoop n [digitChar d] = (n * 10 + d, none) := by
  have h1 := digitChar_isDigit d hd
  have h2 := digitChar_toNat d hd
  simp only [parseUintLoop, h1, h2, and_self, not_true_eq_false, if_false, maxUint64]
  rw [Nat.mod_eq_of_lt h]
  have : ¬ (n ≥ 18446744073709551615 / 10 + 1) := by omega
  simp only [this, if_false]
  have : ¬ (n * 10 + d < n * 10 ∨ n * 10 + d > 18446744073709551615) := by omega
  simp only [this, if_false]

theorem parseUintLoop_decDigits (fuel n : Nat) (hf : n < fuel) (hn : n < 18446744073709551616) :
    parseUintLoop 0 (decDigits fuel n) = (n, none) := by
  induction fuel generalizing n with
  | zero => omega
  | succ f ih =>
    unfold decDigits
    split
    · rename_i h10
      have := parseUintLoop_digit 0 n h10 (by omega)
      simpa using this
    · rename_i h10
      rw [parseUintLoop_snoc, ih (n / 10) (by omega) (by omega)]
      simp only
      rw [parseUintLoop_digit _ _ (Nat.mod_lt _ (by decide)) (by omega)]
      congr 1
      omega

theorem parseUint_natToDec (n : Nat) (hn : n < 18446744073709551616) :
    parseUint (natToDec n) = (n, none) := by
  unfold parseUint natToDec
  rw [if_neg (decDigits_ne_nil n n)]
  exact parseUintLoop_decDigits (n + 1) n (by omega) hn

theorem natToDec_isDigit (n : Nat) : ∀ c ∈ natToDec n, '0' ≤ c ∧ c ≤ '9' :=
  decDigits_isDigit _ _

theorem natToDec_ne_nil (n : Nat) : natToDec n ≠ [] := decDigits_ne_nil n n

/-- Parsing the decimal text of a length gives the length back. -/
theorem atoi_itoa_nat (n : Nat) (hn : (n : Int) ≤ maxInt64) :
    atoi (itoa (n : Int)) = ((n : Int), none) := by
  have hlt : n < 9223372036854775808 := by unfold maxInt64 at hn; omega
  have hz : ¬ ((n : Int) < 0) := by omega
  unfold atoi itoa
  rw [if_neg hz, Int.natAbs_ofNat]
  obtain ⟨c, cs, hcs⟩ := List.exists_cons_of_ne_nil (natToDec_ne_nil n)
  have hc := natToDec_isDigit n c (by rw [hcs]; exact List.mem_cons_self _ _)
  obtain ⟨-, -, hplus, hminus, -⟩ := not_crlf_of_isDigit c hc
  have hp := parseUint_natToDec n (by omega)
  rw [hcs] at hp ⊢
  simp only [parseInt, hplus, hminus, or_self, if_false, hp]
  simp
  omega

/-! ## Reading what the encoder wrote -/

theorem readString_line (l : Bytes) (h : ∀ c ∈ l, c ≠ '\n') (rest : Bytes) :
    readString (l ++ '\n' :: rest) = .ok (l ++ ['\n'], rest) := by
  induction l with
  | nil => simp [readString]
  | cons c cs ih =>
    have hc : c ≠ '\n' := h c (List.mem_cons_self _ _)
    have ih' := ih (fun x hx => h x (List.mem_cons_of_mem _ hx))
    simp only [List.cons_append, readString, hc, if_false, List.append_eq, ih']

theorem trimRightCRLF_digits (l : Bytes) (h : ∀ c ∈ l, '0' ≤ c ∧ c ≤ '9') :
    trimRightCRLF (l ++ ['\r', '\n']) = l := by
  unfold trimRightCRLF
  have hrev : (l ++ ['\r', '\n']).reverse = '\n' :: '\r' :: l.reverse := by simp
  rw [hrev]
  simp only [trimLeftCRLF, or_true, true_or, if_true]
  cases hl : l.reverse with
  | nil =>
    have : l = [] := by simpa using hl
    simp [trimLeftCRLF, this]
  | cons c cs =>
    have hc : c ∈ l := by
      have : c ∈ l.reverse := by rw [hl]; exact List.mem_cons_self _ _
      simpa using this
    obtain ⟨h1, h2, -⟩ := not_crlf_of_isDigit c (h c hc)
    simp only [trimLeftCRLF, h1, h2, or_self, if_false]
    rw [← hl, List.reverse_reverse]

theorem readLine_dec (n : Nat) (rest : Bytes) :
    readLine (natToDec n ++ '\r' :: '\n' :: rest) = .ok (natToDec n, rest) := by
  have hd := natToDec_isDigit n
  have hsplit : natToDec n ++ '\r' :: '\n' :: rest = (natToDec n ++ ['\r']) ++ '\n' :: rest := by
    simp
  have hno : ∀ c ∈ natToDec n ++ ['\r'], c ≠ '\n' := by
    intro c hc
    rcases List.mem_append.mp hc with h | h
    · exact (not_crlf_of_isDigit c (hd c h)).2.1
    · simp only [List.mem_singleton] at h
      subst h
      decide
  unfold readLine
  rw [hsplit, readString_line _ hno]
  simp only [List.append_assoc, List.singleton_append]
  rw [trimRightCRLF_digits _ hd]

theorem itoa_natCast (n : Nat) : itoa (n : Int) = natToDec n := by
  unfold itoa
  rw [if_neg (by omega), Int.natAbs_ofNat]

theorem readLength_dec (n : Nat) (hn : (n : Int) ≤ maxInt64) (rest : Bytes) :
    readLength (itoa (n : Int) ++ '\r' :: '\n' :: rest) = .ok ((n : Int), rest) := by
  unfold readLength
  rw [itoa_natCast, readLine_dec]
  simp only
  rw [← itoa_natCast, atoi_itoa_nat n hn]

theorem ParseBulk_encode (s : Bytes) (hs : (s.length : Int) ≤ maxInt64) (rest : Bytes) :
    ParseBulk (itoa (s.length : Int) ++ ['\r', '\n'] ++ s ++ ['\r', '\n'] ++ rest) =
      .ok (some s, rest) := by
  unfold ParseBulk
  have h1 : itoa (s.length : Int) ++ ['\r', '\n'] ++ s ++ ['\r', '\n'] ++ rest =
      itoa (s.length : Int) ++ '\r' :: '\n' :: (s ++ ('\r' :: '\n' :: rest)) := by simp
  rw [h1, readLength_dec _ hs]
  have hneg : ¬ ((s.length : Int) < 0) := by omega
  simp only [hneg, if_false, Int.toNat_ofNat]
  have hlen : s.length + 2 ≤ (s ++ '\r' :: '\n' :: rest).length := by simp
  have htake : List.take (s.length + 2) (s ++ '\r' :: '\n' :: rest) = s ++ ['\r', '\n'] := by
    rw [List.take_append_eq_append_take]
    simp
  have hdrop : List.drop (s.length + 2) (s ++ '\r' :: '\n' :: rest) = rest := by
    rw [List.drop_append_eq_append_drop]
    simp
  simp only [readFull, hlen, if_true, htake, hdrop]
  simp

theorem parseArrayLoop_encode (A : List Bytes) (hA : ∀ s ∈ A, (s.length : Int) ≤ maxInt64)
    (rest : Bytes) :
    parseArrayLoop A.length ((A.map EncodeBulkString).flatten ++ rest) = .ok (A, rest) := by
  induction A with
  | nil => simp [parseArrayLoop]
  | cons s A ih =>
    have hs := hA s (List.mem_cons_self _ _)
    have ih' := ih (fun x hx => hA x (List.mem_cons_of_mem _ hx))
    have h1 : ((s :: A).map EncodeBulkString).flatten ++ rest =
        '$' :: (itoa (s.length : Int) ++ ['\r', '\n'] ++ s ++ ['\r', '\n'] ++
          ((A.map EncodeBulkString).flatten ++ rest)) := by
      simp [EncodeBulkString]
    rw [h1]
    simp only [List.length_cons, parseArrayLoop, ne_eq, not_true_eq_false, if_false]
    rw [ParseBulk_encode s hs]
    simp only [ih', bulkToString]

/-- C1. Decoding the encoding of a command array gives the array back, without an error
and with no byte left unread.  The bounds say that the lengths are values of Go's `int`. -/
theorem ParseMessage_EncodeArray (A : List Bytes) (hlen : (A.length : Int) ≤ maxInt64)
    (hA : ∀ s ∈ A, (s.length : Int) ≤ maxInt64) :
    ParseMessage (EncodeArray A) = .ok (Msg.array A, []) := by
  have hd := natToDec_isDigit A.length
  obtain ⟨c, cs, hcs⟩ := List.exists_cons_of_ne_nil (natToDec_ne_nil A.length)
  have hstar : trimPrefixStar (natToDec A.length) = natToDec A.length := by
    have hc := (not_crlf_of_isDigit c (hd c (by rw [hcs]; exact List.mem_cons_self _ _))).2.2.2.2
    rw [hcs]
    unfold trimPrefixStar
    split
    · rename_i heq
      injection heq with h1 h2
      exact absurd h1 hc
    · rfl
  have h1 : EncodeArray A =
      '*' :: (natToDec A.length ++ '\r' :: '\n' :: ((A.map EncodeBulkString).flatten ++ [])) := by
    simp [EncodeArray, itoa_natCast]
  have hneg : ¬ ((A.length : Int) < 0) := by omega
  rw [h1]
  simp only [ParseMessage, if_true, ParseArray]
  rw [readLine_dec]
  simp only [hstar]
  rw [← itoa_natCast, atoi_itoa_nat _ hlen]
  simp only [hneg, if_false, Int.toNat_ofNat]
  rw [parseArrayLoop_encode A hA]

/-- C1, at a concrete array: an empty member and a member that contains CR and LF. -/
theorem ParseMessage_EncodeArray_witness :
    ParseMessage (EncodeArray [lit "SET", lit "a\r\nb", lit ""]) =
      .ok (Msg.array [lit "SET", lit "a\r\nb", lit ""], []) :=
  ParseMessage_EncodeArray [lit "SET", lit "a\r\nb", lit ""] (by decide) (by decide)

/-! ## Maps and the dispatcher -/

theorem mapGet_mapSet_same {β : Type} (m : GoMap β) (k : Bytes) (v : β) :
    mapGet (mapSet m k v) k = some v := by
  induction m with
  | nil => simp [mapSet, mapGet]
  | cons p m ih =>
    obtain ⟨k', v'⟩ := p
    by_cases h : k' = k
    · simp [mapSet, mapGet, h]
    · simp [mapSet, mapGet, h, ih]

theorem mapGet_mapSet_ne {β : Type} (m : GoMap β) (k k' : Bytes) (v : β) (hne : k' ≠ k) :
    mapGet (mapSet m k v) k' = mapGet m k' := by
  induction m with
  | nil => simp [mapSet, mapGet, Ne.symm hne]
  | cons p m ih =>
    obtain ⟨k₀, v₀⟩ := p
    by_cases h : k₀ = k
    · subst h
      simp [mapSet, mapGet, Ne.symm hne]
    · by_cases h' : k₀ = k'
      · subst h'
        simp [mapSet, mapGet, h]
      · simp [mapSet, mapGet, h, h', ih]

theorem processCommand_not_EXEC (fuel : Nat) (env : Env) (a0 : Bytes) (rest : List Bytes)
    (conn : Connection) (kv : KVStore) (h : toUpper a0 ≠ lit "EXEC") :
    processCommand fuel env (a0 :: rest) conn kv = dispatch env (toUpper a0) (a0 :: rest) conn kv := by
  cases fuel <;> simp only [processCommand, processWith, idx, List.getElem?_cons_zero, h, if_false]

theorem processCommand_SET (fuel : Nat) (env : Env) (rest : List Bytes) (conn : Connection)
    (kv : KVStore) :
    processCommand fuel env (lit "SET" :: rest) conn kv = cmdSET env (lit "SET" :: rest) conn kv := by
  rw [processCommand_not_EXEC _ _ _ _ _ _ (by decide)]
  rfl

theorem processCommand_GET (fuel : Nat) (env : Env) (rest : List Bytes) (conn : Connection)
    (kv : KVStore) :
    processCommand fuel env (lit "GET" :: rest) conn kv = cmdGET (lit "GET" :: rest) conn kv := by
  rw [processCommand_not_EXEC _ _ _ _ _ _ (by decide)]
  rfl

theorem cmdSET_plain (env : Env) (conn : Connection) (kv : KVStore) (k v : Bytes) :
    cmdSET env [lit "SET", k, v] conn kv =
      done (lit "+SET DONE\r\n") [lit "SET", k, v] conn { kv with store := mapSet kv.store k v } := by
  simp [cmdSET, idx, bind, Except.bind, pure, Except.pure, KVStore.Set]

theorem cmdGET_eq (conn : Connection) (kv : KVStore) (k : Bytes) :
    cmdGET [lit "GET", k] conn kv =
      match mapGet kv.store k with
      | some v => done (EncodeBulkString v) [lit "GET", k] conn kv
      | none => done (lit "$-1\r\n") [lit "GET", k] conn kv := by
  simp [cmdGET, idx, bind, Except.bind]

/-- C2. After `SET k v` without an expiry, `GET k` replies the bulk string
`$<len v>\r\n<v>\r\n`; and `GET` of a key that no container holds replies the null bulk
`$-1\r\n`.  Neither `GET` changes the store. -/
theorem set_then_get (fuel₁ fuel₂ : Nat) (env₁ env₂ : Env) (conn : Connection) (kv : KVStore)
    (k v : Bytes) :
    (∃ o, processCommand fuel₁ env₁ [lit "SET", k, v] conn kv = .ok o ∧
      processCommand fuel₂ env₂ [lit "GET", k] o.conn o.kv =
        done (lit "$" ++ itoa v.length ++ lit "\r\n" ++ v ++ lit "\r\n") [lit "GET", k] o.conn o.kv) ∧
    (∀ k', absent kv k' →
      processCommand fuel₂ env₂ [lit "GET", k'] conn kv =
        done (lit "$-1\r\n") [lit "GET", k'] conn kv) := by
  constructor
  · refine ⟨_, by rw [processCommand_SET, cmdSET_plain]; rfl, ?_⟩
    rw [processCommand_GET, cmdGET_eq]
    simp only [mapGet_mapSet_same]
    rfl
  · intro k' h
    rw [processCommand_GET, cmdGET_eq, h.1]

/-- C2 at `GET missing` on the empty keyspace. -/
theorem set_then_get_witness :
    absent New (lit "missing") ∧
    processCommand 0 (envAt 0) [lit "GET", lit "missing"] (freshConn 0) New =
        done (lit "$-1\r\n") [lit "GET", lit "missing"] (freshConn 0) New :=
  ⟨by decide, (set_then_get 0 0 (envAt 0) (envAt 0) (freshConn 0) New (lit "foo") (lit "bar")).2
    (lit "missing") (by decide)⟩

/-! ## Type exclusivity and `TYPE` -/

/-- C3 (failing input). From the empty keyspace `SET k v` followed by `LPUSH k a` are both
accepted, no type-mismatch error is replied, and afterwards `k` is held by the strings and
by the lists at once. -/
theorem set_lpush_same_key :
    ∃ conn kv,
      runCommands 0
          [(envAt 0, [lit "SET", lit "k", lit "v"]), (envAt 0, [lit "LPUSH", lit "k", lit "a"])]
          (freshConn 0) New = .ok ([lit "+SET DONE\r\n", lit ":1\r\n"], conn, kv) ∧
        mapGet kv.store (lit "k") = some (lit "v") ∧ mapGet kv.lists (lit "k") = some [lit "a"] :=
  ⟨_, _, rfl, rfl, rfl⟩

/-- C4 (failing inputs). After a successful `XADD s 1-1 f v` the key `s` holds a stream and
`TYPE s` replies `+none`; after `SET k ""` the key `k` holds the empty string and `TYPE k`
replies `+none`. -/
theorem type_none_for_stream_and_empty_string :
    (∃ conn kv,
      runCommands 0
          [(envAt 0, [lit "XADD", lit "s", lit "1-1", lit "f", lit "v"]),
           (envAt 0, [lit "TYPE", lit "s"])]
          (freshConn 0) New = .ok ([lit "$3\r\n1-1\r\n", lit "+none\r\n"], conn, kv) ∧
        mapGet kv.Stream (lit "s") = some [{ Id := lit "1-1", Pair := [(lit "f", lit "v")] }]) ∧
    (∃ conn kv,
      runCommands 0
          [(envAt 0, [lit "SET", lit "k", lit ""]), (envAt 0, [lit "TYPE", lit "k"])]
          (freshConn 0) New = .ok ([lit "+SET DONE\r\n", lit "+none\r\n"], conn, kv) ∧
        mapGet kv.store (lit "k") = some []) :=
  ⟨⟨_, _, rfl, rfl⟩, ⟨_, _, rfl, rfl⟩⟩

/-! ## Streams -/

/-- C5 (counterexample). Two accepted `XADD`s leave a stream whose consecutive IDs are the
texts of `(18446744073709551615, 0)` and `(9223372036854775807, 1)`, which are not in
increasing order. -/
theorem xadd_order_counterexample :
    ∃ replies conn kv,
      runCommands 0
          [(envAt 0, [lit "XADD", lit "s", lit "18446744073709551615-0", lit "f", lit "v"]),
           (envAt 0, [lit "XADD", lit "s", lit "9223372036854775807-1", lit "f", lit "v"])]
          (freshConn 0) New = .ok (replies, conn, kv) ∧
        (sliceAt kv.Stream (lit "s")).map StreamEntry.Id =
          [renderId (18446744073709551615, 0), renderId (9223372036854775807, 1)] ∧
        ¬ lexLt (18446744073709551615, 0) (9223372036854775807, 1) :=
  ⟨_, _, _, rfl, rfl, by decide⟩

/-- C6 (failing input). On the empty keyspace `XADD s 0-0 f v` is accepted: the reply is the
bulk string `0-0` and the entry is stored. -/
theorem xadd_zero_zero_accepted :
    processCommand 0 (envAt 0) [lit "XADD", lit "s", lit "0-0", lit "f", lit "v"] (freshConn 0) New =
      .ok { reply := lit "$3\r\n0-0\r\n",
            kv := { New with
              Stream := [(lit "s", [{ Id := lit "0-0", Pair := [(lit "f", lit "v")] }])] },
            conn := freshConn 0,
            args := [lit "XADD", lit "s", lit "0-0", lit "f", lit "v"], sent := [] } :=
  rfl

/-- C7 (failing inputs). On the empty keyspace `XADD s 5-* f v` assigns `0-1`, not `5-0`;
and when the last entry is `7-0` and the clock reads 7, `XADD s * f v` is rejected instead
of being assigned `7-1`. -/
theorem xadd_assigned_ids :
    (∃ o, processCommand 0 (envAt 0) [lit "XADD", lit "s", lit "5-*", lit "f", lit "v"]
        (freshConn 0) New = .ok o ∧ o.reply = lit "$3\r\n0-1\r\n" ∧
        (sliceAt o.kv.Stream (lit "s")).map StreamEntry.Id = [lit "0-1"]) ∧
    (∃ conn kv,
      runCommands 0
          [(envAt 0, [lit "XADD", lit "s", lit "7-0", lit "f", lit "v"]),
           (envAt 7, [lit "XADD", lit "s", lit "*", lit "f", lit "v"])]
          (freshConn 0) New = .ok ([lit "$3\r\n7-0\r\n", xaddErrTop], conn, kv) ∧
        (sliceAt kv.Stream (lit "s")).map StreamEntry.Id = [lit "7-0"]) :=
  ⟨⟨_, rfl, rfl, rfl⟩, ⟨_, _, rfl, rfl⟩⟩

/-! ## `INCR` -/

theorem atoi_itoa (z : Int) (h1 : minInt64 ≤ z) (h2 : z ≤ maxInt64) :
    atoi (itoa z) = (z, none) := by
  by_cases hz : z < 0
  · have h1' : -9223372036854775808 ≤ z := h1
    have hn : z.natAbs < 18446744073709551616 := by omega
    have hp := parseUint_natToDec z.natAbs hn
    unfold atoi itoa
    rw [if_pos hz]
    simp only [parseInt]
    have h3 : ¬ (z.natAbs > 9223372036854775808) := by omega
    have h4 : -(z.natAbs : Int) = z := by omega
    have h5 : ¬ (9223372036854775808 < z.natAbs) := h3
    simp only [hp, h5, h4, or_true, if_true, true_and, not_true_eq_false, false_and, if_false]
  · obtain ⟨n, rfl⟩ : ∃ n : Nat, z = n := ⟨z.toNat, by omega⟩
    exact atoi_itoa_nat n h2

theorem parseInt_ok_range (s : Bytes) (n : Int) (h : parseInt s = (n, none)) :
    minInt64 ≤ n ∧ n ≤ maxInt64 := by
  unfold parseInt at h
  split at h
  · simp at h
  · rename_i c cs
    simp only at h
    split at h
    · simp at h
    · rename_i un err hne
      split at h
      · simp at h
      · split at h
        · simp at h
        · rename_i h1 h2
          simp only [Prod.mk.injEq] at h
          obtain ⟨h, -⟩ := h
          subst h
          unfold minInt64 maxInt64
          by_cases hneg : c = '-'
          · simp only [hneg, true_and, not_true_eq_false, false_and, not_false_eq_true] at h1 h2
            simp only [hneg, if_true]
            omega
          · simp only [hneg, not_false_eq_true, true_and, false_and] at h1 h2
            simp only [hneg, if_false]
            omega

theorem wrap64_of_range (z : Int) (h1 : minInt64 ≤ z) (h2 : z ≤ maxInt64) : wrap64 z = z := by
  unfold wrap64
  unfold minInt64 at h1
  unfold maxInt64 at h2
  omega

theorem processCommand_INCR (fuel : Nat) (env : Env) (rest : List Bytes) (conn : Connection)
    (kv : KVStore) :
    processCommand fuel env (lit "INCR" :: rest) conn kv = cmdINCR (lit "INCR" :: rest) conn kv := by
  rw [processCommand_not_EXEC _ _ _ _ _ _ (by decide)]
  rfl

theorem strAt_mapSet_same (m : GoMap Bytes) (k v : Bytes) : strAt (mapSet m k v) k = v := by
  simp [strAt, mapGet_mapSet_same]

/-- C8. `INCR k` on an absent key stores `1` and replies `:1`; on a value that `Atoi` reads
as `n` with `n + 1` within the signed 64-bit range it stores the decimal text of `n + 1` and
replies `:<n+1>`; on a value that `Atoi` rejects it replies the error and changes nothing.
The decimal text of every signed 64-bit integer is read by `Atoi` as that integer. -/
theorem incr_spec (fuel : Nat) (env : Env) (conn : Connection) (kv : KVStore) (k : Bytes) :
    (mapGet kv.store k = none →
      processCommand fuel env [lit "INCR", k] conn kv =
        done (lit ":1\r\n") [lit "INCR", k] conn
          { kv with store := mapSet kv.store k (lit "1") }) ∧
    (∀ v n, mapGet kv.store k = some v → atoi v = (n, none) → n + 1 ≤ maxInt64 →
      processCommand fuel env [lit "INCR", k] conn kv =
        done (lit ":" ++ itoa (n + 1) ++ lit "\r\n") [lit "INCR", k] conn
          { kv with store := mapSet kv.store k (itoa (n + 1)) }) ∧
    (∀ v n e, mapGet kv.store k = some v → atoi v = (n, some e) →
      processCommand fuel env [lit "INCR", k] conn kv =
        done (lit "-ERR value is not an integer or out of range\r\n") [lit "INCR", k] conn kv) ∧
    (∀ n, minInt64 ≤ n → n ≤ maxInt64 → atoi (itoa n) = (n, none)) := by
  refine ⟨?_, ?_, ?_, atoi_itoa⟩
  · intro h
    rw [processCommand_INCR]
    simp only [cmdINCR, idx, bind, Except.bind, List.getElem?_cons_succ, List.getElem?_cons_zero, h,
      strAt_mapSet_same]
    rfl
  · intro v n hv hn hmax
    have hr := parseInt_ok_range v n hn
    have hw : wrap64 (n + 1) = n + 1 := wrap64_of_range _ (by omega) hmax
    have ha : atoi (itoa (n + 1)) = (n + 1, none) := atoi_itoa _ (by omega) hmax
    rw [processCommand_INCR]
    simp only [cmdINCR, idx, bind, Except.bind, List.getElem?_cons_succ, List.getElem?_cons_zero, hv,
      hn, hw, strAt_mapSet_same, ha]
    rfl
  · intro v n e hv hn
    rw [processCommand_INCR]
    simp only [cmdINCR, idx, bind, Except.bind, List.getElem?_cons_succ, List.getElem?_cons_zero, hv,
      hn]
    rfl

/-- C8 at `SET n 10` then `INCR n`, which replies `:11`. -/
theorem incr_spec_witness :
    processCommand 0 (envAt 0) [lit "INCR", lit "n"] (freshConn 0)
        { New with store := [(lit "n", lit "10")] } =
      done (lit ":" ++ itoa (10 + 1) ++ lit "\r\n") [lit "INCR", lit "n"] (freshConn 0)
        { New with store := mapSet [(lit "n", lit "10")] (lit "n") (itoa (10 + 1)) } :=
  (incr_spec 0 (envAt 0) (freshConn 0) { New with store := [(lit "n", lit "10")] } (lit "n")).2.1
    (lit "10") 10 rfl rfl (by decide)

/-! ## Lists -/

theorem processCommand_LPUSH (fuel : Nat) (env : Env) (rest : List Bytes) (conn : Connection)
    (kv : KVStore) :
    processCommand fuel env (lit "LPUSH" :: rest) conn kv = cmdLPUSH (lit "LPUSH" :: rest) conn kv := by
  rw [processCommand_not_EXEC _ _ _ _ _ _ (by decide)]
  rfl

theorem processCommand_LRANGE (fuel : Nat) (env : Env) (rest : List Bytes) (conn : Connection)
    (kv : KVStore) :
    processCommand fuel env (lit "LRANGE" :: rest) conn kv =
      cmdLRANGE (lit "LRANGE" :: rest) conn kv := by
  rw [processCommand_not_EXEC _ _ _ _ _ _ (by decide)]
  rfl

theorem sliceAt_mapSet_same {α : Type} (m : GoMap (List α)) (k : Bytes) (v : List α) :
    sliceAt (mapSet m k v) k = v := by
  simp [sliceAt, mapGet_mapSet_same]

theorem sliceAt_lpush_fold (k : Bytes) (vs : List Bytes) (ls : GoMap (List Bytes)) :
    sliceAt (vs.foldl (fun ls v => mapSet ls k (v :: sliceAt ls k)) ls) k =
      vs.reverse ++ sliceAt ls k := by
  induction vs generalizing ls with
  | nil => simp
  | cons v vs ih =>
    simp only [List.foldl_cons, ih, sliceAt_mapSet_same, List.reverse_cons, List.append_assoc,
      List.singleton_append]

theorem mapGet_lpush_fold_ne (k k' : Bytes) (hne : k' ≠ k) (vs : List Bytes)
    (ls : GoMap (List Bytes)) :
    mapGet (vs.foldl (fun ls v => mapSet ls k (v :: sliceAt ls k)) ls) k' = mapGet ls k' := by
  induction vs generalizing ls with
  | nil => simp
  | cons v vs ih => simp only [List.foldl_cons, ih, mapGet_mapSet_ne _ _ _ _ hne]

/-- C9. When `k` holds no set and the list at `k` is `L` (the empty list when `k` is absent),
`LPUSH k v1 .. vn` succeeds, replies the integer `length(L) + n`, leaves the list at `k` equal
to `[vn, ..., v1]` followed by `L`, and changes no other list and no other container. -/
theorem lpush_spec (fuel : Nat) (env : Env) (conn : Connection) (kv : KVStore) (k : Bytes)
    (vs : List Bytes) (hset : mapGet kv.sets k = none) :
    ∃ o, processCommand fuel env (lit "LPUSH" :: k :: vs) conn kv = .ok o ∧
      o.reply = EncodeInteger ((sliceAt kv.lists k).length + vs.length) ∧
      sliceAt o.kv.lists k = vs.reverse ++ sliceAt kv.lists k ∧
      (∀ k', k' ≠ k → mapGet o.kv.lists k' = mapGet kv.lists k') ∧
      o.kv.store = kv.store ∧ o.kv.sets = kv.sets ∧ o.kv.Stream = kv.Stream := by
  rw [processCommand_LPUSH]
  simp only [cmdLPUSH, idx, bind, Except.bind, List.getElem?_cons_succ, List.getElem?_cons_zero,
    hset, Option.isSome_none, Bool.false_eq_true, if_false, List.drop_succ_cons, List.drop_zero,
    done]
  refine ⟨_, rfl, ?_, ?_, ?_, rfl, rfl, rfl⟩
  · simp only [sliceAt_lpush_fold, List.length_append, List.length_reverse]
    congr 1
    push_cast
    ring
  · exact sliceAt_lpush_fold k vs kv.lists
  · intro k' hne
    exact mapGet_lpush_fold_ne k k' hne vs kv.lists

/-- C9 at `LPUSH list a b c` on the empty keyspace: the reply is `:3` and `LRANGE list 0 -1`
then returns `[c, b, a]`. -/
theorem lpush_spec_witness :
    mapGet New.sets (lit "list") = none ∧
    ∃ conn kv,
      runCommands 0
          [(envAt 0, [lit "LPUSH", lit "list", lit "a", lit "b", lit "c"]),
           (envAt 0, [lit "LRANGE", lit "list", lit "0", lit "-1"])]
          (freshConn 0) New =
        .ok ([lit ":3\r\n", EncodeArray [lit "c", lit "b", lit "a"]], conn, kv) ∧
      ∃ o, processCommand 0 (envAt 0) [lit "LPUSH", lit "list", lit "a", lit "b", lit "c"]
          (freshConn 0) New = .ok o ∧
        o.reply = EncodeInteger ((sliceAt New.lists (lit "list")).length + 3) ∧
        sliceAt o.kv.lists (lit "list") = [lit "c", lit "b", lit "a"] :=
  ⟨rfl, _, _, rfl,
    let ⟨o, h1, h2, h3, _⟩ :=
      lpush_spec 0 (envAt 0) (freshConn 0) New (lit "list") [lit "a", lit "b", lit "c"] rfl
    ⟨o, h1, h2, h3⟩⟩

theorem take_drop_eq_map_range (L : List Bytes) (s m : Nat) (h : s + m ≤ L.length) :
    (L.drop s).take m = (List.range m).map (fun i => L.getD (s + i) []) := by
  apply List.ext_getElem
  · simp
    omega
  · intro i h1 h2
    simp only [List.length_map, List.length_range] at h2
    simp only [List.getElem_take, List.getElem_drop, List.getElem_map, List.getElem_range]
    rw [List.getD_eq_getElem _ _ (by omega)]

theorem slice_ok (L : List Bytes) (s e : Int) (h0 : 0 ≤ s) (hse : s ≤ e)
    (hen : e < (L.length : Int)) :
    slice L s (e + 1) = .ok ((List.range (e - s + 1).toNat).map (fun i => L.getD (s.toNat + i) [])) := by
  unfold slice
  rw [if_pos ⟨h0, by omega, by omega⟩]
  congr 1
  have hm : (e + 1).toNat - s.toNat = (e - s + 1).toNat := by omega
  rw [hm]
  exact take_drop_eq_map_range L s.toNat _ (by omega)

theorem lrangeLo_nonneg (n start : Int) : 0 ≤ lrangeLo n start := by
  unfold lrangeLo
  simp only
  split_ifs <;> omega

theorem lrangeHi_lt (n stop : Int) : lrangeHi n stop < n := by
  unfold lrangeHi
  simp only
  split_ifs <;> omega

theorem lrangeRef_infix (L : List Bytes) (start stop : Int) : lrangeRef L start stop <:+: L := by
  unfold lrangeRef
  simp only
  have h0 := lrangeLo_nonneg L.length start
  have h1 := lrangeHi_lt L.length stop
  split
  · rw [← take_drop_eq_map_range L _ _ (by omega)]
    exact (List.take_prefix _ _).isInfix.trans (List.drop_suffix _ _).isInfix
  · exact List.nil_infix

theorem lrangeRef_whole (L : List Bytes) : lrangeRef L 0 (-1) = L := by
  have hlo : lrangeLo L.length 0 = 0 := by simp [lrangeLo]
  have hhi : lrangeHi L.length (-1) = (L.length : Int) - 1 := by
    unfold lrangeHi
    simp only
    split_ifs <;> omega
  unfold lrangeRef
  simp only [hlo, hhi]
  cases L with
  | nil => simp
  | cons a L =>
    have h3 : (0 : Int) ≤ ((a :: L).length : Int) - 1 := by simp
    rw [if_pos h3, ← take_drop_eq_map_range (a :: L) _ _ (by simp)]
    simp

theorem parseUintLoop_digit_overflow (m d : Nat) (hd : d < 10)
    (h : 18446744073709551616 ≤ m * 10 + d) :
    parseUintLoop m [digitChar d] = (maxUint64, some .rangeErr) := by
  have h1 := digitChar_isDigit d hd
  have h2 := digitChar_toNat d hd
  simp only [parseUintLoop, h1, h2, and_self, not_true_eq_false, if_false, maxUint64]
  by_cases hc : m ≥ 18446744073709551615 / 10 + 1
  · rw [if_pos hc]
  · rw [if_neg hc]
    have : (m * 10 + d) % 18446744073709551616 < m * 10 ∨
        (m * 10 + d) % 18446744073709551616 > 18446744073709551615 := by omega
    rw [if_pos this]

theorem parseUintLoop_decDigits_big (fuel n : Nat) (hf : n < fuel)
    (hn : 18446744073709551616 ≤ n) :
    parseUintLoop 0 (decDigits fuel n) = (maxUint64, some .rangeErr) := by
  induction fuel generalizing n with
  | zero => omega
  | succ f ih =>
    unfold decDigits
    rw [if_neg (by omega), parseUintLoop_snoc]
    by_cases hbig : 18446744073709551616 ≤ n / 10
    · rw [ih (n / 10) (by omega) hbig]
    · rw [parseUintLoop_decDigits f (n / 10) (by omega) (by omega)]
      simp only
      exact parseUintLoop_digit_overflow _ _ (Nat.mod_lt _ (by decide)) (by omega)

theorem parseUint_natToDec_big (n : Nat) (hn : 18446744073709551616 ≤ n) :
    parseUint (natToDec n) = (maxUint64, some .rangeErr) := by
  unfold parseUint natToDec
  rw [if_neg (decDigits_ne_nil n n)]
  exact parseUintLoop_decDigits_big (n + 1) n (by omega) hn

/-- What `Atoi` reads from the decimal text of any integer: the integer itself, replaced
by the nearest bound when it lies outside the signed 64-bit range. -/
theorem atoi_itoa_clamp (z : Int) :
    (atoi (itoa z)).1 = max minInt64 (min maxInt64 z) := by
  by_cases h1 : z < minInt64
  · have hz : z < 0 := by unfold minInt64 at h1; omega
    have hmm : max minInt64 (min maxInt64 z) = -9223372036854775808 := by
      unfold minInt64 maxInt64 at *
      omega
    have hlt : 9223372036854775808 < z.natAbs := by unfold minInt64 at h1; omega
    rw [hmm]
    unfold atoi itoa
    rw [if_pos hz]
    by_cases hbig : 18446744073709551616 ≤ z.natAbs
    · simp [parseInt, parseUint_natToDec_big _ hbig, maxUint64]
    · simp [parseInt, parseUint_natToDec _ (by omega : z.natAbs < 18446744073709551616), hlt]
  · by_cases h2 : maxInt64 < z
    · have hz : ¬ z < 0 := by unfold maxInt64 at h2; omega
      have hmm : max minInt64 (min maxInt64 z) = 9223372036854775807 := by
        unfold minInt64 maxInt64 at *
        omega
      have hge : 9223372036854775808 ≤ z.natAbs := by unfold maxInt64 at h2; omega
      obtain ⟨c, cs, hcs⟩ := List.exists_cons_of_ne_nil (natToDec_ne_nil z.natAbs)
      have hc := natToDec_isDigit z.natAbs c (by rw [hcs]; exact List.mem_cons_self _ _)
      obtain ⟨-, -, hplus, hminus, -⟩ := not_crlf_of_isDigit c hc
      rw [hmm]
      unfold atoi itoa
      rw [if_neg hz]
      by_cases hbig : 18446744073709551616 ≤ z.natAbs
      · have hp := parseUint_natToDec_big _ hbig
        rw [hcs] at hp ⊢
        simp [parseInt, hplus, hminus, hp, maxUint64]
      · have hp := parseUint_natToDec _ (by omega : z.natAbs < 18446744073709551616)
        rw [hcs] at hp ⊢
        simp [parseInt, hplus, hminus, hp, hge]
    · rw [atoi_itoa z (by omega) (by omega)]
      unfold minInt64 maxInt64 at *
      simp only
      omega

theorem lrangeRef_clamp (L : List Bytes) (hL : (L.length : Int) ≤ maxInt64) (start stop : Int) :
    lrangeRef L (max minInt64 (min maxInt64 start)) (max minInt64 (min maxInt64 stop)) =
      lrangeRef L start stop := by
  have hn : (0 : Int) ≤ L.length := by omega
  unfold maxInt64 at hL
  by_cases hs : start ≤ maxInt64
  · have hlo : lrangeLo L.length (max minInt64 (min maxInt64 start)) = lrangeLo L.length start := by
      unfold lrangeLo minInt64 maxInt64 at *
      simp only
      split_ifs <;> omega
    by_cases he : minInt64 ≤ stop
    · have hhi : lrangeHi L.length (max minInt64 (min maxInt64 stop)) = lrangeHi L.length stop := by
        unfold lrangeHi minInt64 maxInt64 at *
        simp only
        split_ifs <;> omega
      unfold lrangeRef
      simp only [hlo, hhi]
    · have h0 := lrangeLo_nonneg L.length start
      have ha : lrangeHi L.length (max minInt64 (min maxInt64 stop)) < 0 := by
        unfold lrangeHi minInt64 maxInt64 at *
        simp only
        split_ifs <;> omega
      have hb : lrangeHi L.length stop < 0 := by
        unfold lrangeHi minInt64 maxInt64 at *
        simp only
        split_ifs <;> omega
      unfold lrangeRef
      simp only [hlo]
      rw [if_neg (by omega), if_neg (by omega)]
  · have ha : (L.length : Int) ≤ lrangeLo L.length (max minInt64 (min maxInt64 start)) := by
      unfold lrangeLo minInt64 maxInt64 at *
      simp only
      split_ifs <;> omega
    have hb : (L.length : Int) ≤ lrangeLo L.length start := by
      unfold lrangeLo minInt64 maxInt64 at *
      simp only
      split_ifs <;> omega
    have hc := lrangeHi_lt L.length (max minInt64 (min maxInt64 stop))
    have hd := lrangeHi_lt L.length stop
    unfold lrangeRef
    simp only
    rw [if_neg (by omega), if_neg (by omega)]

/-- C10. For a list `L` stored at `k` and all integers `start` and `stop`, written in
decimal, `LRANGE k start stop` succeeds (no index leaves `L`), changes nothing and replies
the array of the reference range `lrangeRef L start stop`, which is a contiguous part of
`L`; when `k` holds no list the reply is the empty array; and the range of `0 -1` is all of
`L`.  The bound on the length of `L` says that it is a value of Go's `int`. -/
theorem lrange_spec (fuel : Nat) (env : Env) (conn : Connection) (kv : KVStore) (k : Bytes)
    (start stop : Int) :
    (∀ L, mapGet kv.lists k = some L → (L.length : Int) ≤ maxInt64 →
      processCommand fuel env [lit "LRANGE", k, itoa start, itoa stop] conn kv =
          done (EncodeArray (lrangeRef L start stop)) [lit "LRANGE", k, itoa start, itoa stop]
            conn kv ∧
        lrangeRef L start stop <:+: L ∧ lrangeRef L 0 (-1) = L) ∧
    (mapGet kv.lists k = none →
      processCommand fuel env [lit "LRANGE", k, itoa start, itoa stop] conn kv =
        done (EncodeArray []) [lit "LRANGE", k, itoa start, itoa stop] conn kv) := by
  constructor
  · intro L hL hlen
    refine ⟨?_, lrangeRef_infix L start stop, lrangeRef_whole L⟩
    rw [← lrangeRef_clamp L hlen start stop]
    have ha := atoi_itoa_clamp start
    have hb := atoi_itoa_clamp stop
    generalize max minInt64 (min maxInt64 start) = s' at ha ⊢
    generalize max minInt64 (min maxInt64 stop) = e' at hb ⊢
    have h0 := lrangeLo_nonneg L.length s'
    have h1 := lrangeHi_lt L.length e'
    have hlo : (if (if s' < 0 then (L.length : Int) + s' else s') < 0 then 0
        else (if s' < 0 then (L.length : Int) + s' else s')) = lrangeLo L.length s' := by
      unfold lrangeLo
      simp only
      split_ifs <;> omega
    have hhi : (if (if e' < 0 then (L.length : Int) + e' else e') ≥ (L.length : Int) then
        (L.length : Int) - 1 else (if e' < 0 then (L.length : Int) + e' else e')) =
        lrangeHi L.length e' := by
      unfold lrangeHi
      simp only
      split_ifs <;> omega
    rw [processCommand_LRANGE]
    simp only [cmdLRANGE, idx, bind, Except.bind, List.getElem?_cons_succ,
      List.getElem?_cons_zero, ha, hb, hL, hlo, hhi]
    unfold lrangeRef
    simp only
    by_cases hse : lrangeLo L.length s' ≤ lrangeHi L.length e'
    · rw [if_neg (by omega), if_pos hse, slice_ok L _ _ h0 hse h1]
    · rw [if_pos (by omega), if_neg hse]
  · intro hL
    rw [processCommand_LRANGE]
    simp only [cmdLRANGE, idx, bind, Except.bind, List.getElem?_cons_succ,
      List.getElem?_cons_zero, hL]

/-- C10 at `LRANGE k -2 5` on the list `[a, b, c]`. -/
theorem lrange_spec_witness :
    processCommand 0 (envAt 0) [lit "LRANGE", lit "k", itoa (-2), itoa 5] (freshConn 0)
        { New with lists := [(lit "k", [lit "a", lit "b", lit "c"])] } =
      done (EncodeArray (lrangeRef [lit "a", lit "b", lit "c"] (-2) 5))
        [lit "LRANGE", lit "k", itoa (-2), itoa 5] (freshConn 0)
        { New with lists := [(lit "k", [lit "a", lit "b", lit "c"])] } ∧
    lrangeRef [lit "a", lit "b", lit "c"] (-2) 5 = [lit "b", lit "c"] :=
  ⟨((lrange_spec 0 (envAt 0) (freshConn 0)
      { New with lists := [(lit "k", [lit "a", lit "b", lit "c"])] } (lit "k") (-2) 5).1
      [lit "a", lit "b", lit "c"] rfl (by decide)).1, rfl⟩

/-! ## The order of stream entries -/

theorem splitDash_cons (s : Bytes) : ∃ p ps, splitDash s = p :: ps := by
  induction s with
  | nil => exact ⟨[], [], rfl⟩
  | cons c cs ih =>
    obtain ⟨p, ps, h⟩ := ih
    unfold splitDash
    split
    · exact ⟨_, _, rfl⟩
    · rw [h]
      exact ⟨_, _, rfl⟩

theorem idx_cons_zero {α : Type} (a : α) (l : List α) : idx (a :: l) 0 = .ok a := by simp [idx]

theorem idx_cons_one {α : Type} (a b : α) (l : List α) : idx (a :: b :: l) 1 = .ok b := by simp [idx]

theorem idx_singleton_one {α : Type} (a : α) : idx [a] 1 = .error .panic := by simp [idx]

theorem idPair_eq (id p p1 : Bytes) (ps : List Bytes) (h : splitDash id = p :: p1 :: ps) :
    idPair id = .ok ((atoi p).1, (atoi p1).1) := by
  simp [idPair, h, idx_cons_zero, idx_cons_one, bind, Except.bind, pure, Except.pure]

theorem idPair_single (id p : Bytes) (h : splitDash id = [p]) :
    idPair id = .error .panic := by
  simp [idPair, h, idx_cons_zero, idx_singleton_one, bind, Except.bind]

theorem xaddCheck_accept (entries : List StreamEntry) (id id2 : Bytes)
    (h : xaddCheck entries id = .ok (id2, none)) :
    (∃ t s, idPair id2 = .ok (t, s)) ∧
      ∀ last, entries.getLast? = some last → idLt last.Id id2 := by
  unfold xaddCheck at h
  cases hl : entries.getLast? with
  | none =>
    rw [hl] at h
    obtain ⟨q, qs, hq⟩ := splitDash_cons id
    cases qs with
    | nil => simp [hq, idx_singleton_one, bind, Except.bind] at h
    | cons q1 qs =>
      simp only [hq, idx_cons_one, bind, Except.bind, pure, Except.pure, Except.ok.injEq,
        Prod.mk.injEq, and_true] at h
      refine ⟨?_, by simp⟩
      by_cases hstar : q1 = lit "*"
      · rw [if_pos hstar] at h
        subst h
        exact ⟨_, _, rfl⟩
      · rw [if_neg hstar] at h
        subst h
        exact ⟨_, _, idPair_eq _ _ _ _ hq⟩
  | some last =>
    rw [hl] at h
    obtain ⟨p, ps, hp⟩ := splitDash_cons last.Id
    obtain ⟨q, qs, hq⟩ := splitDash_cons id
    cases ps with
    | nil => simp [hp, hq, idx_cons_zero, idx_singleton_one, bind, Except.bind] at h
    | cons p1 ps =>
      cases qs with
      | nil => simp [hp, hq, idx_cons_zero, idx_cons_one, idx_singleton_one, bind, Except.bind] at h
      | cons q1 qs =>
        simp only [hp, hq, idx_cons_zero, idx_cons_one, bind, Except.bind, pure, Except.pure] at h
        by_cases hstar : q1 = lit "*"
        · simp only [hstar, if_true] at h
          generalize hid : (if (atoi q).1 = (atoi p).1 then
              itoa (atoi p).1 ++ lit "-" ++ itoa (wrap64 ((atoi p1).1 + 1))
            else if (atoi q).1 = 0 then lit "0-1" else itoa (atoi q).1 ++ lit "-0") = idn at h
          obtain ⟨r, rs, hr⟩ := splitDash_cons idn
          cases rs with
          | nil => simp [hr, idx_cons_zero, idx_singleton_one] at h
          | cons r1 rs =>
            simp only [hr, idx_cons_zero, idx_cons_one] at h
            split_ifs at h with h1 h2
            · simp at h
            · simp at h
            · simp only [Except.ok.injEq, Prod.mk.injEq, and_true] at h
              subst h
              refine ⟨⟨_, _, idPair_eq _ _ _ _ hr⟩, ?_⟩
              intro last' hlast'
              cases hlast'
              unfold idLt
              rw [idPair_eq _ _ _ _ hp, idPair_eq _ _ _ _ hr]
              simp only
              omega
        · simp only [hstar, if_false, idx_cons_one] at h
          split_ifs at h with h1 h2
          · simp at h
          · simp at h
          · simp only [Except.ok.injEq, Prod.mk.injEq, and_true] at h
            subst h
            refine ⟨⟨_, _, idPair_eq _ _ _ _ hq⟩, ?_⟩
            intro last' hlast'
            cases hlast'
            unfold idLt
            rw [idPair_eq _ _ _ _ hp, idPair_eq _ _ _ _ hq]
            simp only
            omega
theorem splitDash_no_dash (s : Bytes) : ∀ p ∈ splitDash s, ∀ c ∈ p, c ≠ '-' := by
  induction s with
  | nil => simp [splitDash]
  | cons c cs ih =>
    obtain ⟨q, qs, hq⟩ := splitDash_cons cs
    unfold splitDash
    split
    · intro p hp
      rcases List.mem_cons.mp hp with rfl | hp
      · simp
      · exact ih p hp
    · rename_i hc
      rw [hq]
      intro p hp
      rw [hq] at ih
      rcases List.mem_cons.mp hp with rfl | hp
      · intro x hx
        rcases List.mem_cons.mp hx with rfl | hx
        · exact hc
        · exact ih q (List.mem_cons_self _ _) x hx
      · exact ih p (List.mem_cons_of_mem _ hp)

theorem atoi_nonneg (s : Bytes) (h : ∀ c ∈ s, c ≠ '-') : 0 ≤ (atoi s).1 := by
  unfold atoi parseInt
  split
  · simp
  · rename_i c cs
    have hc : c ≠ '-' := h c (List.mem_cons_self _ _)
    simp only [hc, or_false, not_false_eq_true, true_and, false_and, if_false]
    split
    · simp
    · split
      · simp
      · simp

theorem idPair_nonneg (id : Bytes) (t s : Int) (h : idPair id = .ok (t, s)) : 0 ≤ t ∧ 0 ≤ s := by
  obtain ⟨p, ps, hp⟩ := splitDash_cons id
  have hnd := splitDash_no_dash id
  rw [hp] at hnd
  cases ps with
  | nil => rw [idPair_single id p hp] at h; cases h
  | cons p1 ps =>
    rw [idPair_eq id p p1 ps hp] at h
    simp only [Except.ok.injEq, Prod.mk.injEq] at h
    obtain ⟨rfl, rfl⟩ := h
    exact ⟨atoi_nonneg p (hnd p (List.mem_cons_self _ _)),
      atoi_nonneg p1 (hnd p1 (List.mem_cons_of_mem _ (List.mem_cons_self _ _)))⟩

theorem splitDash_of_no_dash (s : Bytes) (h : ∀ c ∈ s, c ≠ '-') : splitDash s = [s] := by
  induction s with
  | nil => rfl
  | cons c cs ih =>
    have hc : c ≠ '-' := h c (List.mem_cons_self _ _)
    have ih' := ih (fun x hx => h x (List.mem_cons_of_mem _ hx))
    simp only [splitDash, hc, if_false, ih']

theorem splitDash_append_dash (l r : Bytes) (h : ∀ c ∈ l, c ≠ '-') :
    splitDash (l ++ '-' :: r) = l :: splitDash r := by
  induction l with
  | nil => simp [splitDash]
  | cons c cs ih =>
    have hc : c ≠ '-' := h c (List.mem_cons_self _ _)
    have ih' := ih (fun x hx => h x (List.mem_cons_of_mem _ hx))
    simp only [List.cons_append, splitDash, hc, if_false, List.append_eq, ih']

theorem natToDec_no_dash (n : Nat) : ∀ c ∈ natToDec n, c ≠ '-' := fun c hc =>
  (not_crlf_of_isDigit c (natToDec_isDigit n c hc)).2.2.2.1

theorem idPair_renderId (ms seq : Nat) (h1 : (ms : Int) ≤ maxInt64) (h2 : (seq : Int) ≤ maxInt64) :
    idPair (renderId (ms, seq)) = .ok ((ms : Int), (seq : Int)) := by
  have hs : splitDash (renderId (ms, seq)) = [natToDec ms, natToDec seq] := by
    have : renderId (ms, seq) = natToDec ms ++ '-' :: natToDec seq := by
      simp [renderId, lit]
    rw [this, splitDash_append_dash _ _ (natToDec_no_dash ms),
      splitDash_of_no_dash _ (natToDec_no_dash seq)]
  rw [idPair_eq _ _ _ _ hs, ← itoa_natCast, ← itoa_natCast, atoi_itoa_nat ms h1,
    atoi_itoa_nat seq h2]
theorem cmdXADD_ordered (env : Env) (args : List Bytes) (conn : Connection) (kv : KVStore)
    (o : Outcome) (h : cmdXADD env args conn kv = .ok o)
    (hinv : StreamsOrdered kv) : StreamsOrdered o.kv := by
  unfold cmdXADD at h
  simp only [bind, Except.bind] at h
  cases h2 : idx args 2 with
  | error e => simp [h2] at h
  | ok a2 =>
    cases h1 : idx args 1 with
    | error e => simp [h2, h1] at h
    | ok key =>
      simp only [h2, h1] at h
      generalize (if a2 = lit "*" then itoa env.now ++ lit "-0" else a2) = id1 at h
      cases hc : xaddCheck (sliceAt kv.Stream key) id1 with
      | error e => simp [hc] at h
      | ok r =>
        obtain ⟨id2, rej⟩ := r
        simp only [hc] at h
        cases rej with
        | some err =>
          simp only [Except.ok.injEq] at h
          subst h
          exact hinv
        | none =>
          simp only at h
          cases hb : buildPairs [] (List.drop 3 (args.set 2 id2)) with
          | error e => simp [hb] at h
          | ok pair =>
            simp only [hb, Except.ok.injEq] at h
            subst h
            obtain ⟨⟨t, s, hts⟩, hlt⟩ := xaddCheck_accept _ _ _ hc
            intro key' entries hget
            simp only at hget
            by_cases hk : key' = key
            · subst hk
              rw [mapGet_mapSet_same] at hget
              cases hget
              constructor
              · refine List.Chain'.append ?_ (List.chain'_singleton _) ?_
                · unfold sliceAt
                  cases hm : mapGet kv.Stream key' with
                  | none => exact List.chain'_nil
                  | some old => exact (hinv key' old hm).1
                · intro x hx y hy
                  simp only [List.head?_cons, Option.mem_def, Option.some.injEq] at hy
                  subst hy
                  exact hlt x hx
              · intro e he
                rcases List.mem_append.mp he with he | he
                · unfold sliceAt at he
                  cases hm : mapGet kv.Stream key' with
                  | none => simp [hm] at he
                  | some old =>
                    rw [hm] at he
                    exact (hinv key' old hm).2 e he
                · simp only [List.mem_singleton] at he
                  subst he
                  exact ⟨t, s, hts, idPair_nonneg _ _ _ hts⟩
            · rw [mapGet_mapSet_ne _ _ _ _ hk] at hget
              exact hinv key' entries hget

theorem dispatch_XADD (env : Env) (args : List Bytes) (conn : Connection) (kv : KVStore) :
    dispatch env (lit "XADD") args conn kv = cmdXADD env args conn kv := rfl

theorem runCommands_xadd_ordered (fuel : Nat) (cmds : List (Env × List Bytes))
    (hx : ∀ c ∈ cmds, c.2.head?.map toUpper = some (lit "XADD")) (conn : Connection)
    (kv : KVStore) (hinv : StreamsOrdered kv) (replies : List Bytes) (conn' : Connection)
    (kv' : KVStore) (hrun : runCommands fuel cmds conn kv = .ok (replies, conn', kv')) :
    StreamsOrdered kv' := by
  induction cmds generalizing conn kv replies with
  | nil =>
    simp only [runCommands, Except.ok.injEq, Prod.mk.injEq] at hrun
    obtain ⟨-, -, rfl⟩ := hrun
    exact hinv
  | cons c cmds ih =>
    obtain ⟨env, args⟩ := c
    have hc := hx (env, args) (List.mem_cons_self _ _)
    cases args with
    | nil => simp at hc
    | cons a rest =>
      simp only [List.head?_cons, Option.map_some', Option.some.injEq] at hc
      simp only [runCommands, bind, Except.bind] at hrun
      rw [processCommand_not_EXEC _ _ _ _ _ _ (by rw [hc]; decide), hc, dispatch_XADD] at hrun
      cases ho : cmdXADD env (a :: rest) conn kv with
      | error e => simp [ho] at hrun
      | ok o =>
        simp only [ho] at hrun
        cases hr : runCommands fuel cmds o.conn o.kv with
        | error e => simp [hr] at hrun
        | ok r =>
          obtain ⟨rs, c2, k2⟩ := r
          simp only [hr, pure, Except.pure, Except.ok.injEq, Prod.mk.injEq] at hrun
          obtain ⟨-, rfl, rfl⟩ := hrun
          exact ih (fun c hc => hx c (List.mem_cons_of_mem _ hc)) o.conn o.kv
            (cmdXADD_ordered env _ conn kv o ho hinv) rs hr

/-- C5 (amended). From the empty keyspace, after every sequence of `XADD` commands that
the dispatcher has evaluated (accepted or rejected, whatever their arguments and clock
readings), every stream lists its entries in strictly increasing lexicographic order of the
pairs that the dispatcher reads from their IDs, and these pairs are non-negative.  The pair
read from the text `<ms>-<seq>` is `(ms, seq)` whenever both are at most 2^63 - 1. -/
theorem xadd_streams_ordered (fuel : Nat) (cmds : List (Env × List Bytes))
    (hx : ∀ c ∈ cmds, c.2.head?.map toUpper = some (lit "XADD")) (conn : Connection)
    (replies : List Bytes) (conn' : Connection) (kv' : KVStore)
    (hrun : runCommands fuel cmds conn New = .ok (replies, conn', kv')) :
    StreamsOrdered kv' ∧
    ∀ ms seq : Nat, (ms : Int) ≤ maxInt64 → (seq : Int) ≤ maxInt64 →
      idPair (renderId (ms, seq)) = .ok ((ms : Int), (seq : Int)) := by
  refine ⟨runCommands_xadd_ordered fuel cmds hx conn New ?_ replies conn' kv' hrun,
    idPair_renderId⟩
  intro key entries h
  simp [New, mapGet] at h

/-- C5 (amended) on a run with an accepted, a rejected, a `*` and a `<ms>-*` command. -/
theorem xadd_streams_ordered_witness :
    ∃ replies conn' kv',
      runCommands 0
          [(envAt 0, [lit "XADD", lit "s", lit "1-1", lit "f", lit "v"]),
           (envAt 0, [lit "xadd", lit "s", lit "1-1", lit "f", lit "v"]),
           (envAt 5, [lit "XADD", lit "s", lit "*", lit "f", lit "v"]),
           (envAt 9, [lit "XADD", lit "s", lit "5-*", lit "f", lit "v"])]
          (freshConn 0) New = .ok (replies, conn', kv') ∧
        (sliceAt kv'.Stream (lit "s")).map StreamEntry.Id = [lit "1-1", lit "5-0", lit "5-1"] ∧
        StreamsOrdered kv' :=
  ⟨_, _, _, rfl, rfl,
    (xadd_streams_ordered 0
      [(envAt 0, [lit "XADD", lit "s", lit "1-1", lit "f", lit "v"]),
       (envAt 0, [lit "xadd", lit "s", lit "1-1", lit "f", lit "v"]),
       (envAt 5, [lit "XADD", lit "s", lit "*", lit "f", lit "v"]),
       (envAt 9, [lit "XADD", lit "s", lit "5-*", lit "f", lit "v"])]
      (by decide) (freshConn 0) _ _ _ rfl).1⟩

/-! ## `DEL`, `XRANGE`, `XREAD`, expiry, propagation: evaluations -/

/-- C12 (counterexample). After `LPUSH l a` the command `DEL l` replies `:0` and the list
stays at `l`. -/
theorem del_leaves_list :
    ∃ s, handleAll 0 (commandsAt 0 [[lit "LPUSH", lit "l", lit "a"], [lit "DEL", lit "l"]])
        (freshSession New 3) = .ok s ∧
      s.wire = [(3, lit ":1\r\n"), (3, lit ":0\r\n")] ∧
      mapGet s.kv.lists (lit "l") = some [lit "a"] :=
  ⟨_, rfl, rfl, rfl⟩

/-- C15 (failing input). In a stream whose only entry is `5-1`, `XRANGE s 0 5` replies the
empty array, although the end token `5` has no `-seq` part and the entry has that `ms`; with
the end token `5-9` the entry is returned. -/
theorem xrange_end_without_seq :
    ∃ s, handleAll 0
        (commandsAt 0 [[lit "XADD", lit "s", lit "5-1", lit "f", lit "v"],
          [lit "XRANGE", lit "s", lit "0", lit "5"],
          [lit "XRANGE", lit "s", lit "0", lit "5-9"]])
        (freshSession New 3) = .ok s ∧
      s.wire = [(3, lit "$3\r\n5-1\r\n"), (3, lit "*0\r\n"),
        (3, EncodeRawArray [encodeEntry { Id := lit "5-1", Pair := [(lit "f", lit "v")] }])] :=
  ⟨_, rfl, rfl⟩

/-- C16 (counterexample). In a stream whose only entry is `1-1`, `XREAD STREAMS s $` returns
that entry; and on the empty keyspace `XREAD STREAMS s $` panics. -/
theorem xread_dollar_returns_last :
    (∃ s, handleAll 0
        (commandsAt 0 [[lit "XADD", lit "s", lit "1-1", lit "f", lit "v"],
          [lit "XREAD", lit "STREAMS", lit "s", lit "$"]])
        (freshSession New 3) = .ok s ∧
      s.wire = [(3, lit "$3\r\n1-1\r\n"),
        (3, EncodeRawArray [EncodeRawArray [EncodeBulkString (lit "s"),
          EncodeRawArray [encodeEntry { Id := lit "1-1", Pair := [(lit "f", lit "v")] }]]])]) ∧
    processCommand 0 (envAt 0) [lit "XREAD", lit "STREAMS", lit "s", lit "$"] (freshConn 3) New =
      .error .panic :=
  ⟨⟨_, rfl, rfl⟩, rfl⟩

/-- C17 (failing input). At clock reading 0, `SET k v EX 10` starts an expiry goroutine that
is due at 10 milliseconds, the same as `SET k v PX 10`, not at 10000 milliseconds; `SET k v`
starts none. -/
theorem set_ex_is_milliseconds :
    (∃ o, processCommand 0 (envAt 0) [lit "SET", lit "k", lit "v", lit "EX", lit "10"]
        (freshConn 3) New = .ok o ∧
      o.kv.expirers = [{ key := lit "k", due := 10, stop := 0 }]) ∧
    (∃ o, processCommand 0 (envAt 0) [lit "SET", lit "k", lit "v", lit "PX", lit "10"]
        (freshConn 3) New = .ok o ∧
      o.kv.expirers = [{ key := lit "k", due := 10, stop := 0 }]) ∧
    (∃ o, processCommand 0 (envAt 0) [lit "SET", lit "k", lit "v"] (freshConn 3) New = .ok o ∧
      o.kv.expirers = []) :=
  ⟨⟨_, rfl, rfl⟩, ⟨_, rfl, rfl⟩, ⟨_, rfl, rfl⟩⟩

/-- C18 (failing input). After `SET k v1 PX 100` at time 0 and `SET k v2` at time 10, the
goroutine of the first `SET` is still waiting, and when the clock reaches 100 it removes
`k`; and after `SET k v1 PX 100` and `SET k v2 PX 200` two expiry goroutines wait for `k`. -/
theorem set_does_not_cancel_ttl :
    (∃ o1 o2,
      processCommand 0 (envAt 0) [lit "SET", lit "k", lit "v1", lit "PX", lit "100"]
        (freshConn 3) New = .ok o1 ∧
      processCommand 0 (envAt 10) [lit "SET", lit "k", lit "v2"] o1.conn o1.kv = .ok o2 ∧
      mapGet o2.kv.store (lit "k") = some (lit "v2") ∧
      o2.kv.expirers = [{ key := lit "k", due := 100, stop := 0 }] ∧
      mapGet (expireUpTo o2.kv 100).store (lit "k") = none) ∧
    (∃ o1 o2,
      processCommand 0 (envAt 0) [lit "SET", lit "k", lit "v1", lit "PX", lit "100"]
        (freshConn 3) New = .ok o1 ∧
      processCommand 0 (envAt 10) [lit "SET", lit "k", lit "v2", lit "PX", lit "200"]
        o1.conn o1.kv = .ok o2 ∧
      o2.kv.expirers =
        [{ key := lit "k", due := 100, stop := 0 }, { key := lit "k", due := 210, stop := 1 }]) :=
  ⟨⟨_, _, rfl, rfl, rfl, rfl, rfl⟩, ⟨_, _, rfl, rfl, rfl⟩⟩

/-- C19 (counterexample). A replica registers on socket 7 with `PSYNC`; a client on socket 3
then issues `SET n 1`, `INCR n`, `LPUSH l a` and `DEL n`.  Only the `SET` is written to
socket 7. -/
theorem only_set_is_propagated :
    ∃ s1 s2,
      handleAll 0 (commandsAt 0 [[lit "PSYNC", lit "?", lit "-1"]]) (freshSession New 7) =
        .ok s1 ∧
      s1.kv.Info.slaves = [7] ∧
      handleAll 0
        (commandsAt 0 [[lit "SET", lit "n", lit "1"], [lit "INCR", lit "n"],
          [lit "LPUSH", lit "l", lit "a"], [lit "DEL", lit "n"]])
        (freshSession s1.kv 3) = .ok s2 ∧
      s2.wire = [(3, lit "+SET DONE\r\n"), (7, EncodeArray [lit "SET", lit "n", lit "1"]),
        (3, lit ":2\r\n"), (3, lit ":1\r\n"), (3, lit ":1\r\n")] :=
  ⟨_, _, rfl, rfl, rfl, rfl⟩

/-- C20 (failing input). On a replica whose master connection is socket 1 and which holds
`k = v`, a client on socket 2 sends `GET k`: nothing is written to socket 2.  On the master
connection `REPLCONF GETACK *` is answered. -/
theorem replica_client_gets_no_reply :
    (∃ s, handleAll 0 (commandsAt 0 [[lit "GET", lit "k"]])
        (freshSession
          { New with
            Info := { New.Info with Role := lit "slave", MasterConn := some 1 }
            store := [(lit "k", lit "v")] } 2) = .ok s ∧
      s.wire = []) ∧
    (∃ s, handleAll 0 (commandsAt 0 [[lit "REPLCONF", lit "GETACK", lit "*"]])
        (freshSession
          { New with
            Info := { New.Info with Role := lit "slave", MasterConn := some 1 }
            store := [(lit "k", lit "v")] } 1) = .ok s ∧
      s.wire = [(1, EncodeArray [lit "REPLCONF", lit "ACK", lit "0"])]) :=
  ⟨⟨_, rfl, rfl⟩, ⟨_, rfl, rfl⟩⟩

/-! ## The cases of the dispatcher do not look at the transaction state -/

theorem cmdECHO_conn (args : List Bytes) (conn conn' : Connection) (kv : KVStore) :
    cmdECHO args conn' kv = (cmdECHO args conn kv).map (withConn conn') := by
  unfold cmdECHO
  simp only [bind, Except.bind, done, withConn]
  repeat' split
  all_goals rfl

theorem cmdSET_conn (env : Env) (args : List Bytes) (conn conn' : Connection) (kv : KVStore) :
    cmdSET env args conn' kv = (cmdSET env args conn kv).map (withConn conn') := by
  unfold cmdSET
  simp only [bind, Except.bind, done, withConn]
  repeat' split
  all_goals rfl

theorem cmdGET_conn (args : List Bytes) (conn conn' : Connection) (kv : KVStore) :
    cmdGET args conn' kv = (cmdGET args conn kv).map (withConn conn') := by
  unfold cmdGET
  simp only [bind, Except.bind, done, withConn]
  repeat' split
  all_goals rfl

theorem cmdDEL_conn (args : List Bytes) (conn conn' : Connection) (kv : KVStore) :
    cmdDEL args conn' kv = (cmdDEL args conn kv).map (withConn conn') := by
  unfold cmdDEL
  simp only [bind, Except.bind, done, withConn]
  repeat' split
  all_goals rfl

theorem cmdCONFIG_conn (args : List Bytes) (conn conn' : Connection) (kv : KVStore) :
    cmdCONFIG args conn' kv = (cmdCONFIG args conn kv).map (withConn conn') := by
  unfold cmdCONFIG
  simp only [bind, Except.bind, done, withConn]
  repeat' split
  all_goals rfl

theorem cmdKEYS_conn (env : Env) (args : List Bytes) (conn conn' : Connection) (kv : KVStore) :
    cmdKEYS env args conn' kv = (cmdKEYS env args conn kv).map (withConn conn') := by
  unfold cmdKEYS
  simp only [bind, Except.bind, done, withConn]
  rfl

theorem cmdINFO_conn (args : List Bytes) (conn conn' : Connection) (kv : KVStore) :
    cmdINFO args conn' kv = (cmdINFO args conn kv).map (withConn conn') := by
  unfold cmdINFO
  simp only [bind, Except.bind, done, withConn]
  rfl

theorem cmdREPLCONF_conn (env : Env) (args : List Bytes) (conn conn' : Connection) (kv : KVStore) :
    cmdREPLCONF env args conn' kv = (cmdREPLCONF env args conn kv).map (withConn conn') := by
  unfold cmdREPLCONF
  simp only [bind, Except.bind, done, withConn]
  repeat' split
  all_goals rfl

theorem cmdPSYNC_conn (args : List Bytes) (conn conn' : Connection) (kv : KVStore) (h : conn.Conn = conn'.Conn) :
    cmdPSYNC args conn' kv = (cmdPSYNC args conn kv).map (withConn conn') := by
  unfold cmdPSYNC
  simp only [bind, Except.bind, done, withConn, h]
  rfl

theorem cmdWAIT_conn (env : Env) (args : List Bytes) (conn conn' : Connection) (kv : KVStore) :
    cmdWAIT env args conn' kv = (cmdWAIT env args conn kv).map (withConn conn') := by
  unfold cmdWAIT
  simp only [bind, Except.bind, done, withConn]
  repeat' split
  all_goals rfl

theorem cmdTYPE_conn (args : List Bytes) (conn conn' : Connection) (kv : KVStore) :
    cmdTYPE args conn' kv = (cmdTYPE args conn kv).map (withConn conn') := by
  unfold cmdTYPE
  simp only [bind, Except.bind, done, withConn]
  repeat' split
  all_goals rfl

theorem cmdXADD_conn (env : Env) (args : List Bytes) (conn conn' : Connection) (kv : KVStore) :
    cmdXADD env args conn' kv = (cmdXADD env args conn kv).map (withConn conn') := by
  unfold cmdXADD
  simp only [bind, Except.bind, done, withConn]
  repeat' split
  all_goals rfl

theorem cmdLPUSH_conn (args : List Bytes) (conn conn' : Connection) (kv : KVStore) :
    cmdLPUSH args conn' kv = (cmdLPUSH args conn kv).map (withConn conn') := by
  unfold cmdLPUSH
  simp only [bind, Except.bind, done, withConn]
  repeat' split
  all_goals rfl

theorem cmdLRANGE_conn (args : List Bytes) (conn conn' : Connection) (kv : KVStore) :
    cmdLRANGE args conn' kv = (cmdLRANGE args conn kv).map (withConn conn') := by
  unfold cmdLRANGE
  simp only [bind, Except.bind, done, withConn]
  repeat' split
  all_goals rfl

theorem cmdSADD_conn (args : List Bytes) (conn conn' : Connection) (kv : KVStore) :
    cmdSADD args conn' kv = (cmdSADD args conn kv).map (withConn conn') := by
  unfold cmdSADD
  simp only [bind, Except.bind, done, withConn]
  repeat' split
  all_goals rfl

theorem cmdSMEMBERS_conn (env : Env) (args : List Bytes) (conn conn' : Connection)
    (kv : KVStore) :
    cmdSMEMBERS env args conn' kv = (cmdSMEMBERS env args conn kv).map (withConn conn') := by
  unfold cmdSMEMBERS
  simp only [bind, Except.bind, done, withConn]
  repeat' split
  all_goals rfl

theorem cmdXRANGE_conn (env : Env) (args : List Bytes) (conn conn' : Connection)
    (kv : KVStore) :
    cmdXRANGE env args conn' kv = (cmdXRANGE env args conn kv).map (withConn conn') := by
  unfold cmdXRANGE
  simp only [bind, Except.bind, done, withConn]
  repeat' split
  all_goals rfl

theorem cmdXREAD_conn (env : Env) (args : List Bytes) (conn conn' : Connection) (kv : KVStore) :
    cmdXREAD env args conn' kv = (cmdXREAD env args conn kv).map (withConn conn') := by
  unfold cmdXREAD
  simp only [bind, Except.bind, done, withConn]
  repeat' split
  all_goals rfl

theorem cmdINCR_conn (args : List Bytes) (conn conn' : Connection) (kv : KVStore) :
    cmdINCR args conn' kv = (cmdINCR args conn kv).map (withConn conn') := by
  unfold cmdINCR
  simp only [bind, Except.bind, done, withConn]
  repeat' split
  all_goals rfl
theorem dispatch_conn (env : Env) (cmd : Bytes) (args : List Bytes) (conn conn' : Connection)
    (kv : KVStore) (hm : cmd ≠ lit "MULTI") (hd : cmd ≠ lit "DISCARD")
    (h : conn.Conn = conn'.Conn) :
    dispatch env cmd args conn' kv = (dispatch env cmd args conn kv).map (withConn conn') := by
  unfold dispatch
  by_cases cPING : cmd = lit "PING"
  · simp only [if_pos cPING]
    rfl
  simp only [if_neg cPING]
  by_cases cECHO : cmd = lit "ECHO"
  · simp only [if_pos cECHO]
    exact cmdECHO_conn _ _ _ _
  simp only [if_neg cECHO]
  by_cases cSET : cmd = lit "SET"
  · simp only [if_pos cSET]
    exact cmdSET_conn _ _ _ _ _
  simp only [if_neg cSET]
  by_cases cGET : cmd = lit "GET"
  · simp only [if_pos cGET]
    exact cmdGET_conn _ _ _ _
  simp only [if_neg cGET]
  by_cases cDEL : cmd = lit "DEL"
  · simp only [if_pos cDEL]
    exact cmdDEL_conn _ _ _ _
  simp only [if_neg cDEL]
  by_cases cCONFIG : cmd = lit "CONFIG"
  · simp only [if_pos cCONFIG]
    exact cmdCONFIG_conn _ _ _ _
  simp only [if_neg cCONFIG]
  by_cases cKEYS : cmd = lit "KEYS"
  · simp only [if_pos cKEYS]
    exact cmdKEYS_conn _ _ _ _ _
  simp only [if_neg cKEYS]
  by_cases cINFO : cmd = lit "INFO"
  · simp only [if_pos cINFO]
    exact cmdINFO_conn _ _ _ _
  simp only [if_neg cINFO]
  by_cases cREPLCONF : cmd = lit "REPLCONF"
  · simp only [if_pos cREPLCONF]
    exact cmdREPLCONF_conn _ _ _ _ _
  simp only [if_neg cREPLCONF]
  by_cases cPSYNC : cmd = lit "PSYNC"
  · simp only [if_pos cPSYNC]
    exact cmdPSYNC_conn _ _ _ _ h
  simp only [if_neg cPSYNC]
  by_cases cWAIT : cmd = lit "WAIT"
  · simp only [if_pos cWAIT]
    exact cmdWAIT_conn _ _ _ _ _
  simp only [if_neg cWAIT]
  by_cases cTYPE : cmd = lit "TYPE"
  · simp only [if_pos cTYPE]
    exact cmdTYPE_conn _ _ _ _
  simp only [if_neg cTYPE]
  by_cases cXADD : cmd = lit "XADD"
  · simp only [if_pos cXADD]
    exact cmdXADD_conn _ _ _ _ _
  simp only [if_neg cXADD]
  by_cases cLPUSH : cmd = lit "LPUSH"
  · simp only [if_pos cLPUSH]
    exact cmdLPUSH_conn _ _ _ _
  simp only [if_neg cLPUSH]
  by_cases cLRANGE : cmd = lit "LRANGE"
  · simp only [if_pos cLRANGE]
    exact cmdLRANGE_conn _ _ _ _
  simp only [if_neg cLRANGE]
  by_cases cSADD : cmd = lit "SADD"
  · simp only [if_pos cSADD]
    exact cmdSADD_conn _ _ _ _
  simp only [if_neg cSADD]
  by_cases cSMEMBERS : cmd = lit "SMEMBERS"
  · simp only [if_pos cSMEMBERS]
    exact cmdSMEMBERS_conn _ _ _ _ _
  simp only [if_neg cSMEMBERS]
  by_cases cXRANGE : cmd = lit "XRANGE"
  · simp only [if_pos cXRANGE]
    exact cmdXRANGE_conn _ _ _ _ _
  simp only [if_neg cXRANGE]
  by_cases cXREAD : cmd = lit "XREAD"
  · simp only [if_pos cXREAD]
    exact cmdXREAD_conn _ _ _ _ _
  simp only [if_neg cXREAD]
  by_cases cINCR : cmd = lit "INCR"
  · simp only [if_pos cINCR]
    exact cmdINCR_conn _ _ _ _
  simp only [if_neg cINCR]
  simp only [if_neg hm, if_neg hd]
  rfl

theorem dispatch_MULTI (env : Env) (args : List Bytes) (conn : Connection) (kv : KVStore) :
    dispatch env (lit "MULTI") args conn kv =
      done (lit "+OK\r\n") args { conn with TxnStarted := true } kv := rfl

theorem dispatch_DISCARD (env : Env) (args : List Bytes) (conn : Connection) (kv : KVStore) :
    dispatch env (lit "DISCARD") args conn kv =
      if ¬ conn.TxnStarted then done (lit "-ERR DISCARD without MULTI\r\n") args conn kv
      else done (lit "+OK\r\n") args { conn with TxnStarted := false, TxnQueue := [] } kv := rfl

/-- A case other than `MULTI`, `DISCARD` and `EXEC` returns the connection as it got it. -/
theorem dispatch_conn_eq (env : Env) (cmd : Bytes) (args : List Bytes) (conn : Connection)
    (kv : KVStore) (hm : cmd ≠ lit "MULTI") (hd : cmd ≠ lit "DISCARD") (o : Outcome)
    (h : dispatch env cmd args conn kv = .ok o) : o.conn = conn := by
  have h2 := dispatch_conn env cmd args conn conn kv hm hd rfl
  rw [h] at h2
  simp only [Except.map, Except.ok.injEq] at h2
  rw [h2]
  rfl

/-- Two calls of a case other than `DISCARD` and `EXEC` on connections of the same socket
end alike: with the same fault, or with the same reply, store, arguments and writes. -/
theorem dispatch_same (env : Env) (cmd : Bytes) (args : List Bytes) (conn1 conn2 : Connection)
    (kv : KVStore) (hd : cmd ≠ lit "DISCARD") (h : conn1.Conn = conn2.Conn) :
    (∀ e, dispatch env cmd args conn1 kv = .error e → dispatch env cmd args conn2 kv = .error e) ∧
    (∀ o1, dispatch env cmd args conn1 kv = .ok o1 →
      ∃ o2, dispatch env cmd args conn2 kv = .ok o2 ∧ o2.reply = o1.reply ∧ o2.kv = o1.kv ∧
        o2.args = o1.args ∧ o2.sent = o1.sent ∧ o1.conn.Conn = conn1.Conn ∧
        o2.conn.Conn = conn2.Conn) := by
  by_cases hm : cmd = lit "MULTI"
  · subst hm
    constructor
    · intro e he
      rw [dispatch_MULTI] at he
      cases he
    · intro o1 ho1
      rw [dispatch_MULTI] at ho1
      simp only [done, Except.ok.injEq] at ho1
      subst ho1
      exact ⟨_, rfl, rfl, rfl, rfl, rfl, rfl, rfl⟩
  · have h2 := dispatch_conn env cmd args conn1 conn2 kv hm hd h
    constructor
    · intro e he
      rw [h2, he]
      rfl
    · intro o1 ho1
      have h3 := dispatch_conn_eq env cmd args conn1 kv hm hd o1 ho1
      rw [h2, ho1]
      exact ⟨_, rfl, rfl, rfl, rfl, rfl, by rw [h3], rfl⟩

/-! ## Transactions -/

theorem processCommand_queueable (fuel : Nat) (env : Env) (c : List Bytes) (conn : Connection)
    (kv : KVStore) (hc : queueable c) :
    ∃ a rest, c = a :: rest ∧ toUpper a ≠ lit "DISCARD" ∧
      processCommand fuel env c conn kv = dispatch env (toUpper a) c conn kv := by
  cases c with
  | nil => exact absurd hc (by simp [queueable])
  | cons a rest =>
    simp only [queueable] at hc
    exact ⟨a, rest, rfl, hc.2, processCommand_not_EXEC _ _ _ _ _ _ hc.1⟩

/-- The loop of `EXEC` and the evaluation of the same commands one after another on another
connection value of the same socket end alike. -/
theorem execLoop_same (fuel : Nat) (env : Env) (q : List (List Bytes))
    (hq : ∀ c ∈ q, queueable c) (conn1 conn2 : Connection) (h : conn1.Conn = conn2.Conn)
    (kv : KVStore) :
    (∀ e, execLoop (processCommand fuel env) q conn1 kv = .error e →
      runCommands fuel (q.map (fun c => (env, c))) conn2 kv = .error e) ∧
    (∀ rs c1 k1 snt, execLoop (processCommand fuel env) q conn1 kv = .ok (rs, c1, k1, snt) →
      c1.Conn = conn1.Conn ∧
      ∃ c2, runCommands fuel (q.map (fun c => (env, c))) conn2 kv = .ok (rs, c2, k1)) := by
  induction q generalizing conn1 conn2 kv with
  | nil =>
    constructor
    · intro e he
      simp [execLoop] at he
    · intro rs c1 k1 snt he
      simp only [execLoop, Except.ok.injEq, Prod.mk.injEq] at he
      obtain ⟨rfl, rfl, rfl, rfl⟩ := he
      exact ⟨rfl, conn2, rfl⟩
  | cons c q ih =>
    obtain ⟨a, rest, hc, hd, hp1⟩ :=
      processCommand_queueable fuel env c conn1 kv (hq c (List.mem_cons_self _ _))
    obtain ⟨a', rest', hc', -, hp2⟩ :=
      processCommand_queueable fuel env c conn2 kv (hq c (List.mem_cons_self _ _))
    have haa : a' = a := by rw [hc] at hc'; injection hc' with h1 h2; exact h1.symm
    subst haa
    have hsame := dispatch_same env (toUpper a') c conn1 conn2 kv hd h
    have hq' : ∀ c ∈ q, queueable c := fun x hx => hq x (List.mem_cons_of_mem _ hx)
    simp only [execLoop, List.map_cons, runCommands, bind, Except.bind, hp1, hp2]
    cases ho : dispatch env (toUpper a') c conn1 kv with
    | error e =>
      rw [hsame.1 e ho]
      exact ⟨fun e' he' => by simpa using he', fun rs c1 k1 snt he' => by cases he'⟩
    | ok o1 =>
      obtain ⟨o2, ho2, hr, hk, -, -, hc1, hc2⟩ := hsame.2 o1 ho
      rw [ho2]
      simp only
      have hcc : o1.conn.Conn = o2.conn.Conn := by rw [hc1, hc2, h]
      have ih' := ih hq' o1.conn o2.conn hcc o1.kv
      rw [hk]
      cases hl : execLoop (processCommand fuel env) q o1.conn o1.kv with
      | error e =>
        rw [ih'.1 e hl]
        exact ⟨fun e' he' => by simpa using he', fun rs c1 k1 snt he' => by cases he'⟩
      | ok r =>
        obtain ⟨rs, c1, k1, snt⟩ := r
        obtain ⟨hconn, c2, hrun⟩ := ih'.2 rs c1 k1 snt hl
        rw [hrun]
        constructor
        · intro e he'
          cases he'
        · intro rs' c1' k1' snt' he'
          simp only [pure, Except.pure, Except.ok.injEq, Prod.mk.injEq] at he'
          obtain ⟨rfl, rfl, rfl, rfl⟩ := he'
          exact ⟨by rw [hconn, hc1], c2, by simp [pure, Except.pure, hr]⟩

theorem processCommand_EXEC (fuel : Nat) (env : Env) (rest : List Bytes) (conn : Connection)
    (kv : KVStore) (hst : conn.TxnStarted = true) :
    processCommand (fuel + 1) env (lit "EXEC" :: rest) conn kv =
      match execLoop (processCommand fuel env) conn.TxnQueue conn kv with
      | .error e => .error e
      | .ok (replies, conn2, kv2, sent) =>
        .ok { reply := EncodeArray replies, kv := kv2,
              conn := { conn2 with TxnStarted := false, TxnQueue := [] },
              args := lit "EXEC" :: rest, sent := sent } := by
  have hu : toUpper (lit "EXEC") = lit "EXEC" := by decide
  simp only [processCommand, processWith, idx, List.getElem?_cons_zero, hu, if_true, hst,
    not_true_eq_false, if_false]

/-- C13. For a connection in a transaction whose queue holds commands that the connection
loop queues (non-empty, verb neither `EXEC` nor `DISCARD`), `EXEC` ends exactly as the
evaluation of the queued commands one after another, in queue order, on the same connection
outside a transaction: when that evaluation gives the replies `r1 .. rn` and the store
`kv'`, `EXEC` replies the array of `r1 .. rn`, leaves the store `kv'`, an empty queue and
`TxnStarted = false`; when it ends in a fault, so does `EXEC`. -/
theorem exec_spec (fuel : Nat) (env : Env) (rest : List Bytes) (conn : Connection)
    (kv : KVStore) (hst : conn.TxnStarted = true) (hq : ∀ c ∈ conn.TxnQueue, queueable c) :
    (∀ replies c' kv',
      runCommands fuel (conn.TxnQueue.map (fun c => (env, c)))
          { conn with TxnStarted := false, TxnQueue := [] } kv = .ok (replies, c', kv') →
      ∃ o, processCommand (fuel + 1) env (lit "EXEC" :: rest) conn kv = .ok o ∧
        o.reply = EncodeArray replies ∧ o.kv = kv' ∧
        o.conn = { conn with TxnStarted := false, TxnQueue := [] }) ∧
    (∀ e,
      runCommands fuel (conn.TxnQueue.map (fun c => (env, c)))
          { conn with TxnStarted := false, TxnQueue := [] } kv = .error e →
      processCommand (fuel + 1) env (lit "EXEC" :: rest) conn kv = .error e) := by
  have hs := execLoop_same fuel env conn.TxnQueue hq conn
    { conn with TxnStarted := false, TxnQueue := [] } rfl kv
  rw [processCommand_EXEC fuel env rest conn kv hst]
  cases hl : execLoop (processCommand fuel env) conn.TxnQueue conn kv with
  | error e =>
    have h1 := hs.1 e hl
    constructor
    · intro replies c' kv' hrun
      rw [h1] at hrun
      cases hrun
    · intro e' hrun
      rw [h1] at hrun
      cases hrun
      rfl
  | ok r =>
    obtain ⟨rs, c1, k1, snt⟩ := r
    obtain ⟨hconn, c2, hrun2⟩ := hs.2 rs c1 k1 snt hl
    constructor
    · intro replies c' kv' hrun
      rw [hrun2] at hrun
      simp only [Except.ok.injEq, Prod.mk.injEq] at hrun
      obtain ⟨rfl, -, rfl⟩ := hrun
      refine ⟨_, rfl, rfl, rfl, ?_⟩
      simp only
      rw [hconn]
    · intro e' hrun
      rw [hrun2] at hrun
      cases hrun

/-- C13 at `MULTI`, `SET x 1`, `INCR x`, `EXEC`, `GET x` on one connection: the reply to
`EXEC` is the array of `+SET DONE` and `:2`, and `GET x` then replies `$1\r\n2\r\n`. -/
theorem exec_spec_witness :
    (∃ s, handleAll 1
        (commandsAt 0 [[lit "MULTI"], [lit "SET", lit "x", lit "1"], [lit "INCR", lit "x"],
          [lit "EXEC"], [lit "GET", lit "x"]])
        (freshSession New 3) = .ok s ∧
      s.wire = [(3, lit "+OK\r\n"), (3, lit "+QUEUED\r\n"), (3, lit "+QUEUED\r\n"),
        (3, EncodeArray [lit "+SET DONE\r\n", lit ":2\r\n"]), (3, lit "$1\r\n2\r\n")]) ∧
    ∃ o, processCommand 1 (envAt 0) [lit "EXEC"]
        { Conn := 3, TxnStarted := true,
          TxnQueue := [[lit "SET", lit "x", lit "1"], [lit "INCR", lit "x"]] } New = .ok o ∧
      o.reply = EncodeArray [lit "+SET DONE\r\n", lit ":2\r\n"] ∧
      o.kv = { New with store := [(lit "x", lit "2")] } ∧
      o.conn = { Conn := 3, TxnStarted := false, TxnQueue := [] } :=
  ⟨⟨_, rfl, rfl⟩,
    (exec_spec 0 (envAt 0) []
      ⟨3, true, [[lit "SET", lit "x", lit "1"], [lit "INCR", lit "x"]]⟩ New rfl
      (by decide)).1 _ _ _ rfl⟩

/-- What `processCommand` does to the connection: `EXEC` and `DISCARD` either leave it
alone (outside a transaction) or close the transaction and empty the queue; `MULTI` opens a
transaction; every other verb leaves it alone. -/
theorem processCommand_conn (fuel : Nat) (env : Env) (a : Bytes) (rest : List Bytes)
    (conn : Connection) (kv : KVStore) (o : Outcome)
    (h : processCommand fuel env (a :: rest) conn kv = .ok o) :
    ((toUpper a = lit "EXEC" ∨ toUpper a = lit "DISCARD") →
      (conn.TxnStarted = false ∧ o.conn = conn) ∨
        (o.conn.TxnStarted = false ∧ o.conn.TxnQueue = [])) ∧
    (¬ (toUpper a = lit "EXEC" ∨ toUpper a = lit "DISCARD") →
      o.conn.TxnQueue = conn.TxnQueue ∧ (conn.TxnStarted = false → conn.TxnQueue = [] →
        o.conn.TxnQueue = [])) := by
  by_cases he : toUpper a = lit "EXEC"
  · refine ⟨fun _ => ?_, fun hn => absurd (Or.inl he) hn⟩
    cases hst : conn.TxnStarted with
    | false =>
      left
      refine ⟨rfl, ?_⟩
      cases fuel <;>
      · simp only [processCommand, processWith, idx, List.getElem?_cons_zero, he, if_true, hst,
          Bool.false_eq_true, not_false_eq_true, done, Except.ok.injEq] at h
        rw [← h]
    | true =>
      right
      cases fuel with
      | zero =>
        simp [processCommand, processWith, idx, he, hst] at h
      | succ f =>
        simp only [processCommand, processWith, idx, List.getElem?_cons_zero, he, if_true, hst,
          not_true_eq_false, if_false] at h
        split at h
        · cases h
        · simp only [Except.ok.injEq] at h
          rw [← h]
          exact ⟨rfl, rfl⟩
  · rw [processCommand_not_EXEC _ _ _ _ _ _ he] at h
    by_cases hd : toUpper a = lit "DISCARD"
    · refine ⟨fun _ => ?_, fun hn => absurd (Or.inr hd) hn⟩
      rw [hd, dispatch_DISCARD] at h
      cases hst : conn.TxnStarted with
      | false =>
        left
        simp only [hst, Bool.false_eq_true, not_false_eq_true, if_true, done,
          Except.ok.injEq] at h
        rw [← h]
        exact ⟨rfl, rfl⟩
      | true =>
        right
        simp only [hst, not_true_eq_false, if_false, done, Except.ok.injEq] at h
        rw [← h]
        exact ⟨rfl, rfl⟩
    · refine ⟨fun hor => absurd hor (by simp [he, hd]), fun _ => ?_⟩
      by_cases hm : toUpper a = lit "MULTI"
      · rw [hm, dispatch_MULTI] at h
        simp only [done, Except.ok.injEq] at h
        rw [← h]
        exact ⟨rfl, fun _ hq => hq⟩
      · have hc := dispatch_conn_eq env _ _ conn kv hm hd o h
        rw [hc]
        exact ⟨rfl, fun _ hq => hq⟩

/-- The invariant of a session: outside a transaction the queue is empty, and the queue
holds only commands that the loop queues. -/
theorem handleArgs_inv (fuel : Nat) (env : Env) (args : List Bytes) (s s1 : Session)
    (h : handleArgs fuel env args s = .ok s1)
    (hinv : (s.conn.TxnStarted = false → s.conn.TxnQueue = []) ∧
      ∀ q ∈ s.conn.TxnQueue, queueable q) :
    (s1.conn.TxnStarted = false → s1.conn.TxnQueue = []) ∧
      ∀ q ∈ s1.conn.TxnQueue, queueable q := by
  cases args with
  | nil => simp [handleArgs, idx, bind, Except.bind] at h
  | cons a rest =>
    simp only [handleArgs, idx, List.getElem?_cons_zero, bind, Except.bind] at h
    by_cases hq : s.conn.TxnStarted = true ∧
        ¬ (toUpper a = lit "EXEC" ∨ toUpper a = lit "DISCARD")
    · rw [if_pos hq] at h
      simp only [pure, Except.pure, Except.ok.injEq] at h
      subst h
      refine ⟨fun hf => ?_, fun q hqm => ?_⟩
      · simp only at hf
        rw [hq.1] at hf
        cases hf
      · simp only [List.mem_append, List.mem_singleton] at hqm
        rcases hqm with hqm | rfl
        · exact hinv.2 q hqm
        · simp only [queueable]
          exact ⟨fun h1 => hq.2 (Or.inl h1), fun h1 => hq.2 (Or.inr h1)⟩
    · rw [if_neg hq] at h
      cases ho : processCommand fuel env (a :: rest) s.conn s.kv with
      | error e => simp [ho] at h
      | ok o =>
        have hc := processCommand_conn fuel env a rest s.conn s.kv o ho
        have hgoal : (o.conn.TxnStarted = false → o.conn.TxnQueue = []) ∧
            ∀ q ∈ o.conn.TxnQueue, queueable q := by
          by_cases hed : toUpper a = lit "EXEC" ∨ toUpper a = lit "DISCARD"
          · rcases hc.1 hed with ⟨-, h2⟩ | ⟨-, h2⟩
            · rw [h2]
              exact hinv
            · rw [h2]
              exact ⟨fun _ => rfl, fun q hqm => by cases hqm⟩
          · have hst : s.conn.TxnStarted = false := by
              cases hs : s.conn.TxnStarted with
              | false => rfl
              | true => exact absurd ⟨hs, hed⟩ hq
            obtain ⟨-, h3⟩ := hc.2 hed
            have h4 := h3 hst (hinv.1 hst)
            rw [h4]
            exact ⟨fun _ => rfl, fun q hqm => by cases hqm⟩
        simp only [ho] at h
        by_cases hr : o.kv.Info.Role = lit "slave"
        · rw [if_pos hr] at h
          simp only [pure, Except.pure, Except.ok.injEq] at h
          subst h
          exact hgoal
        · rw [if_neg hr] at h
          simp only [pure, Except.pure, Except.ok.injEq] at h
          subst h
          exact hgoal

theorem handleAll_inv (fuel : Nat) (msgs : List (Env × Msg)) (s s1 : Session)
    (h : handleAll fuel msgs s = .ok s1)
    (hinv : (s.conn.TxnStarted = false → s.conn.TxnQueue = []) ∧
      ∀ q ∈ s.conn.TxnQueue, queueable q) :
    (s1.conn.TxnStarted = false → s1.conn.TxnQueue = []) ∧
      ∀ q ∈ s1.conn.TxnQueue, queueable q := by
  induction msgs generalizing s with
  | nil =>
    simp only [handleAll, Except.ok.injEq] at h
    subst h
    exact hinv
  | cons m msgs ih =>
    obtain ⟨env, msg⟩ := m
    simp only [handleAll, bind, Except.bind] at h
    cases hm : handleMsg fuel env msg s with
    | error e => simp [hm] at h
    | ok s2 =>
      simp only [hm] at h
      refine ih s2 h ?_
      unfold handleMsg at hm
      split at hm
      · exact handleArgs_inv fuel env _ s s2 hm hinv
      · simp only [Except.ok.injEq] at hm
        subst hm
        exact hinv

/-- C14. From a fresh session, after every sequence of incoming messages that the loop of
`HandleConnection` has handled, the queue is empty whenever `TxnStarted` is false, and the
queue holds only non-empty commands whose verb is neither `EXEC` nor `DISCARD`.  While
`TxnStarted` is true such a command is appended to the queue, `+QUEUED` is written and the
store is left alone; in every other case the queue after the turn is the queue before it
or the empty queue, so nothing is appended. -/
theorem txn_queue_invariant (fuel : Nat) (msgs : List (Env × Msg)) (kv : KVStore) (c : Nat)
    (s' : Session) (hrun : handleAll fuel msgs (freshSession kv c) = .ok s') :
    ((s'.conn.TxnStarted = false → s'.conn.TxnQueue = []) ∧
      ∀ q ∈ s'.conn.TxnQueue, queueable q) ∧
    (∀ env args s, s.conn.TxnStarted = true → queueable args →
      handleArgs fuel env args s =
        .ok { s with
          conn := { s.conn with TxnQueue := s.conn.TxnQueue ++ [args] }
          wire := s.wire ++ [(s.conn.Conn, lit "+QUEUED\r\n")] }) ∧
    (∀ env args s s1, ¬ (s.conn.TxnStarted = true ∧ queueable args) →
      handleArgs fuel env args s = .ok s1 →
      s1.conn.TxnQueue = s.conn.TxnQueue ∨ s1.conn.TxnQueue = []) := by
  refine ⟨handleAll_inv fuel msgs _ s' hrun ⟨fun _ => rfl, fun q hq => by cases hq⟩, ?_, ?_⟩
  · intro env args s hst hqa
    cases args with
    | nil => exact absurd hqa (by simp [queueable])
    | cons a rest =>
      simp only [queueable] at hqa
      have hq : s.conn.TxnStarted = true ∧
          ¬ (toUpper a = lit "EXEC" ∨ toUpper a = lit "DISCARD") :=
        ⟨hst, fun h => h.elim hqa.1 hqa.2⟩
      simp only [handleArgs, idx, List.getElem?_cons_zero, bind, Except.bind]
      rw [if_pos hq]
      rfl
  · intro env args s s1 hn h
    cases args with
    | nil => simp [handleArgs, idx, bind, Except.bind] at h
    | cons a rest =>
      simp only [handleArgs, idx, List.getElem?_cons_zero, bind, Except.bind] at h
      have hq : ¬ (s.conn.TxnStarted = true ∧
          ¬ (toUpper a = lit "EXEC" ∨ toUpper a = lit "DISCARD")) := by
        intro hq
        apply hn
        refine ⟨hq.1, ?_⟩
        simp only [queueable]
        exact ⟨fun h1 => hq.2 (Or.inl h1), fun h1 => hq.2 (Or.inr h1)⟩
      rw [if_neg hq] at h
      cases ho : processCommand fuel env (a :: rest) s.conn s.kv with
      | error e => simp [ho] at h
      | ok o =>
        have hc := processCommand_conn fuel env a rest s.conn s.kv o ho
        have hgoal : o.conn.TxnQueue = s.conn.TxnQueue ∨ o.conn.TxnQueue = [] := by
          by_cases hed : toUpper a = lit "EXEC" ∨ toUpper a = lit "DISCARD"
          · rcases hc.1 hed with ⟨-, h2⟩ | ⟨-, h2⟩
            · left
              rw [h2]
            · right
              exact h2
          · left
            exact (hc.2 hed).1
        simp only [ho] at h
        by_cases hr : o.kv.Info.Role = lit "slave"
        · rw [if_pos hr] at h
          simp only [pure, Except.pure, Except.ok.injEq] at h
          subst h
          exact hgoal
        · rw [if_neg hr] at h
          simp only [pure, Except.pure, Except.ok.injEq] at h
          subst h
          exact hgoal

/-- C14 on the run `MULTI`, `SET x 1`, `MULTI`, `DISCARD`, `GET x`, `MULTI`, `INCR x`. -/
theorem txn_queue_invariant_witness :
    ∃ s', handleAll 1
        (commandsAt 0 [[lit "MULTI"], [lit "SET", lit "x", lit "1"], [lit "MULTI"],
          [lit "DISCARD"], [lit "GET", lit "x"], [lit "MULTI"], [lit "INCR", lit "x"]])
        (freshSession New 3) = .ok s' ∧
      s'.conn = { Conn := 3, TxnStarted := true, TxnQueue := [[lit "INCR", lit "x"]] } ∧
      s'.wire = [(3, lit "+OK\r\n"), (3, lit "+QUEUED\r\n"), (3, lit "+QUEUED\r\n"),
        (3, lit "+OK\r\n"), (3, lit "$-1\r\n"), (3, lit "+OK\r\n"), (3, lit "+QUEUED\r\n")] ∧
      ((s'.conn.TxnStarted = false → s'.conn.TxnQueue = []) ∧
        ∀ q ∈ s'.conn.TxnQueue, queueable q) :=
  ⟨_, rfl, rfl, rfl,
    (txn_queue_invariant 1
      (commandsAt 0 [[lit "MULTI"], [lit "SET", lit "x", lit "1"], [lit "MULTI"],
        [lit "DISCARD"], [lit "GET", lit "x"], [lit "MULTI"], [lit "INCR", lit "x"]])
      New 3 _ rfl).1⟩

/-! ## `SADD` -/

theorem processCommand_SADD (fuel : Nat) (env : Env) (rest : List Bytes) (conn : Connection)
    (kv : KVStore) :
    processCommand fuel env (lit "SADD" :: rest) conn kv = cmdSADD (lit "SADD" :: rest) conn kv := by
  rw [processCommand_not_EXEC _ _ _ _ _ _ (by decide)]
  rfl

/-- The loop of `SADD` from a state in which the key holds the set `T` and `c` members have
been counted: afterwards the key holds `T` followed by the new members, and the count has
grown by the number of distinct arguments that are not in `T`. -/
theorem sadd_fold (k : Bytes) (ms : List Bytes) (sets : GoMap (List Bytes)) (T : List Bytes)
    (c : Int) (hT : mapGet sets k = some T) :
    ∃ T', (ms.foldl
        (fun (acc : GoMap (List Bytes) × Int) m =>
          if m ∈ sliceAt acc.1 k then acc
          else (mapSet acc.1 k (sliceAt acc.1 k ++ [m]), acc.2 + 1))
        (sets, c)).2 = c + ((ms.toFinset \ T.toFinset).card : Int) ∧
      mapGet (ms.foldl
        (fun (acc : GoMap (List Bytes) × Int) m =>
          if m ∈ sliceAt acc.1 k then acc
          else (mapSet acc.1 k (sliceAt acc.1 k ++ [m]), acc.2 + 1))
        (sets, c)).1 k = some T' ∧
      (∀ x, x ∈ T' ↔ x ∈ T ∨ x ∈ ms) ∧ (T.Nodup → T'.Nodup) ∧
      (∀ k', k' ≠ k → mapGet (ms.foldl
        (fun (acc : GoMap (List Bytes) × Int) m =>
          if m ∈ sliceAt acc.1 k then acc
          else (mapSet acc.1 k (sliceAt acc.1 k ++ [m]), acc.2 + 1))
        (sets, c)).1 k' = mapGet sets k') ∧
      ((∀ m ∈ ms, m ∈ T) → (ms.foldl
        (fun (acc : GoMap (List Bytes) × Int) m =>
          if m ∈ sliceAt acc.1 k then acc
          else (mapSet acc.1 k (sliceAt acc.1 k ++ [m]), acc.2 + 1))
        (sets, c)).1 = sets) := by
  induction ms generalizing sets T c with
  | nil =>
    refine ⟨T, by simp, hT, by simp, fun h => h, fun _ _ => rfl, fun _ => rfl⟩
  | cons m ms ih =>
    have hsl : sliceAt sets k = T := by simp [sliceAt, hT]
    simp only [List.foldl_cons, hsl]
    by_cases hm : m ∈ T
    · rw [if_pos hm]
      obtain ⟨T', h1, h2, h3, h4, h5, h6⟩ := ih sets T c hT
      refine ⟨T', ?_, h2, ?_, h4, h5, ?_⟩
      · rw [h1]
        congr 2
        rw [List.toFinset_cons, Finset.insert_sdiff_of_mem _ (List.mem_toFinset.mpr hm)]
      · intro x
        rw [h3 x]
        constructor
        · rintro (h | h)
          · exact Or.inl h
          · exact Or.inr (List.mem_cons_of_mem _ h)
        · rintro (h | h)
          · exact Or.inl h
          · rcases List.mem_cons.mp h with rfl | h
            · exact Or.inl hm
            · exact Or.inr h
      · intro hall
        exact h6 (fun x hx => hall x (List.mem_cons_of_mem _ hx))
    · rw [if_neg hm]
      obtain ⟨T', h1, h2, h3, h4, h5, -⟩ :=
        ih (mapSet sets k (T ++ [m])) (T ++ [m]) (c + 1) (mapGet_mapSet_same _ _ _)
      refine ⟨T', ?_, h2, ?_, ?_, ?_, ?_⟩
      · rw [h1]
        have hcard : ((m :: ms).toFinset \ T.toFinset).card =
            (ms.toFinset \ (T ++ [m]).toFinset).card + 1 := by
          have hnot : m ∉ T.toFinset := fun h => hm (List.mem_toFinset.mp h)
          rw [List.toFinset_cons, Finset.insert_sdiff_of_not_mem _ hnot]
          have heq : ms.toFinset \ (T ++ [m]).toFinset = (ms.toFinset \ T.toFinset).erase m := by
            ext x
            simp only [Finset.mem_sdiff, List.mem_toFinset, List.mem_append, List.mem_singleton,
              Finset.mem_erase]
            tauto
          rw [heq]
          by_cases hx : m ∈ ms.toFinset \ T.toFinset
          · rw [Finset.insert_eq_of_mem hx, Finset.card_erase_add_one hx]
          · rw [Finset.card_insert_of_not_mem hx, Finset.erase_eq_of_not_mem hx]
        rw [hcard]
        push_cast
        ring
      · intro x
        rw [h3 x]
        simp only [List.mem_append, List.mem_singleton, List.mem_cons]
        tauto
      · intro hnd
        apply h4
        rw [List.nodup_append]
        refine ⟨hnd, List.nodup_singleton _, ?_⟩
        intro x hx hx'
        simp only [List.mem_singleton] at hx'
        subst hx'
        exact hm hx
      · intro k' hk'
        rw [h5 k' hk', mapGet_mapSet_ne _ _ _ _ hk']
      · intro hall
        exact absurd (hall m (List.mem_cons_self _ _)) hm

theorem cmdSADD_run (conn : Connection) (kv : KVStore) (k : Bytes) (ms : List Bytes)
    (hlist : mapGet kv.lists k = none) :
    ∃ o, cmdSADD (lit "SADD" :: k :: ms) conn kv = .ok o ∧
      o.reply = EncodeInteger ((ms.toFinset \ (sliceAt kv.sets k).toFinset).card) ∧
      (∃ T', mapGet o.kv.sets k = some T' ∧ ∀ x, x ∈ T' ↔ x ∈ sliceAt kv.sets k ∨ x ∈ ms) ∧
      (∀ k', k' ≠ k → mapGet o.kv.sets k' = mapGet kv.sets k') ∧
      o.kv.store = kv.store ∧ o.kv.lists = kv.lists ∧ o.kv.Stream = kv.Stream ∧
      o.conn = conn ∧
      ((∃ T, mapGet kv.sets k = some T ∧ ∀ m ∈ ms, m ∈ T) → o.kv = kv) := by
  simp only [cmdSADD, idx, bind, Except.bind, List.getElem?_cons_succ, List.getElem?_cons_zero,
    hlist, Option.isSome_none, Bool.false_eq_true, if_false, List.drop_succ_cons, List.drop_zero,
    done]
  cases hs : mapGet kv.sets k with
  | none =>
    have hsl : sliceAt kv.sets k = [] := by simp [sliceAt, hs]
    obtain ⟨T', h1, h2, h3, -, h5, -⟩ :=
      sadd_fold k ms (mapSet kv.sets k []) [] 0 (mapGet_mapSet_same _ _ _)
    simp only [Option.isNone_none, if_true, hsl]
    refine ⟨_, rfl, ?_, ⟨T', h2, h3⟩, ?_, rfl, rfl, rfl, rfl, ?_⟩
    · simp only [h1, zero_add]
    · intro k' hk'
      simp only
      rw [h5 k' hk', mapGet_mapSet_ne _ _ _ _ hk']
    · rintro ⟨T, hT, -⟩
      cases hT
  | some T =>
    have hsl : sliceAt kv.sets k = T := by simp [sliceAt, hs]
    obtain ⟨T', h1, h2, h3, -, h5, h6⟩ := sadd_fold k ms kv.sets T 0 hs
    simp only [Option.isNone_some, Bool.false_eq_true, if_false, hsl]
    refine ⟨_, rfl, ?_, ⟨T', h2, h3⟩, ?_, rfl, rfl, rfl, rfl, ?_⟩
    · simp only [h1, zero_add]
    · intro k' hk'
      exact h5 k' hk'
    · rintro ⟨T2, hT2, hall⟩
      cases hT2
      simp only
      rw [h6 hall]

/-- C11. When `k` holds no list and the set at `k` is `S` (empty when `k` is absent),
`SADD k m1 .. mn` succeeds, replies the number of distinct values among `m1 .. mn` that are
not in `S`, and leaves at `k` the set whose members are those of `S` and `m1 .. mn`; no
other set and no other container changes.  The same `SADD` issued again replies `:0` and
leaves the whole store as it is. -/
theorem sadd_spec (fuel : Nat) (env : Env) (conn : Connection) (kv : KVStore) (k : Bytes)
    (ms : List Bytes) (hlist : mapGet kv.lists k = none) :
    ∃ o, processCommand fuel env (lit "SADD" :: k :: ms) conn kv = .ok o ∧
      o.reply = EncodeInteger ((ms.toFinset \ (sliceAt kv.sets k).toFinset).card) ∧
      (∀ x, x ∈ sliceAt o.kv.sets k ↔ x ∈ sliceAt kv.sets k ∨ x ∈ ms) ∧
      (∀ k', k' ≠ k → mapGet o.kv.sets k' = mapGet kv.sets k') ∧
      o.kv.store = kv.store ∧ o.kv.lists = kv.lists ∧ o.kv.Stream = kv.Stream ∧
      processCommand fuel env (lit "SADD" :: k :: ms) o.conn o.kv =
        done (lit ":0\r\n") (lit "SADD" :: k :: ms) o.conn o.kv := by
  obtain ⟨o, ho, hr, ⟨T', hT', hmem⟩, hother, hst, hli, hstr, hconn, -⟩ :=
    cmdSADD_run conn kv k ms hlist
  refine ⟨o, by rw [processCommand_SADD, ho], hr, ?_, hother, hst, hli, hstr, ?_⟩
  · intro x
    simp only [sliceAt, hT', Option.getD_some]
    exact hmem x
  · have hlist2 : mapGet o.kv.lists k = none := by rw [hli, hlist]
    obtain ⟨o2, ho2, hr2, -, -, -, -, -, hconn2, hsame⟩ := cmdSADD_run o.conn o.kv k ms hlist2
    have hkv : o2.kv = o.kv := hsame ⟨T', hT', fun m hm => (hmem m).mpr (Or.inr hm)⟩
    have hcard : (ms.toFinset \ (sliceAt o.kv.sets k).toFinset).card = 0 := by
      rw [Finset.card_eq_zero, Finset.sdiff_eq_empty_iff_subset]
      intro x hx
      simp only [sliceAt, hT', Option.getD_some, List.mem_toFinset] at hx ⊢
      exact (hmem x).mpr (Or.inr hx)
    rw [processCommand_SADD, ho2]
    have hargs : o2.args = lit "SADD" :: k :: ms ∧ o2.sent = [] := by
      have := ho2
      simp only [cmdSADD, idx, bind, Except.bind, List.getElem?_cons_succ,
        List.getElem?_cons_zero, hlist2, Option.isSome_none, Bool.false_eq_true, if_false,
        done, Except.ok.injEq] at this
      rw [← this]
      exact ⟨rfl, rfl⟩
    rw [hcard] at hr2
    cases o2
    simp only at hr2 hkv hconn2 hargs
    obtain ⟨ha, hs⟩ := hargs
    subst hr2 hkv hconn2 ha hs
    rfl

/-- C11 at `SADD k a b a` on the set `{a, c}`: two of the values are distinct, one of them
is new. -/
theorem sadd_spec_witness :
    mapGet ({ New with sets := [(lit "k", [lit "a", lit "c"])] } : KVStore).lists (lit "k") = none ∧
    ∃ o, processCommand 0 (envAt 0) [lit "SADD", lit "k", lit "a", lit "b", lit "a"]
        (freshConn 3) { New with sets := [(lit "k", [lit "a", lit "c"])] } = .ok o ∧
      o.reply = lit ":1\r\n" ∧
      sliceAt o.kv.sets (lit "k") = [lit "a", lit "c", lit "b"] ∧
      o.reply = EncodeInteger (([lit "a", lit "b", lit "a"].toFinset \
        (sliceAt ({ New with sets := [(lit "k", [lit "a", lit "c"])] } : KVStore).sets
          (lit "k")).toFinset).card) :=
  ⟨rfl,
    let ⟨o, h1, h2, _⟩ :=
      sadd_spec 0 (envAt 0) (freshConn 3) { New with sets := [(lit "k", [lit "a", lit "c"])] }
        (lit "k") [lit "a", lit "b", lit "a"] rfl
    ⟨o, h1, by
      have h3 : processCommand 0 (envAt 0) [lit "SADD", lit "k", lit "a", lit "b", lit "a"]
          (freshConn 3) { New with sets := [(lit "k", [lit "a", lit "c"])] } = .ok
          { reply := lit ":1\r\n",
            kv := { New with sets := [(lit "k", [lit "a", lit "c", lit "b"])] },
            conn := freshConn 3,
            args := [lit "SADD", lit "k", lit "a", lit "b", lit "a"], sent := [] } := rfl
      rw [h3] at h1
      cases h1
      exact ⟨rfl, rfl, h2⟩⟩⟩

/-! ## `DEL` -/

theorem processCommand_DEL (fuel : Nat) (env : Env) (rest : List Bytes) (conn : Connection)
    (kv : KVStore) :
    processCommand fuel env (lit "DEL" :: rest) conn kv = cmdDEL (lit "DEL" :: rest) conn kv := by
  rw [processCommand_not_EXEC _ _ _ _ _ _ (by decide)]
  rfl

theorem mapGet_mapDel {β : Type} (m : GoMap β) (k k' : Bytes) :
    mapGet (mapDel m k) k' = if k' = k then none else mapGet m k' := by
  induction m with
  | nil => simp [mapDel, mapGet]
  | cons p m ih =>
    obtain ⟨k₀, v₀⟩ := p
    unfold mapDel at ih ⊢
    by_cases h0 : k₀ = k
    · subst h0
      simp only [List.filter_cons, ne_eq, not_true_eq_false, decide_False, Bool.false_eq_true,
        if_false, ih, mapGet]
      by_cases h1 : k' = k₀
      · simp [h1]
      · simp [h1, Ne.symm h1]
    · simp only [List.filter_cons, ne_eq, h0, not_false_eq_true, decide_True, if_true, mapGet,
        ih]
      by_cases h1 : k₀ = k'
      · subst h1
        simp [h0]
      · simp [h1]

/-- C12 (amended). `DEL k` looks at the strings only.  When `k` holds no string it replies
`:0` and changes nothing, whatever the lists, sets and streams hold.  When `k` holds a string
and `expiryMap` records no channel for `k`, it replies `:1` and removes `k` from the strings.
When `k` holds a string and the goroutine of the channel that `expiryMap` records for `k` is
still waiting, it replies `:1`, removes `k` from the strings and ends that goroutine.  In
these cases no list, set or stream changes, and after the removal `k` holds no string while
every other key keeps its string. -/
theorem del_spec (fuel : Nat) (env : Env) (conn : Connection) (kv : KVStore) (k : Bytes) :
    (mapGet kv.store k = none →
      processCommand fuel env [lit "DEL", k] conn kv =
        done (lit ":0\r\n") [lit "DEL", k] conn kv) ∧
    (∀ v, mapGet kv.store k = some v → mapGet kv.expiryMap k = none →
      processCommand fuel env [lit "DEL", k] conn kv =
        done (lit ":1\r\n") [lit "DEL", k] conn { kv with store := mapDel kv.store k }) ∧
    (∀ v stop, mapGet kv.store k = some v → mapGet kv.expiryMap k = some stop →
      (∃ e ∈ kv.expirers, e.stop = stop) →
      processCommand fuel env [lit "DEL", k] conn kv =
        done (lit ":1\r\n") [lit "DEL", k] conn
          { kv with
            store := mapDel kv.store k
            expirers := kv.expirers.filter (fun e => e.stop ≠ stop) }) ∧
    (∀ k', mapGet (mapDel kv.store k) k' = if k' = k then none else mapGet kv.store k') := by
  refine ⟨?_, ?_, ?_, fun k' => mapGet_mapDel kv.store k k'⟩
  · intro h
    rw [processCommand_DEL]
    simp only [cmdDEL, idx, bind, Except.bind, List.getElem?_cons_succ, List.getElem?_cons_zero, h]
    rfl
  · intro v h he
    rw [processCommand_DEL]
    simp only [cmdDEL, idx, bind, Except.bind, List.getElem?_cons_succ, List.getElem?_cons_zero, h,
      he]
    rfl
  · intro v stop h he hex
    have hany : kv.expirers.any (fun e => decide (e.stop = stop)) = true := by
      rw [List.any_eq_true]
      obtain ⟨e, hmem, hst⟩ := hex
      exact ⟨e, hmem, by simp [hst]⟩
    rw [processCommand_DEL]
    simp only [cmdDEL, idx, bind, Except.bind, List.getElem?_cons_succ, List.getElem?_cons_zero, h,
      he, hany, if_true]
    rfl

/-- C12 (amended) at `DEL k` on a store in which `k` holds the string `v`. -/
theorem del_spec_witness :
    mapGet ({ New with store := [(lit "k", lit "v")] } : KVStore).store (lit "k") = some (lit "v") ∧
    mapGet ({ New with store := [(lit "k", lit "v")] } : KVStore).expiryMap (lit "k") = none ∧
    processCommand 0 (envAt 0) [lit "DEL", lit "k"] (freshConn 3)
        { New with store := [(lit "k", lit "v")] } =
      done (lit ":1\r\n") [lit "DEL", lit "k"] (freshConn 3)
        { New with store := mapDel [(lit "k", lit "v")] (lit "k") } :=
  ⟨rfl, rfl,
    (del_spec 0 (envAt 0) (freshConn 3) { New with store := [(lit "k", lit "v")] } (lit "k")).2.1
      (lit "v") rfl rfl⟩

/-! ## `XREAD` -/

theorem processCommand_XREAD (fuel : Nat) (env : Env) (rest : List Bytes) (conn : Connection)
    (kv : KVStore) :
    processCommand fuel env (lit "XREAD" :: rest) conn kv =
      cmdXREAD env (lit "XREAD" :: rest) conn kv := by
  rw [processCommand_not_EXEC _ _ _ _ _ _ (by decide)]
  rfl

theorem slice_two_to_end {α : Type} (a b : α) (l : List α) :
    slice (a :: b :: l) 2 ((a :: b :: l).length : Int) = .ok l := by
  unfold slice
  rw [if_pos ⟨by omega, by simp only [List.length_cons]; push_cast; omega, le_refl _⟩]
  congr 1
  have h : ((a :: b :: l).length : Int).toNat - (2 : Int).toNat = l.length := by
    simp only [List.length_cons, Int.toNat_ofNat]
    show l.length + 1 + 1 - 2 = l.length
    omega
  rw [h]
  simp

theorem idLt_iff (a b : Bytes) (t1 s1 t2 s2 : Int) (ha : idPair a = .ok (t1, s1))
    (hb : idPair b = .ok (t2, s2)) : idLt a b ↔ (t1 < t2 ∨ (t1 = t2 ∧ s1 < s2)) := by
  simp only [idLt, ha, hb]

theorem xreadAbove_eq (order : Nat → GoMap Bytes → GoMap Bytes) (id : Bytes) (thrT thrS : Int)
    (hid : idPair id = .ok (thrT, thrS)) (entries : List StreamEntry) (j : Nat)
    (hall : ∀ e ∈ entries, ∃ t s, idPair e.Id = .ok (t, s)) :
    xreadAbove order thrT thrS j entries =
      .ok (((entries.enumFrom j).filter (fun x => decide (idLt id x.2.Id))).map
        (fun x => encodeEntry { x.2 with Pair := order x.1 x.2.Pair })) := by
  induction entries generalizing j with
  | nil => rfl
  | cons e entries ih =>
    obtain ⟨t, s, hts⟩ := hall e (List.mem_cons_self _ _)
    have ih' := ih (j + 1) (fun x hx => hall x (List.mem_cons_of_mem _ hx))
    have hiff := idLt_iff id e.Id thrT thrS t s hid hts
    simp only [xreadAbove, bind, Except.bind, hts, ih', pure, Except.pure, List.enumFrom_cons,
      List.filter_cons]
    by_cases hlt : idLt id e.Id
    · have hc : t > thrT ∨ (t = thrT ∧ s > thrS) := by
        rcases hiff.mp hlt with h | ⟨h1, h2⟩
        · exact Or.inl h
        · exact Or.inr ⟨h1.symm, h2⟩
      simp only [hc, if_true, hlt, decide_True, List.map_cons]
    · have hc : ¬ (t > thrT ∨ (t = thrT ∧ s > thrS)) := by
        intro h
        apply hlt
        apply hiff.mpr
        rcases h with h | ⟨h1, h2⟩
        · exact Or.inl h
        · exact Or.inr ⟨h1.symm, h2⟩
      simp only [hc, if_false, hlt, decide_False, Bool.false_eq_true]

theorem xreadLoop_eq (env : Env) (kv : KVStore) (keys ids : List Bytes) (i : Nat)
    (hlen : keys.length = ids.length)
    (hids : ∀ p ∈ keys.zip ids,
      if p.2 = lit "$" then sliceAt kv.Stream p.1 ≠ [] else ∃ t s, idPair p.2 = .ok (t, s))
    (hall : ∀ key ∈ keys, ∀ e ∈ sliceAt kv.Stream key, ∃ t s, idPair e.Id = .ok (t, s)) :
    xreadLoop env kv i keys ids =
      .ok (((keys.zip ids).enumFrom i).map (fun q =>
        EncodeRawArray [EncodeBulkString q.2.1,
          EncodeRawArray ((xreadGroup kv q.2.1 q.2.2).map (entryFrame env q.1))])) := by
  induction keys generalizing ids i with
  | nil =>
    cases ids <;> rfl
  | cons key keys ih =>
    cases ids with
    | nil => simp at hlen
    | cons id ids =>
      have hlen' : keys.length = ids.length := by simpa using hlen
      have ih' := ih ids (i + 1) hlen'
        (fun p hp => hids p (by simp only [List.zip_cons_cons]; exact List.mem_cons_of_mem _ hp))
        (fun k hk => hall k (List.mem_cons_of_mem _ hk))
      have hhead := hids (key, id) (by simp)
      simp only [xreadLoop, bind, Except.bind, ih', List.zip_cons_cons, List.enumFrom_cons,
        List.map_cons, pure, Except.pure]
      by_cases hd : id = lit "$"
      · simp only [hd, if_true] at hhead ⊢
        cases hl : (sliceAt kv.Stream key).getLast? with
        | none =>
          rw [List.getLast?_eq_none_iff] at hl
          exact absurd hl hhead
        | some se =>
          simp only [xreadGroup, if_true, hl, Option.toList_some, List.map_cons, List.map_nil,
            entryFrame]
      · simp only [hd, if_false] at hhead ⊢
        obtain ⟨t, s, hts⟩ := hhead
        simp only [hts, xreadAbove_eq (env.fields i) id t s hts _ 0
          (hall key (List.mem_cons_self _ _)), xreadGroup, hd, if_false, List.enum, entryFrame]
        rfl

/-- On an entry with at most one field every order of the fields is the same, so its frame
does not depend on the scheduler. -/
theorem entryFrame_single (env : Env) (i : Nat) (x : Nat × StreamEntry)
    (hperm : (env.fields i x.1 x.2.Pair).Perm x.2.Pair) (hone : x.2.Pair.length ≤ 1) :
    entryFrame env i x = encodeEntry x.2 := by
  have h : env.fields i x.1 x.2.Pair = x.2.Pair := by
    match hp : x.2.Pair with
    | [] =>
      rw [hp] at hperm
      exact List.Perm.eq_nil hperm
    | [a] =>
      rw [hp] at hperm
      exact List.perm_singleton.mp hperm
    | a :: b :: l =>
      rw [hp] at hone
      simp at hone
  unfold entryFrame
  rw [h]

/-- C16 (amended). `XREAD STREAMS k1 .. kN id1 .. idN` without `BLOCK` pairs `k_i` with
`id_i` and replies, for each key in order, the key and the frames of the entries that
`xreadGroup` selects from its stream, in stream order: for an `id_i` with a `-` the entries
whose ID is strictly greater than `id_i`, and for an `id_i` of `$` on a stream that is not
empty the last entry of that stream.  The frame of an entry holds its ID and its fields, the
fields in the order in which the `range` over its map visits them in this call.  The IDs are
compared as the dispatcher reads them, and the hypotheses say that the IDs given and stored
have a `-`. -/
theorem xread_spec (fuel : Nat) (env : Env) (conn : Connection) (kv : KVStore)
    (keys ids : List Bytes) (hlen : keys.length = ids.length)
    (hids : ∀ p ∈ keys.zip ids,
      if p.2 = lit "$" then sliceAt kv.Stream p.1 ≠ [] else ∃ t s, idPair p.2 = .ok (t, s))
    (hall : ∀ key ∈ keys, ∀ e ∈ sliceAt kv.Stream key, ∃ t s, idPair e.Id = .ok (t, s)) :
    processCommand fuel env (lit "XREAD" :: lit "STREAMS" :: (keys ++ ids)) conn kv =
      done
        (EncodeRawArray ((keys.zip ids).enum.map (fun q =>
          EncodeRawArray [EncodeBulkString q.2.1,
            EncodeRawArray ((xreadGroup kv q.2.1 q.2.2).map (entryFrame env q.1))])))
        (lit "XREAD" :: lit "STREAMS" :: (keys ++ ids)) conn kv := by
  have hblock : toLower (lit "STREAMS") ≠ lit "block" := by decide
  have hslice : slice (lit "XREAD" :: lit "STREAMS" :: (keys ++ ids)) 2
      ((lit "XREAD" :: lit "STREAMS" :: (keys ++ ids)).length : Int) = .ok (keys ++ ids) :=
    slice_two_to_end _ _ _
  have hhalf : (keys ++ ids).length / 2 = keys.length := by
    rw [List.length_append, ← hlen]
    omega
  rw [processCommand_XREAD]
  simp only [cmdXREAD, idx, bind, Except.bind, List.getElem?_cons_succ, List.getElem?_cons_zero,
    hblock, pure, Except.pure, if_false, false_and, decide_False, Bool.false_eq_true]
  rw [hslice]
  simp only [hhalf, List.take_left', List.drop_left',
    xreadLoop_eq env kv keys ids 0 hlen hids hall, List.enum]

/-- C16 (amended) on a stream with the entries `1-1` (fields `b`, `a`) and `2-0`, read from
`1-0` in a call whose `range` visits the fields in reverse: both entries are returned, in
stream order, the first with `a` before `b`. -/
theorem xread_spec_witness :
    processCommand 0 { envAt 0 with fields := fun _ _ m => m.reverse }
        (lit "XREAD" :: lit "STREAMS" :: ([lit "s"] ++ [lit "1-0"])) (freshConn 3)
        { New with Stream := [(lit "s", [⟨lit "1-1", [(lit "b", lit "2"), (lit "a", lit "1")]⟩,
          ⟨lit "2-0", [(lit "g", lit "w")]⟩])] } =
      done
        (EncodeRawArray (([lit "s"].zip [lit "1-0"]).enum.map (fun q =>
          EncodeRawArray [EncodeBulkString q.2.1,
            EncodeRawArray ((xreadGroup { New with Stream := [(lit "s",
                [⟨lit "1-1", [(lit "b", lit "2"), (lit "a", lit "1")]⟩,
                  ⟨lit "2-0", [(lit "g", lit "w")]⟩])] } q.2.1 q.2.2).map
              (entryFrame { envAt 0 with fields := fun _ _ m => m.reverse } q.1))])))
        (lit "XREAD" :: lit "STREAMS" :: ([lit "s"] ++ [lit "1-0"])) (freshConn 3)
        { New with Stream := [(lit "s", [⟨lit "1-1", [(lit "b", lit "2"), (lit "a", lit "1")]⟩,
          ⟨lit "2-0", [(lit "g", lit "w")]⟩])] } ∧
    EncodeRawArray (([lit "s"].zip [lit "1-0"]).enum.map (fun q =>
        EncodeRawArray [EncodeBulkString q.2.1,
          EncodeRawArray ((xreadGroup { New with Stream := [(lit "s",
              [⟨lit "1-1", [(lit "b", lit "2"), (lit "a", lit "1")]⟩,
                ⟨lit "2-0", [(lit "g", lit "w")]⟩])] } q.2.1 q.2.2).map
            (entryFrame { envAt 0 with fields := fun _ _ m => m.reverse } q.1))])) =
      EncodeRawArray [EncodeRawArray [EncodeBulkString (lit "s"),
        EncodeRawArray
          [encodeEntry ⟨lit "1-1", [(lit "a", lit "1"), (lit "b", lit "2")]⟩,
           encodeEntry ⟨lit "2-0", [(lit "g", lit "w")]⟩]]] :=
  ⟨xread_spec 0 { envAt 0 with fields := fun _ _ m => m.reverse } (freshConn 3) _
      [lit "s"] [lit "1-0"] rfl
      (by
        intro p hp
        simp only [List.zip_cons_cons, List.zip_nil_right, List.mem_singleton] at hp
        subst hp
        exact ⟨1, 0, rfl⟩)
      (by
        intro key hkey e he
        simp only [List.mem_singleton] at hkey
        subst hkey
        have he2 : e = ⟨lit "1-1", [(lit "b", lit "2"), (lit "a", lit "1")]⟩ ∨
            e = ⟨lit "2-0", [(lit "g", lit "w")]⟩ := by
          simpa [sliceAt, mapGet, New] using he
        rcases he2 with h | h
        · subst h
          exact ⟨1, 1, rfl⟩
        · subst h
          exact ⟨2, 0, rfl⟩),
    rfl⟩

/-! ## Propagation of `SET` to the replicas -/

theorem ParseMessage_encode_rest (A : List Bytes) (hlen : (A.length : Int) ≤ maxInt64)
    (hA : ∀ s ∈ A, (s.length : Int) ≤ maxInt64) (rest : Bytes) :
    ParseMessage (EncodeArray A ++ rest) = .ok (Msg.array A, rest) := by
  have hd := natToDec_isDigit A.length
  obtain ⟨c, cs, hcs⟩ := List.exists_cons_of_ne_nil (natToDec_ne_nil A.length)
  have hstar : trimPrefixStar (natToDec A.length) = natToDec A.length := by
    have hc := (not_crlf_of_isDigit c (hd c (by rw [hcs]; exact List.mem_cons_self _ _))).2.2.2.2
    rw [hcs]
    unfold trimPrefixStar
    split
    · rename_i heq
      injection heq with h1 h2
      exact absurd h1 hc
    · rfl
  have h1 : EncodeArray A ++ rest =
      '*' :: (natToDec A.length ++ '\r' :: '\n' :: ((A.map EncodeBulkString).flatten ++ rest)) := by
    simp [EncodeArray, itoa_natCast]
  have hneg : ¬ ((A.length : Int) < 0) := by omega
  rw [h1]
  simp only [ParseMessage, if_true, ParseArray]
  rw [readLine_dec]
  simp only [hstar]
  rw [← itoa_natCast, atoi_itoa_nat _ hlen]
  simp only [hneg, if_false, Int.toNat_ofNat]
  rw [parseArrayLoop_encode A hA]

theorem decodeAll_frames (As : List (List Bytes))
    (hAs : ∀ A ∈ As, (A.length : Int) ≤ maxInt64 ∧ ∀ s ∈ A, (s.length : Int) ≤ maxInt64) :
    decodeAll (As.length + 1) ((As.map EncodeArray).flatten) = .ok (As.map Msg.array) := by
  induction As with
  | nil => rfl
  | cons A As ih =>
    have hA := hAs A (List.mem_cons_self _ _)
    have ih' := ih (fun x hx => hAs x (List.mem_cons_of_mem _ hx))
    simp only [List.map_cons, List.flatten_cons, List.length_cons]
    rw [decodeAll, ParseMessage_encode_rest A hA.1 hA.2]
    simp only [ih']

theorem KVStore.Set_Info (kv : KVStore) (now : Int) (k v : Bytes) (ex : Int) :
    (kv.Set now k v ex).Info = kv.Info := by
  unfold KVStore.Set
  split <;> rfl

theorem KVStore.Set_store (kv : KVStore) (now : Int) (k v : Bytes) (ex : Int) :
    (kv.Set now k v ex).store = mapSet kv.store k v := by
  unfold KVStore.Set
  split <;> rfl

theorem cmdSET_ok (env : Env) (a0 k v : Bytes) (more : List Bytes) (conn : Connection)
    (kv : KVStore) :
    ∃ ex, cmdSET env (a0 :: k :: v :: more) conn kv =
      done (lit "+SET DONE\r\n") (a0 :: k :: v :: more) conn (kv.Set env.now k v ex) := by
  match more with
  | [] => exact ⟨-1, by simp [cmdSET, idx, bind, Except.bind, pure, Except.pure]⟩
  | [x] => exact ⟨-1, by simp [cmdSET, idx, bind, Except.bind, pure, Except.pure]⟩
  | x :: y :: rest =>
    cases hy : atoi y with
    | mk n e =>
      cases e with
      | none => exact ⟨n, by simp [cmdSET, idx, bind, Except.bind, pure, Except.pure, hy]⟩
      | some e => exact ⟨-1, by simp [cmdSET, idx, bind, Except.bind, pure, Except.pure, hy]⟩

/-- One turn of the loop on a primary, outside a transaction, for a `SET`. -/
theorem handleArgs_SET (fuel : Nat) (env : Env) (a0 k v : Bytes) (more : List Bytes)
    (s : Session) (hverb : toUpper a0 = lit "SET") (htxn : s.conn.TxnStarted = false)
    (hrole : s.kv.Info.Role ≠ lit "slave") :
    ∃ s1, handleArgs fuel env (a0 :: k :: v :: more) s = .ok s1 ∧
      s1.wire = s.wire ++ (s.conn.Conn, lit "+SET DONE\r\n") ::
        s.kv.Info.slaves.map (fun slave => (slave, EncodeArray (a0 :: k :: v :: more))) ∧
      s1.kv.Info = s.kv.Info ∧ s1.conn = s.conn ∧ s1.kv.store = mapSet s.kv.store k v := by
  obtain ⟨ex, hex⟩ := cmdSET_ok env a0 k v more s.conn s.kv
  have hne : toUpper a0 ≠ lit "EXEC" := by rw [hverb]; decide
  have hp : processCommand fuel env (a0 :: k :: v :: more) s.conn s.kv =
      done (lit "+SET DONE\r\n") (a0 :: k :: v :: more) s.conn (s.kv.Set env.now k v ex) := by
    rw [processCommand_not_EXEC _ _ _ _ _ _ hne, hverb, ← hex]
    rfl
  have hrole' : ¬ (s.kv.Set env.now k v ex).Info.Role = lit "slave" := by
    rw [KVStore.Set_Info]; exact hrole
  have h : handleArgs fuel env (a0 :: k :: v :: more) s = .ok
      { kv := s.kv.Set env.now k v ex
        conn := s.conn
        wire := s.wire ++ [] ++ [(s.conn.Conn, lit "+SET DONE\r\n")] ++
          (s.kv.Set env.now k v ex).Info.slaves.map
            (fun slave => (slave, EncodeArray (a0 :: k :: v :: more))) } := by
    simp only [handleArgs, idx, List.getElem?_cons_zero, bind, Except.bind, htxn,
      Bool.false_eq_true, false_and, if_false, hp, done, hrole', hverb, if_true, pure,
      Except.pure]
  refine ⟨_, h, ?_, ?_, rfl, ?_⟩
  · simp only [KVStore.Set_Info, List.append_nil, List.append_assoc, List.singleton_append]
  · exact KVStore.Set_Info _ _ _ _ _
  · exact KVStore.Set_store _ _ _ _ _

/-- One turn of the loop on a replica, outside a transaction, for a `SET`: the store is
written and nothing is sent. -/
theorem handleArgs_SET_replica (fuel : Nat) (env : Env) (a0 k v : Bytes) (more : List Bytes)
    (s : Session) (hverb : toUpper a0 = lit "SET") (htxn : s.conn.TxnStarted = false)
    (hrole : s.kv.Info.Role = lit "slave") :
    ∃ s1, handleArgs fuel env (a0 :: k :: v :: more) s = .ok s1 ∧
      s1.wire = s.wire ∧ s1.kv.Info.Role = lit "slave" ∧ s1.conn = s.conn ∧
      s1.kv.store = mapSet s.kv.store k v := by
  obtain ⟨ex, hex⟩ := cmdSET_ok env a0 k v more s.conn s.kv
  have hne : toUpper a0 ≠ lit "EXEC" := by rw [hverb]; decide
  have hp : processCommand fuel env (a0 :: k :: v :: more) s.conn s.kv =
      done (lit "+SET DONE\r\n") (a0 :: k :: v :: more) s.conn (s.kv.Set env.now k v ex) := by
    rw [processCommand_not_EXEC _ _ _ _ _ _ hne, hverb, ← hex]
    rfl
  have hrole' : (s.kv.Set env.now k v ex).Info.Role = lit "slave" := by
    rw [KVStore.Set_Info]; exact hrole
  have hrc : ¬ (lit "SET" = lit "REPLCONF") := by decide
  have h : handleArgs fuel env (a0 :: k :: v :: more) s = .ok
      { kv := { s.kv.Set env.now k v ex with
          Info := { (s.kv.Set env.now k v ex).Info with
            MasterReplOffSet :=
              wrap64 ((s.kv.Set env.now k v ex).Info.MasterReplOffSet +
                (EncodeArray (a0 :: k :: v :: more)).length) } }
        conn := s.conn
        wire := s.wire ++ [] ++ [] } := by
    simp only [handleArgs, idx, List.getElem?_cons_zero, bind, Except.bind, htxn,
      Bool.false_eq_true, false_and, if_false, hp, done, hrole', hverb, if_true, pure,
      Except.pure, hrc, and_false]
  refine ⟨_, h, ?_, hrole', rfl, ?_⟩
  · simp only [List.append_nil]
  · exact KVStore.Set_store _ _ _ _ _

theorem handleAll_sets_primary (fuel : Nat) (now : Int) (sets : List (Bytes × Bytes))
    (s : Session) (htxn : s.conn.TxnStarted = false) (hrole : s.kv.Info.Role ≠ lit "slave") :
    ∃ s1, handleAll fuel (commandsAt now (sets.map (fun p => [lit "SET", p.1, p.2]))) s =
        .ok s1 ∧
      s1.wire = s.wire ++ sets.flatMap (fun p => (s.conn.Conn, lit "+SET DONE\r\n") ::
        s.kv.Info.slaves.map (fun slave => (slave, EncodeArray [lit "SET", p.1, p.2]))) ∧
      s1.kv.store = sets.foldl (fun m p => mapSet m p.1 p.2) s.kv.store := by
  induction sets generalizing s with
  | nil => exact ⟨s, rfl, by simp, rfl⟩
  | cons p sets ih =>
    obtain ⟨s1, h1, hw1, hi1, hc1, hs1⟩ :=
      handleArgs_SET fuel (envAt now) (lit "SET") p.1 p.2 [] s (by decide) htxn hrole
    obtain ⟨s2, h2, hw2, hs2⟩ := ih s1 (by rw [hc1]; exact htxn) (by rw [hi1]; exact hrole)
    refine ⟨s2, ?_, ?_, ?_⟩
    · simp only [commandsAt, List.map_cons, handleAll, handleMsg, bind, Except.bind, h1]
      exact h2
    · rw [hw2, hw1, hc1, hi1]
      simp only [List.flatMap_cons, List.append_assoc, List.cons_append]
    · rw [hs2, hs1]
      rfl

theorem handleAll_sets_replica (fuel : Nat) (now : Int) (sets : List (Bytes × Bytes))
    (s : Session) (htxn : s.conn.TxnStarted = false) (hrole : s.kv.Info.Role = lit "slave") :
    ∃ s1, handleAll fuel
        ((sets.map (fun p => Msg.array [lit "SET", p.1, p.2])).map (fun x => (envAt now, x))) s =
        .ok s1 ∧
      s1.wire = s.wire ∧
      s1.kv.store = sets.foldl (fun m p => mapSet m p.1 p.2) s.kv.store := by
  induction sets generalizing s with
  | nil => exact ⟨s, rfl, rfl, rfl⟩
  | cons p sets ih =>
    obtain ⟨s1, h1, hw1, hi1, hc1, hs1⟩ :=
      handleArgs_SET_replica fuel (envAt now) (lit "SET") p.1 p.2 [] s (by decide) htxn hrole
    obtain ⟨s2, h2, hw2, hs2⟩ := ih s1 (by rw [hc1]; exact htxn) hi1
    refine ⟨s2, ?_, ?_, ?_⟩
    · simp only [List.map_cons, handleAll, handleMsg, bind, Except.bind, h1]
      exact h2
    · rw [hw2, hw1]
    · rw [hs2, hs1]
      rfl

/-- Two stores that take the same writes agree on every key written. -/
theorem mapGet_foldl_mapSet (sets : List (Bytes × Bytes)) (m1 m2 : GoMap Bytes) (k : Bytes)
    (h : mapGet m1 k = mapGet m2 k ∨ k ∈ sets.map Prod.fst) :
    mapGet (sets.foldl (fun m p => mapSet m p.1 p.2) m1) k =
      mapGet (sets.foldl (fun m p => mapSet m p.1 p.2) m2) k := by
  induction sets generalizing m1 m2 with
  | nil =>
    rcases h with h | h
    · exact h
    · simp at h
  | cons p sets ih =>
    simp only [List.foldl_cons]
    apply ih
    by_cases hk : k = p.1
    · left
      rw [hk, mapGet_mapSet_same, mapGet_mapSet_same]
    · rcases h with h | h
      · left
        rw [mapGet_mapSet_ne _ _ _ _ hk, mapGet_mapSet_ne _ _ _ _ hk]
        exact h
      · right
        simp only [List.map_cons, List.mem_cons] at h
        rcases h with h | h
        · exact absurd h hk
        · exact h

theorem filter_slaves_not_mem (r : Nat) (x : Bytes) (l : List Nat) (h : r ∉ l) :
    (l.map (fun slave => (slave, x))).filter (fun w => decide (w.1 = r)) = [] := by
  induction l with
  | nil => rfl
  | cons a l ih =>
    have ha : a ≠ r := fun e => h (by rw [e]; exact List.mem_cons_self _ _)
    have hl : r ∉ l := fun e => h (List.mem_cons_of_mem _ e)
    simp only [List.map_cons, List.filter_cons, ha, decide_False, Bool.false_eq_true, if_false,
      ih hl]

theorem received_append (a b : List (Nat × Bytes)) (c : Nat) :
    received (a ++ b) c = received a c ++ received b c := by
  simp only [received, List.filter_append, List.map_append, List.flatten_append]

/-- The bytes that one replica reads from a primary that has served a sequence of `SET`. -/
theorem received_sets (client r : Nat) (pre post : List Nat) (hpre : r ∉ pre)
    (hpost : r ∉ post) (hcr : client ≠ r) (sets : List (Bytes × Bytes)) :
    received (sets.flatMap (fun p => (client, lit "+SET DONE\r\n") ::
        (pre ++ r :: post).map (fun slave => (slave, EncodeArray [lit "SET", p.1, p.2])))) r =
      ((sets.map (fun p => [lit "SET", p.1, p.2])).map EncodeArray).flatten := by
  induction sets with
  | nil => rfl
  | cons p sets ih =>
    have h1 : received ((client, lit "+SET DONE\r\n") ::
        (pre ++ r :: post).map (fun slave => (slave, EncodeArray [lit "SET", p.1, p.2]))) r =
        EncodeArray [lit "SET", p.1, p.2] := by
      simp only [received, List.filter_cons, hcr, decide_False, Bool.false_eq_true,
        if_false, List.map_append, List.filter_append, filter_slaves_not_mem r _ pre hpre,
        List.map_cons, decide_True, if_true, filter_slaves_not_mem r _ post hpost,
        List.nil_append, List.map_nil, List.flatten_cons, List.flatten_nil, List.append_nil]
    rw [List.flatMap_cons, received_append, ih, h1]
    rfl

/-! ## A case analysis of the dispatcher -/

/-- A property of the result of every case of the switch is a property of the result of
the dispatcher. -/
theorem dispatch_cases (P : Except Fault Outcome → Prop) (env : Env) (cmd : Bytes)
    (args : List Bytes) (conn : Connection) (kv : KVStore)
    (hPING : cmd = lit "PING" →
      P (done (lit "+Ping-a-Ding-Dong\r\n") args conn kv))
    (hECHO : cmd = lit "ECHO" →
      P (cmdECHO args conn kv))
    (hSET : cmd = lit "SET" →
      P (cmdSET env args conn kv))
    (hGET : cmd = lit "GET" →
      P (cmdGET args conn kv))
    (hDEL : cmd = lit "DEL" →
      P (cmdDEL args conn kv))
    (hCONFIG : cmd = lit "CONFIG" →
      P (cmdCONFIG args conn kv))
    (hKEYS : cmd = lit "KEYS" →
      P (cmdKEYS env args conn kv))
    (hINFO : cmd = lit "INFO" →
      P (cmdINFO args conn kv))
    (hREPLCONF : cmd = lit "REPLCONF" →
      P (cmdREPLCONF env args conn kv))
    (hPSYNC : cmd = lit "PSYNC" →
      P (cmdPSYNC args conn kv))
    (hWAIT : cmd = lit "WAIT" →
      P (cmdWAIT env args conn kv))
    (hTYPE : cmd = lit "TYPE" →
      P (cmdTYPE args conn kv))
    (hXADD : cmd = lit "XADD" →
      P (cmdXADD env args conn kv))
    (hLPUSH : cmd = lit "LPUSH" →
      P (cmdLPUSH args conn kv))
    (hLRANGE : cmd = lit "LRANGE" →
      P (cmdLRANGE args conn kv))
    (hSADD : cmd = lit "SADD" →
      P (cmdSADD args conn kv))
    (hSMEMBERS : cmd = lit "SMEMBERS" →
      P (cmdSMEMBERS env args conn kv))
    (hXRANGE : cmd = lit "XRANGE" →
      P (cmdXRANGE env args conn kv))
    (hXREAD : cmd = lit "XREAD" →
      P (cmdXREAD env args conn kv))
    (hINCR : cmd = lit "INCR" →
      P (cmdINCR args conn kv))
    (hMULTI : cmd = lit "MULTI" →
      P (done (lit "+OK\r\n") args { conn with TxnStarted := true } kv))
    (hDISCARD : cmd = lit "DISCARD" →
      P (if ¬ conn.TxnStarted then done (lit "-ERR DISCARD without MULTI\r\n") args conn kv
        else done (lit "+OK\r\n") args { conn with TxnStarted := false, TxnQueue := [] } kv))
    (hdefault : P (done (lit "-ERR unknown command\r\n") args conn kv)) :
    P (dispatch env cmd args conn kv) := by
  unfold dispatch
  by_cases cPING : cmd = lit "PING"
  · rw [if_pos cPING]
    exact hPING cPING
  rw [if_neg cPING]
  by_cases cECHO : cmd = lit "ECHO"
  · rw [if_pos cECHO]
    exact hECHO cECHO
  rw [if_neg cECHO]
  by_cases cSET : cmd = lit "SET"
  · rw [if_pos cSET]
    exact hSET cSET
  rw [if_neg cSET]
  by_cases cGET : cmd = lit "GET"
  · rw [if_pos cGET]
    exact hGET cGET
  rw [if_neg cGET]
  by_cases cDEL : cmd = lit "DEL"
  · rw [if_pos cDEL]
    exact hDEL cDEL
  rw [if_neg cDEL]
  by_cases cCONFIG : cmd = lit "CONFIG"
  · rw [if_pos cCONFIG]
    exact hCONFIG cCONFIG
  rw [if_neg cCONFIG]
  by_cases cKEYS : cmd = lit "KEYS"
  · rw [if_pos cKEYS]
    exact hKEYS cKEYS
  rw [if_neg cKEYS]
  by_cases cINFO : cmd = lit "INFO"
  · rw [if_pos cINFO]
    exact hINFO cINFO
  rw [if_neg cINFO]
  by_cases cREPLCONF : cmd = lit "REPLCONF"
  · rw [if_pos cREPLCONF]
    exact hREPLCONF cREPLCONF
  rw [if_neg cREPLCONF]
  by_cases cPSYNC : cmd = lit "PSYNC"
  · rw [if_pos cPSYNC]
    exact hPSYNC cPSYNC
  rw [if_neg cPSYNC]
  by_cases cWAIT : cmd = lit "WAIT"
  · rw [if_pos cWAIT]
    exact hWAIT cWAIT
  rw [if_neg cWAIT]
  by_cases cTYPE : cmd = lit "TYPE"
  · rw [if_pos cTYPE]
    exact hTYPE cTYPE
  rw [if_neg cTYPE]
  by_cases cXADD : cmd = lit "XADD"
  · rw [if_pos cXADD]
    exact hXADD cXADD
  rw [if_neg cXADD]
  by_cases cLPUSH : cmd = lit "LPUSH"
  · rw [if_pos cLPUSH]
    exact hLPUSH cLPUSH
  rw [if_neg cLPUSH]
  by_cases cLRANGE : cmd = lit "LRANGE"
  · rw [if_pos cLRANGE]
    exact hLRANGE cLRANGE
  rw [if_neg cLRANGE]
  by_cases cSADD : cmd = lit "SADD"
  · rw [if_pos cSADD]
    exact hSADD cSADD
  rw [if_neg cSADD]
  by_cases cSMEMBERS : cmd = lit "SMEMBERS"
  · rw [if_pos cSMEMBERS]
    exact hSMEMBERS cSMEMBERS
  rw [if_neg cSMEMBERS]
  by_cases cXRANGE : cmd = lit "XRANGE"
  · rw [if_pos cXRANGE]
    exact hXRANGE cXRANGE
  rw [if_neg cXRANGE]
  by_cases cXREAD : cmd = lit "XREAD"
  · rw [if_pos cXREAD]
    exact hXREAD cXREAD
  rw [if_neg cXREAD]
  by_cases cINCR : cmd = lit "INCR"
  · rw [if_pos cINCR]
    exact hINCR cINCR
  rw [if_neg cINCR]
  by_cases cMULTI : cmd = lit "MULTI"
  · rw [if_pos cMULTI]
    exact hMULTI cMULTI
  rw [if_neg cMULTI]
  by_cases cDISCARD : cmd = lit "DISCARD"
  · rw [if_pos cDISCARD]
    exact hDISCARD cDISCARD
  rw [if_neg cDISCARD]
  exact hdefault
/-- What no case of the switch touches: the role, the replication offset and the master
connection; and only `XADD` assigns to its argument vector. -/
theorem dispatch_frame (env : Env) (cmd : Bytes) (args : List Bytes) (conn : Connection)
    (kv : KVStore) (o : Outcome) (h : dispatch env cmd args conn kv = .ok o) :
    o.kv.Info.Role = kv.Info.Role ∧ o.kv.Info.MasterReplOffSet = kv.Info.MasterReplOffSet ∧
      o.kv.Info.MasterConn = kv.Info.MasterConn ∧ (cmd ≠ lit "XADD" → o.args = args) := by
  revert o
  refine dispatch_cases (fun r => ∀ o, r = .ok o →
    o.kv.Info.Role = kv.Info.Role ∧ o.kv.Info.MasterReplOffSet = kv.Info.MasterReplOffSet ∧
      o.kv.Info.MasterConn = kv.Info.MasterConn ∧ (cmd ≠ lit "XADD" → o.args = args))
    env cmd args conn kv ?_ ?_ ?_ ?_ ?_ ?_ ?_ ?_ ?_ ?_ ?_ ?_ ?_ ?_ ?_ ?_ ?_ ?_ ?_ ?_ ?_ ?_ ?_
  · intro c
    beta_reduce
    simp only [bind, Except.bind, done, pure, Except.pure]
    all_goals
      intro o h
      cases h
    all_goals exact ⟨rfl, rfl, rfl, fun _ => rfl⟩
  · intro c
    beta_reduce
    unfold cmdECHO
    simp only [bind, Except.bind, done, pure, Except.pure]
    repeat' split
    all_goals
      intro o h
      cases h
    all_goals exact ⟨rfl, rfl, rfl, fun _ => rfl⟩
  · intro c
    beta_reduce
    unfold cmdSET
    simp only [bind, Except.bind, done, pure, Except.pure]
    repeat' split
    all_goals
      intro o h
      cases h
    all_goals exact ⟨by rw [KVStore.Set_Info], by rw [KVStore.Set_Info], by rw [KVStore.Set_Info], fun _ => rfl⟩
  · intro c
    beta_reduce
    unfold cmdGET
    simp only [bind, Except.bind, done, pure, Except.pure]
    repeat' split
    all_goals
      intro o h
      cases h
    all_goals exact ⟨rfl, rfl, rfl, fun _ => rfl⟩
  · intro c
    beta_reduce
    unfold cmdDEL
    simp only [bind, Except.bind, done, pure, Except.pure]
    repeat' split
    all_goals
      intro o h
      cases h
    all_goals exact ⟨rfl, rfl, rfl, fun _ => rfl⟩
  · intro c
    beta_reduce
    unfold cmdCONFIG
    simp only [bind, Except.bind, done, pure, Except.pure]
    repeat' split
    all_goals
      intro o h
      cases h
    all_goals exact ⟨rfl, rfl, rfl, fun _ => rfl⟩
  · intro c
    beta_reduce
    unfold cmdKEYS
    simp only [bind, Except.bind, done, pure, Except.pure]
    all_goals
      intro o h
      cases h
    all_goals exact ⟨rfl, rfl, rfl, fun _ => rfl⟩
  · intro c
    beta_reduce
    unfold cmdINFO
    simp only [bind, Except.bind, done, pure, Except.pure]
    all_goals
      intro o h
      cases h
    all_goals exact ⟨rfl, rfl, rfl, fun _ => rfl⟩
  · intro c
    beta_reduce
    unfold cmdREPLCONF
    simp only [bind, Except.bind, done, pure, Except.pure]
    repeat' split
    all_goals
      intro o h
      cases h
    all_goals exact ⟨rfl, rfl, rfl, fun _ => rfl⟩
  · intro c
    beta_reduce
    unfold cmdPSYNC
    simp only [bind, Except.bind, done, pure, Except.pure]
    all_goals
      intro o h
      cases h
    all_goals exact ⟨rfl, rfl, rfl, fun _ => rfl⟩
  · intro c
    beta_reduce
    unfold cmdWAIT
    simp only [bind, Except.bind, done, pure, Except.pure]
    repeat' split
    all_goals
      intro o h
      cases h
    all_goals exact ⟨rfl, rfl, rfl, fun _ => rfl⟩
  · intro c
    beta_reduce
    unfold cmdTYPE
    simp only [bind, Except.bind, done, pure, Except.pure]
    repeat' split
    all_goals
      intro o h
      cases h
    all_goals exact ⟨rfl, rfl, rfl, fun _ => rfl⟩
  · intro c
    beta_reduce
    unfold cmdXADD
    simp only [bind, Except.bind, done, pure, Except.pure]
    repeat' split
    all_goals
      intro o h
      cases h
    all_goals exact ⟨rfl, rfl, rfl, fun hne => absurd c hne⟩
  · intro c
    beta_reduce
    unfold cmdLPUSH
    simp only [bind, Except.bind, done, pure, Except.pure]
    repeat' split
    all_goals
      intro o h
      cases h
    all_goals exact ⟨rfl, rfl, rfl, fun _ => rfl⟩
  · intro c
    beta_reduce
    unfold cmdLRANGE
    simp only [bind, Except.bind, done, pure, Except.pure]
    repeat' split
    all_goals
      intro o h
      cases h
    all_goals exact ⟨rfl, rfl, rfl, fun _ => rfl⟩
  · intro c
    beta_reduce
    unfold cmdSADD
    simp only [bind, Except.bind, done, pure, Except.pure]
    repeat' split
    all_goals
      intro o h
      cases h
    all_goals exact ⟨rfl, rfl, rfl, fun _ => rfl⟩
  · intro c
    beta_reduce
    unfold cmdSMEMBERS
    simp only [bind, Except.bind, done, pure, Except.pure]
    repeat' split
    all_goals
      intro o h
      cases h
    all_goals exact ⟨rfl, rfl, rfl, fun _ => rfl⟩
  · intro c
    beta_reduce
    unfold cmdXRANGE
    simp only [bind, Except.bind, done, pure, Except.pure]
    repeat' split
    all_goals
      intro o h
      cases h
    all_goals exact ⟨rfl, rfl, rfl, fun _ => rfl⟩
  · intro c
    beta_reduce
    unfold cmdXREAD
    simp only [bind, Except.bind, done, pure, Except.pure]
    repeat' split
    all_goals
      intro o h
      cases h
    all_goals exact ⟨rfl, rfl, rfl, fun _ => rfl⟩
  · intro c
    beta_reduce
    unfold cmdINCR
    simp only [bind, Except.bind, done, pure, Except.pure]
    repeat' split
    all_goals
      intro o h
      cases h
    all_goals exact ⟨rfl, rfl, rfl, fun _ => rfl⟩
  · intro c
    beta_reduce
    simp only [bind, Except.bind, done, pure, Except.pure]
    all_goals
      intro o h
      cases h
    all_goals exact ⟨rfl, rfl, rfl, fun _ => rfl⟩
  · intro c
    beta_reduce
    simp only [bind, Except.bind, done, pure, Except.pure]
    repeat' split
    all_goals
      intro o h
      cases h
    all_goals exact ⟨rfl, rfl, rfl, fun _ => rfl⟩
  · intro o h
    cases h
    exact ⟨rfl, rfl, rfl, fun _ => rfl⟩
theorem wrap64_range (z : Int) : minInt64 ≤ wrap64 z ∧ wrap64 z ≤ maxInt64 := by
  unfold wrap64 minInt64 maxInt64
  omega

theorem cmdINCR_error (args : List Bytes) (conn : Connection) (kv : KVStore) (o : Outcome)
    (h : cmdINCR args conn kv = .ok o) (hh : o.reply.head? = some '-') : o.kv = kv := by
  unfold cmdINCR at h
  simp only [bind, Except.bind] at h
  cases hk : idx args 1 with
  | error e =>
    rw [hk] at h
    cases h
  | ok key =>
    rw [hk] at h
    simp only at h
    cases hg : mapGet kv.store key with
    | none =>
      have h1 : atoi (strAt (mapSet kv.store key (lit "1")) key) = (1, none) := by
        rw [strAt_mapSet_same]
        rfl
      simp only [hg, h1, done] at h
      cases h
      simp [EncodeInteger] at hh
    | some v =>
      cases ha : atoi v with
      | mk n e =>
        cases e with
        | some e =>
          simp only [hg, ha, done] at h
          cases h
          rfl
        | none =>
          have h1 : atoi (strAt (mapSet kv.store key (itoa (wrap64 (n + 1)))) key) =
              (wrap64 (n + 1), none) := by
            rw [strAt_mapSet_same]
            exact atoi_itoa _ (wrap64_range _).1 (wrap64_range _).2
          simp only [hg, ha, h1, done] at h
          cases h
          simp [EncodeInteger] at hh

/-- A reply of a case of the switch that begins with `-` comes with the store as it was. -/
theorem dispatch_error_reply (env : Env) (cmd : Bytes) (args : List Bytes) (conn : Connection)
    (kv : KVStore) (o : Outcome) (h : dispatch env cmd args conn kv = .ok o)
    (hh : o.reply.head? = some '-') : o.kv = kv := by
  revert o
  refine dispatch_cases (fun r => ∀ o, r = .ok o → o.reply.head? = some '-' → o.kv = kv)
    env cmd args conn kv ?_ ?_ ?_ ?_ ?_ ?_ ?_ ?_ ?_ ?_ ?_ ?_ ?_ ?_ ?_ ?_ ?_ ?_ ?_ ?_ ?_ ?_ ?_
  · intro _
    beta_reduce
    simp only [bind, Except.bind, done, pure, Except.pure]
    all_goals
      intro o h
      cases h
    all_goals
      intro hh
      rfl
  · intro _
    beta_reduce
    unfold cmdECHO
    simp only [bind, Except.bind, done, pure, Except.pure]
    repeat' split
    all_goals
      intro o h
      cases h
    all_goals
      intro hh
      rfl
  · intro _
    beta_reduce
    unfold cmdSET
    simp only [bind, Except.bind, done, pure, Except.pure]
    repeat' split
    all_goals
      intro o h
      cases h
    all_goals
      intro hh
      dsimp only at hh
      exact absurd hh (by decide)
  · intro _
    beta_reduce
    unfold cmdGET
    simp only [bind, Except.bind, done, pure, Except.pure]
    repeat' split
    all_goals
      intro o h
      cases h
    all_goals
      intro hh
      rfl
  · intro _
    beta_reduce
    unfold cmdDEL
    simp only [bind, Except.bind, done, pure, Except.pure]
    repeat' split
    all_goals
      intro o h
      cases h
    all_goals intro hh
    all_goals try rfl
    all_goals simp [EncodeInteger, EncodeBulkString] at hh
  · intro _
    beta_reduce
    unfold cmdCONFIG
    simp only [bind, Except.bind, done, pure, Except.pure]
    repeat' split
    all_goals
      intro o h
      cases h
    all_goals
      intro hh
      rfl
  · intro _
    beta_reduce
    unfold cmdKEYS
    simp only [bind, Except.bind, done, pure, Except.pure]
    all_goals
      intro o h
      cases h
    all_goals
      intro hh
      rfl
  · intro _
    beta_reduce
    unfold cmdINFO
    simp only [bind, Except.bind, done, pure, Except.pure]
    all_goals
      intro o h
      cases h
    all_goals
      intro hh
      rfl
  · intro _
    beta_reduce
    unfold cmdREPLCONF
    simp only [bind, Except.bind, done, pure, Except.pure]
    repeat' split
    all_goals
      intro o h
      cases h
    all_goals
      intro hh
      rfl
  · intro _
    beta_reduce
    unfold cmdPSYNC
    simp only [bind, Except.bind, done, pure, Except.pure]
    all_goals
      intro o h
      cases h
    all_goals
      intro hh
      change List.head? ('+' :: _) = some '-' at hh
      simp at hh
  · intro _
    beta_reduce
    unfold cmdWAIT
    simp only [bind, Except.bind, done, pure, Except.pure]
    repeat' split
    all_goals
      intro o h
      cases h
    all_goals
      intro hh
      rfl
  · intro _
    beta_reduce
    unfold cmdTYPE
    simp only [bind, Except.bind, done, pure, Except.pure]
    repeat' split
    all_goals
      intro o h
      cases h
    all_goals
      intro hh
      rfl
  · intro _
    beta_reduce
    unfold cmdXADD
    simp only [bind, Except.bind, done, pure, Except.pure]
    repeat' split
    all_goals
      intro o h
      cases h
    all_goals intro hh
    all_goals try rfl
    all_goals simp [EncodeInteger, EncodeBulkString] at hh
  · intro _
    beta_reduce
    unfold cmdLPUSH
    simp only [bind, Except.bind, done, pure, Except.pure]
    repeat' split
    all_goals
      intro o h
      cases h
    all_goals intro hh
    all_goals try rfl
    all_goals simp [EncodeInteger, EncodeBulkString] at hh
  · intro _
    beta_reduce
    unfold cmdLRANGE
    simp only [bind, Except.bind, done, pure, Except.pure]
    repeat' split
    all_goals
      intro o h
      cases h
    all_goals
      intro hh
      rfl
  · intro _
    beta_reduce
    unfold cmdSADD
    simp only [bind, Except.bind, done, pure, Except.pure]
    repeat' split
    all_goals
      intro o h
      cases h
    all_goals intro hh
    all_goals try rfl
    all_goals simp [EncodeInteger, EncodeBulkString] at hh
  · intro _
    beta_reduce
    unfold cmdSMEMBERS
    simp only [bind, Except.bind, done, pure, Except.pure]
    repeat' split
    all_goals
      intro o h
      cases h
    all_goals
      intro hh
      rfl
  · intro _
    beta_reduce
    unfold cmdXRANGE
    simp only [bind, Except.bind, done, pure, Except.pure]
    repeat' split
    all_goals
      intro o h
      cases h
    all_goals
      intro hh
      rfl
  · intro _
    beta_reduce
    unfold cmdXREAD
    simp only [bind, Except.bind, done, pure, Except.pure]
    repeat' split
    all_goals
      intro o h
      cases h
    all_goals
      intro hh
      rfl
  · intro _ o h hh
    exact cmdINCR_error args conn kv o h hh
  · intro _
    beta_reduce
    simp only [bind, Except.bind, done, pure, Except.pure]
    all_goals
      intro o h
      cases h
    all_goals
      intro hh
      rfl
  · intro _
    beta_reduce
    simp only [bind, Except.bind, done, pure, Except.pure]
    repeat' split
    all_goals
      intro o h
      cases h
    all_goals
      intro hh
      rfl
  · intro o h hh
    cases h
    rfl

/-! ## The replication offset of a replica -/

/-- What `processCommand` leaves alone when the connection is outside a transaction. -/
theorem processCommand_frame (fuel : Nat) (env : Env) (a : Bytes) (rest : List Bytes)
    (conn : Connection) (kv : KVStore) (o : Outcome) (htxn : conn.TxnStarted = false)
    (h : processCommand fuel env (a :: rest) conn kv = .ok o) :
    o.kv.Info.Role = kv.Info.Role ∧ o.kv.Info.MasterReplOffSet = kv.Info.MasterReplOffSet ∧
      o.kv.Info.MasterConn = kv.Info.MasterConn ∧
      (toUpper a ≠ lit "XADD" → o.args = a :: rest) ∧
      (toUpper a ≠ lit "MULTI" → o.conn = conn) := by
  by_cases he : toUpper a = lit "EXEC"
  · have hx : toUpper a ≠ lit "XADD" := by rw [he]; decide
    cases fuel <;>
    · simp only [processCommand, processWith, idx, List.getElem?_cons_zero, he, if_true, htxn,
        Bool.false_eq_true, not_false_eq_true, done, Except.ok.injEq] at h
      rw [← h]
      exact ⟨rfl, rfl, rfl, fun _ => rfl, fun _ => rfl⟩
  · rw [processCommand_not_EXEC _ _ _ _ _ _ he] at h
    obtain ⟨h1, h2, h3, h4⟩ := dispatch_frame env _ _ conn kv o h
    refine ⟨h1, h2, h3, h4, fun hm => ?_⟩
    by_cases hd : toUpper a = lit "DISCARD"
    · rw [hd, dispatch_DISCARD] at h
      simp only [htxn, Bool.false_eq_true, not_false_eq_true, if_true, done,
        Except.ok.injEq] at h
      rw [← h]
    · exact dispatch_conn_eq env _ _ conn kv hm hd o h

/-- One turn of the loop on a replica, outside a transaction, for a verb other than `MULTI`
and `XADD`: the offset grows by the length of the encoding of the command. -/
theorem handleArgs_replica_offset (fuel : Nat) (env : Env) (a : Bytes) (rest : List Bytes)
    (s s1 : Session) (hrole : s.kv.Info.Role = lit "slave") (htxn : s.conn.TxnStarted = false)
    (hm : toUpper a ≠ lit "MULTI") (hx : toUpper a ≠ lit "XADD")
    (h : handleArgs fuel env (a :: rest) s = .ok s1) :
    s1.kv.Info.Role = lit "slave" ∧ s1.conn = s.conn ∧
      s1.kv.Info.MasterConn = s.kv.Info.MasterConn ∧
      s1.kv.Info.MasterReplOffSet =
        wrap64 (s.kv.Info.MasterReplOffSet + (EncodeArray (a :: rest)).length) := by
  simp only [handleArgs, idx, List.getElem?_cons_zero, bind, Except.bind, htxn,
    Bool.false_eq_true, false_and, if_false] at h
  cases hp : processCommand fuel env (a :: rest) s.conn s.kv with
  | error e =>
    rw [hp] at h
    cases h
  | ok o =>
    obtain ⟨h1, h2, h3, h4, h5⟩ := processCommand_frame fuel env a rest s.conn s.kv o htxn hp
    have hr : o.kv.Info.Role = lit "slave" := by rw [h1, hrole]
    rw [hp] at h
    simp only [hr, if_true, pure, Except.pure, Except.ok.injEq] at h
    rw [← h]
    refine ⟨rfl, h5 hm, h3, ?_⟩
    simp only [h2, h4 hx]

/-- The sum of the encoded lengths of a list of commands. -/
theorem handleAll_replica_offset (fuel : Nat) (cmds : List (Env × List Bytes)) (s s' : Session)
    (hrole : s.kv.Info.Role = lit "slave") (htxn : s.conn.TxnStarted = false)
    (hoff : 0 ≤ s.kv.Info.MasterReplOffSet)
    (hverbs : ∀ m ∈ cmds, m.2 ≠ [] ∧ toUpper (m.2.headD []) ≠ lit "MULTI" ∧
      toUpper (m.2.headD []) ≠ lit "XADD")
    (hsum : s.kv.Info.MasterReplOffSet +
      ((cmds.map (fun m => (EncodeArray m.2).length)).sum : Nat) ≤ maxInt64)
    (hrun : handleAll fuel (cmds.map (fun m => (m.1, Msg.array m.2))) s = .ok s') :
    s'.kv.Info.Role = lit "slave" ∧ s'.conn = s.conn ∧
      s'.kv.Info.MasterConn = s.kv.Info.MasterConn ∧
      s'.kv.Info.MasterReplOffSet = s.kv.Info.MasterReplOffSet +
        ((cmds.map (fun m => (EncodeArray m.2).length)).sum : Nat) := by
  induction cmds generalizing s with
  | nil =>
    simp only [List.map_nil, handleAll, Except.ok.injEq] at hrun
    subst hrun
    simp [hrole]
  | cons m cmds ih =>
    obtain ⟨hne, hm, hx⟩ := hverbs m (List.mem_cons_self _ _)
    obtain ⟨env, args⟩ := m
    cases args with
    | nil => exact absurd rfl hne
    | cons a rest =>
      simp only [List.headD_cons] at hm hx
      simp only [List.map_cons, handleAll, handleMsg, bind, Except.bind] at hrun
      cases h1 : handleArgs fuel env (a :: rest) s with
      | error e =>
        rw [h1] at hrun
        cases hrun
      | ok s1 =>
        rw [h1] at hrun
        obtain ⟨hr1, hc1, hmc1, ho1⟩ :=
          handleArgs_replica_offset fuel env a rest s s1 hrole htxn hm hx h1
        simp only [List.map_cons, List.sum_cons, Nat.cast_add] at hsum ⊢
        have hw : wrap64 (s.kv.Info.MasterReplOffSet + (EncodeArray (a :: rest)).length) =
            s.kv.Info.MasterReplOffSet + (EncodeArray (a :: rest)).length := by
          apply wrap64_of_range
          · unfold minInt64
            omega
          · omega
        rw [hw] at ho1
        obtain ⟨hr2, hc2, hmc2, ho2⟩ := ih s1 hr1 (by rw [hc1]; exact htxn)
          (by rw [ho1]; omega)
          (fun x hx => hverbs x (List.mem_cons_of_mem _ hx))
          (by rw [ho1]; omega) hrun
        refine ⟨hr2, by rw [hc2, hc1], by rw [hmc2, hmc1], ?_⟩
        rw [ho2, ho1]
        omega
/-- The turn of the loop for `REPLCONF GETACK *` on the master connection of a replica: the
reply carries the offset as it is before the turn, and the turn then counts the command. -/
theorem handleArgs_GETACK (fuel : Nat) (env : Env) (s : Session)
    (hrole : s.kv.Info.Role = lit "slave") (htxn : s.conn.TxnStarted = false)
    (hmc : s.kv.Info.MasterConn = some s.conn.Conn) :
    handleArgs fuel env [lit "REPLCONF", lit "GETACK", lit "*"] s = .ok
      { kv := { s.kv with
          Info := { s.kv.Info with
            MasterReplOffSet := wrap64 (s.kv.Info.MasterReplOffSet +
              (EncodeArray [lit "REPLCONF", lit "GETACK", lit "*"]).length) } }
        conn := s.conn
        wire := s.wire ++
          [(s.conn.Conn, EncodeArray [lit "REPLCONF", lit "ACK", itoa s.kv.Info.MasterReplOffSet])] } := by
  have hp : processCommand fuel env [lit "REPLCONF", lit "GETACK", lit "*"] s.conn s.kv =
      done (EncodeArray [lit "REPLCONF", lit "ACK", itoa s.kv.Info.MasterReplOffSet])
        [lit "REPLCONF", lit "GETACK", lit "*"] s.conn s.kv := by
    rw [processCommand_not_EXEC _ _ _ _ _ _ (by decide)]
    rfl
  have hu : toUpper (lit "REPLCONF") = lit "REPLCONF" := by decide
  have hg : toUpper ([lit "REPLCONF", lit "GETACK", lit "*"].getD 1 []) = lit "GETACK" := by
    decide
  simp only [handleArgs, idx, List.getElem?_cons_zero, bind, Except.bind, htxn,
    Bool.false_eq_true, false_and, if_false, hp, done, hrole, if_true, pure, Except.pure,
    hmc, hu, hg, and_self, List.append_nil]

/-- The accounting of the replication offset where it is exact.  On a replica, let the loop
of `HandleConnection` evaluate on the master connection, outside a transaction, the non-empty
commands `c1 .. cn`, none of which is `MULTI` or `XADD`.  Then the offset has grown by the sum of the lengths of `EncodeArray(c_i)`, and
`REPLCONF GETACK *` arriving next is answered on the master connection with the array
`REPLCONF`, `ACK`, decimal of that offset, after which the offset has grown by the length of
the `GETACK` command too.  The bound says that the offsets are values of Go's `int`. -/
theorem replica_offset (fuel : Nat) (cmds : List (Env × List Bytes)) (env : Env)
    (kv : KVStore) (c : Nat) (s' : Session)
    (hrole : kv.Info.Role = lit "slave") (hmc : kv.Info.MasterConn = some c)
    (hoff : 0 ≤ kv.Info.MasterReplOffSet)
    (hverbs : ∀ m ∈ cmds, m.2 ≠ [] ∧ toUpper (m.2.headD []) ≠ lit "MULTI" ∧
      toUpper (m.2.headD []) ≠ lit "XADD")
    (hsum : kv.Info.MasterReplOffSet +
      ((cmds.map (fun m => (EncodeArray m.2).length)).sum : Nat) +
      (EncodeArray [lit "REPLCONF", lit "GETACK", lit "*"]).length ≤ maxInt64)
    (hrun : handleAll fuel (cmds.map (fun m => (m.1, Msg.array m.2))) (freshSession kv c) =
      .ok s') :
    s'.kv.Info.MasterReplOffSet = kv.Info.MasterReplOffSet +
        ((cmds.map (fun m => (EncodeArray m.2).length)).sum : Nat) ∧
    ∃ s'', handleArgs fuel env [lit "REPLCONF", lit "GETACK", lit "*"] s' = .ok s'' ∧
      s''.wire = s'.wire ++ [(c, EncodeArray [lit "REPLCONF", lit "ACK",
        itoa (kv.Info.MasterReplOffSet +
          ((cmds.map (fun m => (EncodeArray m.2).length)).sum : Nat))])] ∧
      s''.kv.Info.MasterReplOffSet = kv.Info.MasterReplOffSet +
        ((cmds.map (fun m => (EncodeArray m.2).length)).sum : Nat) +
        (EncodeArray [lit "REPLCONF", lit "GETACK", lit "*"]).length := by
  obtain ⟨hr, hc, hm, ho⟩ := handleAll_replica_offset fuel cmds (freshSession kv c) s' hrole rfl
    hoff hverbs (by
      have h0 : (0 : Int) ≤ ((EncodeArray [lit "REPLCONF", lit "GETACK", lit "*"]).length : Int) :=
        Int.ofNat_nonneg _
      show kv.Info.MasterReplOffSet + _ ≤ maxInt64
      omega) hrun
  have ho' : s'.kv.Info.MasterReplOffSet = kv.Info.MasterReplOffSet +
      ((cmds.map (fun m => (EncodeArray m.2).length)).sum : Nat) := ho
  have hcc : s'.conn.Conn = c := by rw [hc]; rfl
  have hmc' : s'.kv.Info.MasterConn = some s'.conn.Conn := by
    rw [hm, hcc]
    exact hmc
  refine ⟨ho', _, handleArgs_GETACK fuel env s' hr (by rw [hc]; rfl) hmc', ?_, ?_⟩
  · simp only [hcc, ho']
  · simp only [ho']
    apply wrap64_of_range
    · have h0 : (0 : Int) ≤ (((cmds.map (fun m => (EncodeArray m.2).length)).sum : Nat) : Int) :=
        Int.ofNat_nonneg _
      have h1 : (0 : Int) ≤ ((EncodeArray [lit "REPLCONF", lit "GETACK", lit "*"]).length : Int) :=
        Int.ofNat_nonneg _
      unfold minInt64
      omega
    · exact hsum

/-- The offset of a replica whose master connection is socket 1 and which receives
`SET a 1`, `PING`, `SET b 22`: the offset is 27 + 14 + 28 = 69, and the reply to
`REPLCONF GETACK *` carries 69. -/
theorem replica_offset_witness :
    ∃ s', handleAll 0
        ([(envAt 0, [lit "SET", lit "a", lit "1"]), (envAt 0, [lit "PING"]),
          (envAt 0, [lit "SET", lit "b", lit "22"])].map (fun m => (m.1, Msg.array m.2)))
        (freshSession
          { New with Info := { New.Info with Role := lit "slave", MasterConn := some 1 } } 1) =
        .ok s' ∧
      s'.kv.Info.MasterReplOffSet = 69 ∧
      ∃ s'', handleArgs 0 (envAt 0) [lit "REPLCONF", lit "GETACK", lit "*"] s' = .ok s'' ∧
        s''.wire = s'.wire ++ [(1, EncodeArray [lit "REPLCONF", lit "ACK", lit "69"])] ∧
        s''.kv.Info.MasterReplOffSet = 69 + 37 :=
  ⟨_, rfl,
    replica_offset 0
      [(envAt 0, [lit "SET", lit "a", lit "1"]), (envAt 0, [lit "PING"]),
        (envAt 0, [lit "SET", lit "b", lit "22"])] (envAt 0)
      { New with Info := { New.Info with Role := lit "slave", MasterConn := some 1 } } 1 _
      rfl rfl (by decide) (by decide) (by decide) rfl⟩

/-- C22 (failing input). A replica whose master connection is socket 1 receives `MULTI`,
`SET x 1`, `EXEC`: the `SET` is queued (and `+QUEUED` is written to the master), later run by
`EXEC`, and never counted, so the offset is 15 + 14 = 29 and not 15 + 27 + 14 = 56.  And a
replica that receives `XADD s * f v` at clock reading 5 counts the command with the ID `5-0`
that the dispatcher has written into the argument vector: 44 bytes, not 42. -/
theorem replica_offset_skips_queued :
    (∃ s, handleAll 1
        (commandsAt 0 [[lit "MULTI"], [lit "SET", lit "x", lit "1"], [lit "EXEC"]])
        (freshSession
          { New with Info := { New.Info with Role := lit "slave", MasterConn := some 1 } } 1) =
        .ok s ∧
      s.kv.store = [(lit "x", lit "1")] ∧ s.wire = [(1, lit "+QUEUED\r\n")] ∧
      s.kv.Info.MasterReplOffSet = 29 ∧
      (EncodeArray [lit "MULTI"]).length + (EncodeArray [lit "SET", lit "x", lit "1"]).length +
        (EncodeArray [lit "EXEC"]).length = 56) ∧
    (∃ s, handleAll 0 (commandsAt 5 [[lit "XADD", lit "s", lit "*", lit "f", lit "v"]])
        (freshSession
          { New with Info := { New.Info with Role := lit "slave", MasterConn := some 1 } } 1) =
        .ok s ∧
      s.kv.Info.MasterReplOffSet = 44 ∧
      (EncodeArray [lit "XADD", lit "s", lit "*", lit "f", lit "v"]).length = 42) :=
  ⟨⟨_, rfl, rfl, rfl, rfl, rfl⟩, ⟨_, rfl, rfl, rfl⟩⟩

/-! ## Error replies and faults -/

theorem dispatch_unknown (env : Env) (cmd : Bytes) (args : List Bytes) (conn : Connection)
    (kv : KVStore) (h : cmd ∉ knownVerbs) :
    dispatch env cmd args conn kv = done (lit "-ERR unknown command\r\n") args conn kv := by
  simp only [knownVerbs, List.mem_cons, List.mem_singleton, not_or, List.not_mem_nil,
    not_false_eq_true, and_true] at h
  obtain ⟨h1, h2, h3, h4, h5, h6, h7, h8, h9, h10, h11, h12, h13, h14, h15, h16, h17, h18, h19,
    h20, h21, -, h23⟩ := h
  unfold dispatch
  rw [if_neg h1, if_neg h2, if_neg h3, if_neg h4, if_neg h5, if_neg h6, if_neg h7, if_neg h8,
    if_neg h9, if_neg h10, if_neg h11, if_neg h12, if_neg h13, if_neg h14, if_neg h15,
    if_neg h16, if_neg h17, if_neg h18, if_neg h19, if_neg h20, if_neg h21, if_neg h23]

/-- A reply of `processCommand` that begins with `-` comes with the store as it was. -/
theorem processCommand_error_reply (fuel : Nat) (env : Env) (a : Bytes) (rest : List Bytes)
    (conn : Connection) (kv : KVStore) (o : Outcome)
    (h : processCommand fuel env (a :: rest) conn kv = .ok o)
    (hh : o.reply.head? = some '-') : o.kv = kv := by
  by_cases he : toUpper a = lit "EXEC"
  · cases hst : conn.TxnStarted with
    | false =>
      cases fuel <;>
      · simp only [processCommand, processWith, idx, List.getElem?_cons_zero, he, if_true, hst,
          Bool.false_eq_true, not_false_eq_true, done, Except.ok.injEq] at h
        rw [← h]
    | true =>
      cases fuel with
      | zero =>
        simp [processCommand, processWith, idx, he, hst] at h
      | succ f =>
        simp only [processCommand, processWith, idx, List.getElem?_cons_zero, he, if_true, hst,
          not_true_eq_false, if_false] at h
        split at h
        · cases h
        · simp only [Except.ok.injEq] at h
          rw [← h] at hh
          simp [EncodeArray] at hh
  · rw [processCommand_not_EXEC _ _ _ _ _ _ he] at h
    exact dispatch_error_reply env _ _ conn kv o h hh

/-- A verb of `argVerbs` that comes without any argument makes the dispatcher index outside
its argument vector. -/
theorem processCommand_no_argument (fuel : Nat) (env : Env) (a : Bytes) (conn : Connection)
    (kv : KVStore) (h : toUpper a ∈ argVerbs) :
    processCommand fuel env [a] conn kv = .error .panic := by
  have he : toUpper a ≠ lit "EXEC" := by
    intro e
    rw [e] at h
    exact absurd h (by decide)
  rw [processCommand_not_EXEC _ _ _ _ _ _ he]
  simp only [argVerbs, List.mem_cons, List.mem_singleton, List.not_mem_nil, or_false] at h
  rcases h with h | h | h | h | h | h | h | h | h | h | h | h | h | h | h <;>
  · rw [h]
    rfl

/-- C23 (amended). `processCommand` checks neither the number of its arguments nor the shape
of a stream ID.  Every reply that begins with `-` comes with the keyspace unchanged, and
these errors are reported as such a frame: a verb that is no case label of the switch,
`LPUSH` on a key that holds a set, `SADD` on a key that holds a list, and `EXEC` or `DISCARD`
outside a transaction.  Each of the verbs `ECHO`, `SET`, `GET`, `DEL`, `REPLCONF`, `WAIT`,
`TYPE`, `XADD`, `LPUSH`, `LRANGE`, `SADD`, `SMEMBERS`, `XRANGE`, `XREAD` and `INCR` sent
without any argument is not answered: the call panics with an index out of range. -/
theorem error_reply_spec (fuel : Nat) (env : Env) (a : Bytes) (rest : List Bytes)
    (conn : Connection) (kv : KVStore) :
    (∀ o, processCommand fuel env (a :: rest) conn kv = .ok o → o.reply.head? = some '-' →
      o.kv = kv) ∧
    (toUpper a ∉ knownVerbs →
      processCommand fuel env (a :: rest) conn kv =
        done (lit "-ERR unknown command\r\n") (a :: rest) conn kv) ∧
    (∀ k vs, (mapGet kv.sets k).isSome →
      processCommand fuel env (lit "LPUSH" :: k :: vs) conn kv =
        done wrongType (lit "LPUSH" :: k :: vs) conn kv) ∧
    (∀ k ms, (mapGet kv.lists k).isSome →
      processCommand fuel env (lit "SADD" :: k :: ms) conn kv =
        done wrongType (lit "SADD" :: k :: ms) conn kv) ∧
    (conn.TxnStarted = false →
      processCommand fuel env (lit "EXEC" :: rest) conn kv =
          done (lit "-ERR EXEC without MULTI\r\n") (lit "EXEC" :: rest) conn kv ∧
        processCommand fuel env (lit "DISCARD" :: rest) conn kv =
          done (lit "-ERR DISCARD without MULTI\r\n") (lit "DISCARD" :: rest) conn kv) ∧
    (toUpper a ∈ argVerbs → processCommand fuel env [a] conn kv = .error .panic) := by
  refine ⟨fun o h hh => processCommand_error_reply fuel env a rest conn kv o h hh, ?_, ?_, ?_, ?_,
    processCommand_no_argument fuel env a conn kv⟩
  · intro hu
    have he : toUpper a ≠ lit "EXEC" := by
      intro e
      apply hu
      rw [e]
      decide
    rw [processCommand_not_EXEC _ _ _ _ _ _ he]
    exact dispatch_unknown env _ _ conn kv hu
  · intro k vs hs
    rw [processCommand_LPUSH]
    simp only [cmdLPUSH, idx, bind, Except.bind, List.getElem?_cons_succ,
      List.getElem?_cons_zero, hs, if_true]
  · intro k ms hl
    rw [processCommand_SADD]
    simp only [cmdSADD, idx, bind, Except.bind, List.getElem?_cons_succ,
      List.getElem?_cons_zero, hl, if_true]
  · intro hst
    constructor
    · cases fuel <;>
      · simp only [processCommand, processWith, idx, List.getElem?_cons_zero]
        rw [if_pos (by decide)]
        simp only [hst, Bool.false_eq_true, not_false_eq_true, if_true]
    · rw [processCommand_not_EXEC _ _ _ _ _ _ (by decide)]
      have hu : toUpper (lit "DISCARD") = lit "DISCARD" := by decide
      rw [hu, dispatch_DISCARD]
      simp only [hst, Bool.false_eq_true, not_false_eq_true, if_true]

/-- C23 (amended) at `INCR k` on a store in which `k` holds `abc`, and at the verb `FLUSH`. -/
theorem error_reply_spec_witness :
    (∃ o, processCommand 0 (envAt 0) [lit "INCR", lit "k"] (freshConn 3)
        { New with store := [(lit "k", lit "abc")] } = .ok o ∧
      o.reply = notAnInteger ∧ o.kv = { New with store := [(lit "k", lit "abc")] }) ∧
    processCommand 0 (envAt 0) [lit "flush", lit "k"] (freshConn 3) New =
      done (lit "-ERR unknown command\r\n") [lit "flush", lit "k"] (freshConn 3) New :=
  ⟨⟨_, rfl, rfl,
      (error_reply_spec 0 (envAt 0) (lit "INCR") [lit "k"] (freshConn 3)
        { New with store := [(lit "k", lit "abc")] }).1 _ rfl rfl⟩,
    (error_reply_spec 0 (envAt 0) (lit "flush") [lit "k"] (freshConn 3) New).2.1 (by decide)⟩

/-- C23 (counterexample). On the empty keyspace `GET`, `ECHO`, `SET k`, `LRANGE k 0`,
`XADD s 1-1 f`, `XADD s 11 f v` and `XREAD STREAMS s 5` are not answered at all: each call of
`processCommand` panics with an index out of range.  And `SADD k`, which lacks its members,
is answered `:0` and creates an empty set at `k`. -/
theorem arity_faults :
    processCommand 0 (envAt 0) [lit "GET"] (freshConn 3) New = .error .panic ∧
    processCommand 0 (envAt 0) [lit "ECHO"] (freshConn 3) New = .error .panic ∧
    processCommand 0 (envAt 0) [lit "SET", lit "k"] (freshConn 3) New = .error .panic ∧
    processCommand 0 (envAt 0) [lit "LRANGE", lit "k", lit "0"] (freshConn 3) New =
      .error .panic ∧
    processCommand 0 (envAt 0) [lit "XADD", lit "s", lit "1-1", lit "f"] (freshConn 3) New =
      .error .panic ∧
    processCommand 0 (envAt 0) [lit "XADD", lit "s", lit "11", lit "f", lit "v"] (freshConn 3)
      New = .error .panic ∧
    processCommand 0 (envAt 0) [lit "XREAD", lit "STREAMS", lit "s", lit "5"] (freshConn 3)
      New = .error .panic ∧
    processCommand 0 (envAt 0) [lit "SADD", lit "k"] (freshConn 3) New =
      done (lit ":0\r\n") [lit "SADD", lit "k"] (freshConn 3)
        { New with sets := [(lit "k", [])] } :=
  ⟨rfl, rfl, rfl, rfl, rfl, rfl, rfl, rfl⟩

/-! ## The snapshot after `PSYNC`, and `INCR` at the largest integer -/

set_option maxRecDepth 100000 in
/-- C21 (failing input). The snapshot shape `$3\r\nabc` without a trailing CRLF, followed by
the frame of the command `PING`: `ParseMessage` returns the payload `abc` but also consumes
the first two bytes `*1` of the frame, so the loop then reads an empty line and a bulk string
instead of the command; with nothing after the payload the read fails.  The same happens to
what a primary writes to a replica registered on socket 7: after the reply to `PSYNC`, the
frame of `SET n 1` reaches the loop of the replica as an empty line and three bulk strings,
and the replica, which skips them, stores nothing. -/
theorem snapshot_eats_two_bytes :
    ParseMessage (lit "$3\r\nabc" ++ EncodeArray [lit "PING"]) =
      .ok (Msg.bulk (some (lit "abc")), lit "\r\n$4\r\nPING\r\n") ∧
    decodeAll 4 (lit "$3\r\nabc" ++ EncodeArray [lit "PING"]) =
      .ok [Msg.bulk (some (lit "abc")), Msg.line [], Msg.bulk (some (lit "PING"))] ∧
    ParseMessage (lit "$3\r\nabc") = .error .unexpectedEOF ∧
    ∃ s1 s2 s3,
      handleAll 0 (commandsAt 0 [[lit "PSYNC", lit "?", lit "-1"]]) (freshSession New 7) =
        .ok s1 ∧
      handleAll 0 (commandsAt 0 [[lit "SET", lit "n", lit "1"]]) (freshSession s1.kv 3) =
        .ok s2 ∧
      s2.kv.store = [(lit "n", lit "1")] ∧
      decodeAll 7 (received (s1.wire ++ s2.wire) 7) =
        .ok [Msg.line (lit "+FULLRESYNC 8371b4fb1155b71f4a04d3e1bc3e18c4a990aeeb 0"),
          Msg.bulk (some (hexDecode rdbHex)), Msg.line [],
          Msg.bulk (some (lit "SET")), Msg.bulk (some (lit "n")), Msg.bulk (some (lit "1"))] ∧
      handleAll 0
        ([Msg.line (lit "+FULLRESYNC 8371b4fb1155b71f4a04d3e1bc3e18c4a990aeeb 0"),
          Msg.bulk (some (hexDecode rdbHex)), Msg.line [],
          Msg.bulk (some (lit "SET")), Msg.bulk (some (lit "n")),
          Msg.bulk (some (lit "1"))].map (fun x => (envAt 0, x)))
        (freshSession
          { New with Info := { New.Info with Role := lit "slave", MasterConn := some 1 } } 1) =
        .ok s3 ∧
      s3.kv.store = [] ∧ s3.kv.Info.MasterReplOffSet = 0 :=
  ⟨rfl, rfl, rfl, _, _, _, rfl, rfl, rfl, rfl, rfl, rfl, rfl⟩

/-- C24 (failing input). When `k` holds `9223372036854775807`, `INCR k` replies
`:-9223372036854775808` and stores `-9223372036854775808`: the sum `n + 1` wraps around, and
no error is reported. -/
theorem incr_wraps_at_max :
    ∃ o, processCommand 0 (envAt 0) [lit "INCR", lit "k"] (freshConn 3)
        { New with store := [(lit "k", lit "9223372036854775807")] } = .ok o ∧
      o.reply = lit ":-9223372036854775808\r\n" ∧
      mapGet o.kv.store (lit "k") = some (lit "-9223372036854775808") :=
  ⟨_, rfl, rfl, rfl⟩

/-! ## What the dispatcher writes to other sockets -/

/-- No case of the switch changes the socket of the connection, and the only frames that a
case hands to replica sockets are the `REPLCONF GETACK *` of `WAIT`. -/
theorem dispatch_wire (env : Env) (cmd : Bytes) (args : List Bytes) (conn : Connection)
    (kv : KVStore) (o : Outcome) (h : dispatch env cmd args conn kv = .ok o) :
    o.conn.Conn = conn.Conn ∧
      ∀ w ∈ o.sent, w.2 = EncodeArray [lit "REPLCONF", lit "GETACK", lit "*"] := by
  revert o
  refine dispatch_cases (fun r => ∀ o, r = .ok o → o.conn.Conn = conn.Conn ∧
      ∀ w ∈ o.sent, w.2 = EncodeArray [lit "REPLCONF", lit "GETACK", lit "*"])
    env cmd args conn kv ?_ ?_ ?_ ?_ ?_ ?_ ?_ ?_ ?_ ?_ ?_ ?_ ?_ ?_ ?_ ?_ ?_ ?_ ?_ ?_ ?_ ?_ ?_
  · intro _
    beta_reduce
    simp only [bind, Except.bind, done, pure, Except.pure]
    all_goals
      intro o h
      cases h
    all_goals
      refine ⟨rfl, fun w hw => ?_⟩
      simp only [List.not_mem_nil, List.mem_map] at hw
  · intro _
    beta_reduce
    unfold cmdECHO
    simp only [bind, Except.bind, done, pure, Except.pure]
    repeat' split
    all_goals
      intro o h
      cases h
    all_goals
      refine ⟨rfl, fun w hw => ?_⟩
      simp only [List.not_mem_nil, List.mem_map] at hw
  · intro _
    beta_reduce
    unfold cmdSET
    simp only [bind, Except.bind, done, pure, Except.pure]
    repeat' split
    all_goals
      intro o h
      cases h
    all_goals
      refine ⟨rfl, fun w hw => ?_⟩
      simp only [List.not_mem_nil, List.mem_map] at hw
  · intro _
    beta_reduce
    unfold cmdGET
    simp only [bind, Except.bind, done, pure, Except.pure]
    repeat' split
    all_goals
      intro o h
      cases h
    all_goals
      refine ⟨rfl, fun w hw => ?_⟩
      simp only [List.not_mem_nil, List.mem_map] at hw
  · intro _
    beta_reduce
    unfold cmdDEL
    simp only [bind, Except.bind, done, pure, Except.pure]
    repeat' split
    all_goals
      intro o h
      cases h
    all_goals
      refine ⟨rfl, fun w hw => ?_⟩
      simp only [List.not_mem_nil, List.mem_map] at hw
  · intro _
    beta_reduce
    unfold cmdCONFIG
    simp only [bind, Except.bind, done, pure, Except.pure]
    repeat' split
    all_goals
      intro o h
      cases h
    all_goals
      refine ⟨rfl, fun w hw => ?_⟩
      simp only [List.not_mem_nil, List.mem_map] at hw
  · intro _
    beta_reduce
    unfold cmdKEYS
    simp only [bind, Except.bind, done, pure, Except.pure]
    all_goals
      intro o h
      cases h
    all_goals
      refine ⟨rfl, fun w hw => ?_⟩
      simp only [List.not_mem_nil, List.mem_map] at hw
  · intro _
    beta_reduce
    unfold cmdINFO
    simp only [bind, Except.bind, done, pure, Except.pure]
    all_goals
      intro o h
      cases h
    all_goals
      refine ⟨rfl, fun w hw => ?_⟩
      simp only [List.not_mem_nil, List.mem_map] at hw
  · intro _
    beta_reduce
    unfold cmdREPLCONF
    simp only [bind, Except.bind, done, pure, Except.pure]
    repeat' split
    all_goals
      intro o h
      cases h
    all_goals
      refine ⟨rfl, fun w hw => ?_⟩
      simp only [List.not_mem_nil, List.mem_map] at hw
  · intro _
    beta_reduce
    unfold cmdPSYNC
    simp only [bind, Except.bind, done, pure, Except.pure]
    all_goals
      intro o h
      cases h
    all_goals
      refine ⟨rfl, fun w hw => ?_⟩
      simp only [List.not_mem_nil, List.mem_map] at hw
  · intro _
    beta_reduce
    unfold cmdWAIT
    simp only [bind, Except.bind, done, pure, Except.pure]
    repeat' split
    all_goals
      intro o h
      cases h
    all_goals
      refine ⟨rfl, fun w hw => ?_⟩
      simp only [List.not_mem_nil, List.mem_map] at hw
    all_goals
      obtain ⟨x, _, rfl⟩ := hw
      rfl
  · intro _
    beta_reduce
    unfold cmdTYPE
    simp only [bind, Except.bind, done, pure, Except.pure]
    repeat' split
    all_goals
      intro o h
      cases h
    all_goals
      refine ⟨rfl, fun w hw => ?_⟩
      simp only [List.not_mem_nil, List.mem_map] at hw
  · intro _
    beta_reduce
    unfold cmdXADD
    simp only [bind, Except.bind, done, pure, Except.pure]
    repeat' split
    all_goals
      intro o h
      cases h
    all_goals
      refine ⟨rfl, fun w hw => ?_⟩
      simp only [List.not_mem_nil, List.mem_map] at hw
  · intro _
    beta_reduce
    unfold cmdLPUSH
    simp only [bind, Except.bind, done, pure, Except.pure]
    repeat' split
    all_goals
      intro o h
      cases h
    all_goals
      refine ⟨rfl, fun w hw => ?_⟩
      simp only [List.not_mem_nil, List.mem_map] at hw
  · intro _
    beta_reduce
    unfold cmdLRANGE
    simp only [bind, Except.bind, done, pure, Except.pure]
    repeat' split
    all_goals
      intro o h
      cases h
    all_goals
      refine ⟨rfl, fun w hw => ?_⟩
      simp only [List.not_mem_nil, List.mem_map] at hw
  · intro _
    beta_reduce
    unfold cmdSADD
    simp only [bind, Except.bind, done, pure, Except.pure]
    repeat' split
    all_goals
      intro o h
      cases h
    all_goals
      refine ⟨rfl, fun w hw => ?_⟩
      simp only [List.not_mem_nil, List.mem_map] at hw
  · intro _
    beta_reduce
    unfold cmdSMEMBERS
    simp only [bind, Except.bind, done, pure, Except.pure]
    repeat' split
    all_goals
      intro o h
      cases h
    all_goals
      refine ⟨rfl, fun w hw => ?_⟩
      simp only [List.not_mem_nil, List.mem_map] at hw
  · intro _
    beta_reduce
    unfold cmdXRANGE
    simp only [bind, Except.bind, done, pure, Except.pure]
    repeat' split
    all_goals
      intro o h
      cases h
    all_goals
      refine ⟨rfl, fun w hw => ?_⟩
      simp only [List.not_mem_nil, List.mem_map] at hw
  · intro _
    beta_reduce
    unfold cmdXREAD
    simp only [bind, Except.bind, done, pure, Except.pure]
    repeat' split
    all_goals
      intro o h
      cases h
    all_goals
      refine ⟨rfl, fun w hw => ?_⟩
      simp only [List.not_mem_nil, List.mem_map] at hw
  · intro _
    beta_reduce
    unfold cmdINCR
    simp only [bind, Except.bind, done, pure, Except.pure]
    repeat' split
    all_goals
      intro o h
      cases h
    all_goals
      refine ⟨rfl, fun w hw => ?_⟩
      simp only [List.not_mem_nil, List.mem_map] at hw
  · intro _
    beta_reduce
    simp only [bind, Except.bind, done, pure, Except.pure]
    all_goals
      intro o h
      cases h
    all_goals
      refine ⟨rfl, fun w hw => ?_⟩
      simp only [List.not_mem_nil, List.mem_map] at hw
  · intro _
    beta_reduce
    simp only [bind, Except.bind, done, pure, Except.pure]
    repeat' split
    all_goals
      intro o h
      cases h
    all_goals
      refine ⟨rfl, fun w hw => ?_⟩
      simp only [List.not_mem_nil, List.mem_map] at hw
  · intro o h
    cases h
    exact ⟨rfl, fun w hw => absurd hw (List.not_mem_nil _)⟩
theorem execLoop_wire (run : List Bytes → Connection → KVStore → Except Fault Outcome)
    (hrun : ∀ args conn kv o, run args conn kv = .ok o →
      o.kv.Info.Role = kv.Info.Role ∧ o.conn.Conn = conn.Conn ∧
        ∀ w ∈ o.sent, w.2 = EncodeArray [lit "REPLCONF", lit "GETACK", lit "*"])
    (q : List (List Bytes)) (conn : Connection) (kv : KVStore) (replies : List Bytes)
    (conn2 : Connection) (kv2 : KVStore) (sent : List (Nat × Bytes))
    (h : execLoop run q conn kv = .ok (replies, conn2, kv2, sent)) :
    kv2.Info.Role = kv.Info.Role ∧ conn2.Conn = conn.Conn ∧
      ∀ w ∈ sent, w.2 = EncodeArray [lit "REPLCONF", lit "GETACK", lit "*"] := by
  induction q generalizing conn kv replies conn2 kv2 sent with
  | nil =>
    simp only [execLoop, Except.ok.injEq, Prod.mk.injEq] at h
    obtain ⟨-, rfl, rfl, rfl⟩ := h
    exact ⟨rfl, rfl, fun w hw => absurd hw (List.not_mem_nil _)⟩
  | cons c q ih =>
    simp only [execLoop, bind, Except.bind] at h
    cases h1 : run c conn kv with
    | error e =>
      rw [h1] at h
      cases h
    | ok o =>
      rw [h1] at h
      simp only at h
      cases h2 : execLoop run q o.conn o.kv with
      | error e =>
        rw [h2] at h
        cases h
      | ok r =>
        obtain ⟨rs, c2, k2, snt⟩ := r
        rw [h2] at h
        simp only [pure, Except.pure, Except.ok.injEq, Prod.mk.injEq] at h
        obtain ⟨-, rfl, rfl, rfl⟩ := h
        obtain ⟨a1, a2, a3⟩ := hrun c conn kv o h1
        obtain ⟨b1, b2, b3⟩ := ih o.conn o.kv rs c2 k2 snt h2
        refine ⟨by rw [b1, a1], by rw [b2, a2], fun w hw => ?_⟩
        rcases List.mem_append.mp hw with hw | hw
        · exact a3 w hw
        · exact b3 w hw

/-- No call of `processCommand` changes the role of the server or the socket of the
connection, and the only frames that a call hands to replica sockets are the
`REPLCONF GETACK *` of `WAIT`. -/
theorem processCommand_wire (fuel : Nat) (env : Env) (args : List Bytes) (conn : Connection)
    (kv : KVStore) (o : Outcome) (h : processCommand fuel env args conn kv = .ok o) :
    o.kv.Info.Role = kv.Info.Role ∧ o.conn.Conn = conn.Conn ∧
      ∀ w ∈ o.sent, w.2 = EncodeArray [lit "REPLCONF", lit "GETACK", lit "*"] := by
  induction fuel generalizing args conn kv o with
  | zero =>
    cases args with
    | nil => simp [processCommand, processWith, idx] at h
    | cons a rest =>
      by_cases he : toUpper a = lit "EXEC"
      · cases hst : conn.TxnStarted with
        | false =>
          simp only [processCommand, processWith, idx, List.getElem?_cons_zero, he, if_true, hst,
            Bool.false_eq_true, not_false_eq_true, done, Except.ok.injEq] at h
          rw [← h]
          exact ⟨rfl, rfl, fun w hw => absurd hw (List.not_mem_nil _)⟩
        | true =>
          simp [processCommand, processWith, idx, he, hst] at h
      · rw [processCommand_not_EXEC _ _ _ _ _ _ he] at h
        exact ⟨(dispatch_frame env _ _ conn kv o h).1, dispatch_wire env _ _ conn kv o h⟩
  | succ f ih =>
    cases args with
    | nil => simp [processCommand, processWith, idx] at h
    | cons a rest =>
      by_cases he : toUpper a = lit "EXEC"
      · cases hst : conn.TxnStarted with
        | false =>
          simp only [processCommand, processWith, idx, List.getElem?_cons_zero, he, if_true, hst,
            Bool.false_eq_true, not_false_eq_true, done, Except.ok.injEq] at h
          rw [← h]
          exact ⟨rfl, rfl, fun w hw => absurd hw (List.not_mem_nil _)⟩
        | true =>
          simp only [processCommand, processWith, idx, List.getElem?_cons_zero, he, if_true, hst,
            not_true_eq_false, if_false] at h
          cases hl : execLoop (processCommand f env) conn.TxnQueue conn kv with
          | error e =>
            rw [hl] at h
            cases h
          | ok r =>
            obtain ⟨rs, c2, k2, snt⟩ := r
            rw [hl] at h
            simp only [Except.ok.injEq] at h
            obtain ⟨b1, b2, b3⟩ := execLoop_wire (processCommand f env)
              (fun args conn kv o ho => ih args conn kv o ho) conn.TxnQueue conn kv rs c2 k2 snt hl
            rw [← h]
            exact ⟨b1, b2, b3⟩
      · rw [processCommand_not_EXEC _ _ _ _ _ _ he] at h
        exact ⟨(dispatch_frame env _ _ conn kv o h).1, dispatch_wire env _ _ conn kv o h⟩

/-- One turn of the loop on a primary for a command that is not a `SET` outside a
transaction: the loop writes the reply to the client, and before it only what the dispatcher
has handed to replica sockets, which are `REPLCONF GETACK *` frames. -/
theorem handleArgs_not_forwarded (fuel : Nat) (env : Env) (a : Bytes) (rest : List Bytes)
    (s s1 : Session) (hrole : s.kv.Info.Role ≠ lit "slave")
    (hv : toUpper a ≠ lit "SET" ∨ s.conn.TxnStarted = true)
    (h : handleArgs fuel env (a :: rest) s = .ok s1) :
    ∃ front reply, s1.wire = s.wire ++ front ++ [(s.conn.Conn, reply)] ∧
      ∀ w ∈ front, w.2 = EncodeArray [lit "REPLCONF", lit "GETACK", lit "*"] := by
  simp only [handleArgs, idx, List.getElem?_cons_zero, bind, Except.bind] at h
  by_cases hq : s.conn.TxnStarted = true ∧
      ¬ (toUpper a = lit "EXEC" ∨ toUpper a = lit "DISCARD")
  · rw [if_pos hq] at h
    simp only [pure, Except.pure, Except.ok.injEq] at h
    rw [← h]
    exact ⟨[], lit "+QUEUED\r\n", by simp, fun w hw => absurd hw (List.not_mem_nil _)⟩
  · rw [if_neg hq] at h
    have hset : toUpper a ≠ lit "SET" := by
      rcases hv with hv | hv
      · exact hv
      · intro e
        apply hq
        refine ⟨hv, ?_⟩
        rw [e]
        decide
    cases hp : processCommand fuel env (a :: rest) s.conn s.kv with
    | error e =>
      rw [hp] at h
      cases h
    | ok o =>
      obtain ⟨h1, h2, h3⟩ := processCommand_wire fuel env (a :: rest) s.conn s.kv o hp
      have hr : ¬ o.kv.Info.Role = lit "slave" := by rw [h1]; exact hrole
      rw [hp] at h
      simp only [hr, if_false, hset, pure, Except.pure, Except.ok.injEq, List.append_nil] at h
      rw [← h]
      exact ⟨o.sent, o.reply, by rw [h2], h3⟩
/-- C19 (amended). On a primary, the connection loop forwards `SET` and no other command.
For every sequence of `SET k v` commands that a client sends outside a transaction, the loop
writes, after each reply, the exact wire encoding `EncodeArray(args)` of the command to every
registered replica connection, in the order in which the writes were applied.  The same
holds for one `SET` with any further arguments, whatever the case of the verb.  After any
other command, that is a command with another verb or any command on a connection that is in
a transaction (`EXEC` with the writes that it runs included), the loop writes the reply to
the client and, before it, nothing but the `REPLCONF GETACK *` frames of `WAIT`. -/
theorem set_propagation (fuel : Nat) (now : Int) (client : Nat) (kv : KVStore)
    (sets : List (Bytes × Bytes)) (hrole : kv.Info.Role ≠ lit "slave") :
    (∃ s1,
      handleAll fuel (commandsAt now (sets.map (fun p => [lit "SET", p.1, p.2])))
        (freshSession kv client) = .ok s1 ∧
      s1.wire = sets.flatMap (fun p => (client, lit "+SET DONE\r\n") ::
        kv.Info.slaves.map (fun slave => (slave, EncodeArray [lit "SET", p.1, p.2])))) ∧
    (∀ env a k v more s, toUpper a = lit "SET" → s.conn.TxnStarted = false →
      s.kv.Info.Role ≠ lit "slave" →
      ∃ s1, handleArgs fuel env (a :: k :: v :: more) s = .ok s1 ∧
        s1.wire = s.wire ++ (s.conn.Conn, lit "+SET DONE\r\n") ::
          s.kv.Info.slaves.map (fun slave => (slave, EncodeArray (a :: k :: v :: more)))) ∧
    (∀ env a rest s s1, s.kv.Info.Role ≠ lit "slave" →
      (toUpper a ≠ lit "SET" ∨ s.conn.TxnStarted = true) →
      handleArgs fuel env (a :: rest) s = .ok s1 →
      ∃ front reply, s1.wire = s.wire ++ front ++ [(s.conn.Conn, reply)] ∧
        ∀ w ∈ front, w.2 = EncodeArray [lit "REPLCONF", lit "GETACK", lit "*"]) := by
  refine ⟨?_, ?_, ?_⟩
  · obtain ⟨s1, h1, hw1, -⟩ :=
      handleAll_sets_primary fuel now sets (freshSession kv client) rfl hrole
    refine ⟨s1, h1, ?_⟩
    rw [hw1]
    rfl
  · intro env a k v more s hverb htxn hr
    obtain ⟨s1, h1, hw1, -⟩ := handleArgs_SET fuel env a k v more s hverb htxn hr
    exact ⟨s1, h1, hw1⟩
  · intro env a rest s s1 hr hv h
    exact handleArgs_not_forwarded fuel env a rest s s1 hr hv h

/-- C19 (amended) for a primary with the replicas 7 and 8 and a client on socket 3 that sends
`SET a 1`, `SET b 2`, `SET a 3`: each replica is sent the three frames in this order. -/
theorem set_propagation_witness :
    ∃ s1,
      handleAll 0
        (commandsAt 0 ([(lit "a", lit "1"), (lit "b", lit "2"), (lit "a", lit "3")].map
          (fun p => [lit "SET", p.1, p.2])))
        (freshSession { New with Info := { New.Info with slaves := [7, 8] } } 3) = .ok s1 ∧
      s1.wire = [(lit "a", lit "1"), (lit "b", lit "2"), (lit "a", lit "3")].flatMap
        (fun p => (3, lit "+SET DONE\r\n") ::
          ({ New with Info := { New.Info with slaves := [7, 8] } } : KVStore).Info.slaves.map
            (fun slave => (slave, EncodeArray [lit "SET", p.1, p.2]))) :=
  (set_propagation 0 0 3 { New with Info := { New.Info with slaves := [7, 8] } }
    [(lit "a", lit "1"), (lit "b", lit "2"), (lit "a", lit "3")] (by decide)).1

/-- The case that `del_spec` leaves out.  After `SET k v PX 100000`, `DEL k`, `SET k w`, the
channel that `expiryMap` records for `k` belongs to a goroutine that has ended; a second
`DEL k` sends on it and never replies. -/
theorem del_blocks_on_stale_channel :
    ∃ s, handleAll 0
        (commandsAt 0 [[lit "SET", lit "k", lit "v", lit "PX", lit "100000"], [lit "DEL", lit "k"],
          [lit "SET", lit "k", lit "w"]])
        (freshSession New 3) = .ok s ∧
      s.wire = [(3, lit "+SET DONE\r\n"), (3, lit ":1\r\n"), (3, lit "+SET DONE\r\n")] ∧
      mapGet s.kv.store (lit "k") = some (lit "w") ∧
      mapGet s.kv.expiryMap (lit "k") = some 0 ∧ s.kv.expirers = [] ∧
      handleAll 0 (commandsAt 0 [[lit "DEL", lit "k"]]) s = .error .blocked :=
  ⟨_, rfl, rfl, rfl, rfl, rfl, rfl⟩

/-- The verbs that Go's `strings.ToUpper` makes of runes outside ASCII: U+017F followed by
`et` is the verb `SET`, and `d`, U+0131, `scard` is the verb `DISCARD`, which is not queued
inside a transaction but empties the queue; `bloc` followed by U+212A is `block`. -/
theorem verbs_outside_ascii :
    toUpper ([Char.ofNat 0xC5, Char.ofNat 0xBF] ++ lit "et") = lit "SET" ∧
    toUpper (lit "d" ++ [Char.ofNat 0xC4, Char.ofNat 0xB1] ++ lit "scard") = lit "DISCARD" ∧
    toLower (lit "bloc" ++ [Char.ofNat 0xE2, Char.ofNat 0x84, Char.ofNat 0xAA]) = lit "block" ∧
    ¬ queueable [lit "d" ++ [Char.ofNat 0xC4, Char.ofNat 0xB1] ++ lit "scard"] ∧
    ∃ s, handleAll 0
        (commandsAt 0 [[lit "MULTI"], [lit "GET", lit "k"],
          [lit "d" ++ [Char.ofNat 0xC4, Char.ofNat 0xB1] ++ lit "scard"],
          [[Char.ofNat 0xC5, Char.ofNat 0xBF] ++ lit "et", lit "k", lit "v"]])
        (freshSession New 3) = .ok s ∧
      s.wire = [(3, lit "+OK\r\n"), (3, lit "+QUEUED\r\n"), (3, lit "+OK\r\n"),
        (3, lit "+SET DONE\r\n")] ∧
      s.conn = freshConn 3 ∧ s.kv.store = [(lit "k", lit "v")] :=
  ⟨by decide, by decide, by decide, by decide, _, rfl, rfl, rfl, rfl⟩

end Wardrobe
